import Mathlib

/-!
# yamldoc-go docgen: a shallow embedding of the documentation graph builder

The development embeds the multi-module generator `cmd/docgen/dst/dst.go`
(namespace `Dst`). The comment parser `parseComment` and `escape` are the
same in the single-module generator `cmd/docgen/docgen.go` and live in the
outer namespace.

Go strings are Lean strings; string helpers are written over `List Char`
with structural recursion so that every definition evaluates in the kernel.
Calls into libraries outside the repository whose behaviour the code only
consumes (`yaml.Unmarshal`, `strings.ToLower`, `strings.EqualFold`) are the
fields of a `Lib` record passed to the functions that use them.
-/

namespace Yamldoc

/-! ## Strings -/

/-- The part of `cs` before its first newline: `strings.Split(s, "\n")[0]`. -/
def firstLineChars : List Char → List Char
  | [] => []
  | c :: cs => if c = '\n' then [] else c :: firstLineChars cs

/-- The part of `cs` after its first newline, empty when there is none:
`strings.Join(strings.Split(s, "\n")[1:], "\n")`. -/
def restLinesChars : List Char → List Char
  | [] => []
  | c :: cs => if c = '\n' then cs else restLinesChars cs

/-- First line of a string. -/
def firstLine (s : String) : String := ⟨firstLineChars s.data⟩

/-- Everything after the first line of a string. -/
def restLines (s : String) : String := ⟨restLinesChars s.data⟩

/-- The predicate `unicode.IsSpace`. -/
def isSpace (c : Char) : Bool :=
  let n := c.toNat
  n = 0x20 || (0x09 ≤ n && n ≤ 0x0D) || n = 0x85 || n = 0xA0 || n = 0x1680 ||
  (0x2000 ≤ n && n ≤ 0x200A) || n = 0x2028 || n = 0x2029 || n = 0x202F ||
  n = 0x205F || n = 0x3000

/-- Drop leading white space. -/
def trimLeftChars : List Char → List Char
  | [] => []
  | c :: cs => if isSpace c then trimLeftChars cs else c :: cs

/-- Drop leading and trailing white space of a character list. -/
def trimSpaceChars (cs : List Char) : List Char :=
  (trimLeftChars (trimLeftChars cs).reverse).reverse

/-- The function `strings.TrimSpace`. -/
def trimSpace (s : String) : String := ⟨trimSpaceChars s.data⟩

/-- Both replacements of `escape` in one pass: a double quote becomes
backslash-quote, a newline becomes backslash-n. The two `strings.ReplaceAll`
calls act on single characters and neither output contains the other
pattern, so a single pass gives the same string. -/
def escapeChars : List Char → List Char
  | [] => []
  | c :: cs =>
    if c = '"' then '\\' :: '"' :: escapeChars cs
    else if c = '\n' then '\\' :: 'n' :: escapeChars cs
    else c :: escapeChars cs

/-- The function `escape` of both generators. -/
def escape (value : String) : String := ⟨trimSpaceChars (escapeChars value.data)⟩

/-- Whether `p` is an initial segment of `cs`. -/
def startsWithChars : List Char → List Char → Bool
  | [], _ => true
  | _ :: _, [] => false
  | p :: ps, c :: cs => p == c && startsWithChars ps cs

/-- Whether `p` occurs in `cs`: `strings.Contains`. -/
def containsChars (p : List Char) : List Char → Bool
  | [] => startsWithChars p []
  | c :: cs => startsWithChars p (c :: cs) || containsChars p cs

/-- The function `strings.Contains`. -/
def strContains (s sub : String) : Bool := containsChars sub.data s.data

/-- The function `strings.TrimPrefix`. -/
def trimPrefixChars (p cs : List Char) : List Char :=
  if startsWithChars p cs then cs.drop p.length else cs

/-- The part before the first comma: `strings.Split(s, ",")[0]`. -/
def beforeCommaChars : List Char → List Char
  | [] => []
  | c :: cs => if c = ',' then [] else c :: beforeCommaChars cs

/-- Number of commas: `strings.Count(s, ",")`. -/
def countCommas (s : String) : Nat := s.data.count ','

/-- Everything after the last slash of a character list. -/
def afterLastSlash : List Char → List Char
  | [] => []
  | c :: cs => if cs.contains '/' then afterLastSlash cs else
      if c = '/' then cs else c :: cs

/-- Remove trailing slashes. -/
def stripTrailingSlashes (cs : List Char) : List Char :=
  (cs.reverse.dropWhile (fun c => c == '/')).reverse

/-- The function `path.Base`. -/
def pathBase (p : String) : String :=
  if p = "" then "." else
    let q := afterLastSlash (stripTrailingSlashes p.data)
    if q = [] then "/" else ⟨q⟩

/-- Lead byte of the UTF-8 encoding of a character: `s[0]` for a string that
starts with that character. -/
def leadByte (c : Char) : Nat :=
  let n := c.toNat
  if n < 0x80 then n
  else if n < 0x800 then 0xC0 + n / 0x40
  else if n < 0x10000 then 0xE0 + n / 0x1000
  else 0xF0 + n / 0x40000

/-- The predicate `unicode.IsUpper` on a rune below 256, which is what
`unicode.IsUpper(rune(name[0]))` evaluates: `name[0]` is a byte. -/
def isUpperByte (b : Nat) : Bool :=
  (0x41 ≤ b && b ≤ 0x5A) || (0xC0 ≤ b && b ≤ 0xD6) || (0xD8 ≤ b && b ≤ 0xDE)

/-! ## Documentation text -/

/-- Go type `Example`. -/
structure Example where
  Name : String
  Value : String
  deriving DecidableEq, Repr

/-- Go type `Text`. -/
structure Text where
  Comment : String := ""
  Description : String := ""
  Examples : List Example := []
  Values : List String := []
  deriving DecidableEq, Repr

/-- Outcome of `yaml.Unmarshal(data, text)`: the text as the decoder left it
and whether it returned an error. -/
structure Decoded where
  text : Text
  failed : Bool

/-- Library functions the generators call. -/
structure Lib where
  /-- The call `yaml.Unmarshal([]byte(data), text)`. -/
  unmarshal : String → Text → Decoded
  /-- The function `strings.ToLower`. -/
  toLower : String → String
  /-- The function `strings.EqualFold`. -/
  equalFold : String → String → Bool

/-- The text of `parseComment` as it stands before the final escaping step
(lines 554-570 of dst.go, 225-241 of docgen.go). -/
def parseCommentRaw (L : Lib) (comment : String) : Text :=
  let d1 := L.unmarshal comment {}
  if d1.failed then
    -- not yaml, fallback
    let text := { d1.text with Description := comment }
    let text := { text with Comment := firstLine text.Description }
    let d2 := L.unmarshal (restLines text.Description) text
    if d2.failed then d2.text
    else { d2.text with Description := d2.text.Comment }
  else
    let text := { d1.text with Description := trimSpace d1.text.Description }
    { text with Comment := firstLine text.Description }

/-- The escaping step that ends `parseComment`. -/
def escapeText (text : Text) : Text :=
  { text with
    Description := escape text.Description
    Examples := text.Examples.map
      (fun ex => { Name := escape ex.Name, Value := trimSpace ex.Value }) }

/-- The function `parseComment`, the same in both generators. -/
def parseComment (L : Lib) (comment : String) : Text :=
  escapeText (parseCommentRaw L comment)


/-! ## The multi-module generator, `cmd/docgen/dst/dst.go` -/

namespace Dst

/-- The syntax object an identifier resolves to (`dst.Object`): its name and
its declaration node, the latter as an index into `Program.decls`. -/
structure Obj where
  Name : String
  Decl : Nat
  deriving DecidableEq, Repr

/-- Go type `dst.Ident`: `Path` is the import path of a qualified identifier
(empty for a local one), `Obj` is nil for an identifier that is not resolved
in its own file. -/
structure Ident where
  Name : String
  Path : String := ""
  Obj : Option Obj := none
  deriving DecidableEq, Repr

/-- The method `(*dst.Ident).String`. -/
def Ident.String (t : Ident) : String :=
  if t.Path ≠ "" then t.Path ++ "." ++ t.Name else t.Name

/-- Type expressions (`dst.Expr`) by the shapes the generator tells apart. A
`structType` here is an anonymous struct inside a member type, whose members
the generator never reads; `other` stands for every remaining shape
(function, channel, ...). -/
inductive Expr where
  | ident (t : Ident)
  | mapType (Key Value : Expr)
  | arrayType (Elt : Expr)
  | structType
  | starExpr (X : Expr)
  | selectorExpr (X : Expr) (Sel : Ident)
  | interfaceType
  | other
  deriving DecidableEq, Repr

/-- A member of a record (`dst.Field`); `Typ` is its field `Type`. `Tag` is nil or the value of
`reflect.StructTag(strings.Trim(f.Tag.Value, backtick)).Get("yaml")`; `Decs`
is `f.Decorations().Start.All()`. -/
structure FieldDecl where
  Names : List String
  Typ : Expr
  Tag : Option String
  Decs : List String
  deriving DecidableEq, Repr

/-- The field `Type` of a `dst.TypeSpec`: nil, a record with its members, or
any other type expression. -/
inductive SpecType where
  | nil
  | structType (Fields : List FieldDecl)
  | other
  deriving DecidableEq, Repr

/-- Go type `dst.TypeSpec` with its start decorations; `Typ` is its field `Type`. -/
structure TypeSpec where
  Name : String
  Typ : SpecType
  Decs : List String := []
  deriving DecidableEq, Repr

/-- A declaration node as the generator tells them apart: `*dst.TypeSpec`
or anything else (import, value, function declaration). -/
inductive Spec where
  | typeSpec (t : TypeSpec)
  | other
  deriving DecidableEq, Repr

/-- Go type `dst.GenDecl` with its start decorations. -/
structure GenDecl where
  Decs : List String := []
  Specs : List Spec
  deriving DecidableEq, Repr

/-- A source file, as the sequence of `*dst.GenDecl` nodes that `dst.Inspect`
visits in it. -/
abbrev File := List GenDecl

/-- Go type `decorator.Package`; an import maps a path to the index of a
package in `Program.pkgs`. -/
structure Package where
  Syntax : List File
  Imports : List (String × Nat) := []
  deriving DecidableEq, Repr

/-- Everything the loader hands to the generator: the packages, and the
declaration nodes that identifiers resolve to. -/
structure Program where
  pkgs : List Package
  decls : List Spec
  deriving DecidableEq, Repr

/-- Go type `Field`; `Typ` is its field `Type`. -/
structure Field where
  Name : String
  Typ : String
  TypeRef : String
  Text : Text
  Tag : String
  Note : String := ""
  embeddedStruct : String := ""
  deriving DecidableEq, Repr

/-- Go type `collectStructOptions`. -/
structure collectStructOptions where
  pkg : Nat
  structName : String
  packagePrefix : String := ""
  deriving DecidableEq, Repr

/-- Go type `structType`. -/
structure structType where
  node : List FieldDecl
  pkg : Nat
  name : String
  text : Text
  fields : List Field
  packagePrefix : String
  deriving DecidableEq, Repr

/-- Go type `Appearance`; the pointer to the owning `Struct` is its position
in `Doc.Structs`. -/
structure Appearance where
  Struct : Nat
  FieldName : String
  deriving DecidableEq, Repr

/-- Go type `Struct`. -/
structure Struct where
  name : String
  packagePrefix : String
  Text : Text
  Fields : List Field
  AppearsIn : List Appearance := []
  deriving DecidableEq, Repr

/-- Go type `Doc`. -/
structure Doc where
  Name : String
  Package : String
  Title : String := ""
  Header : String := ""
  File : String
  Structs : List Struct
  deriving DecidableEq, Repr

/-- Ways a run ends without a result: the recursion budget of the embedding
is used up, a Go run-time panic, or `log.Fatalf`. -/
inductive Err where
  | fuel
  | panic (msg : String)
  | fatal (msg : String)
  deriving DecidableEq, Repr

/-- The function `wrapStructName`. -/
def wrapStructName (pfx suffix : String) : String :=
  if pfx = "" then suffix else pfx ++ "." ++ suffix

/-- The method `(*Struct).GetName`. -/
def Struct.GetName (s : Struct) : String := wrapStructName s.packagePrefix s.name

/-- The `*dst.Ident` case of `getFieldType` and `formatFieldType`. -/
def identFieldType (t : Ident) (pfx : String) (apply : Bool) : String :=
  if t.Path ≠ "" then wrapStructName (pathBase t.Path) t.Name
  else if apply && pfx ≠ "" then wrapStructName pfx t.Name
  else t.Name

/-- The function `getFieldType`. -/
def getFieldType : Expr → String → Bool → String
  | .mapType _ v, pfx, _ => getFieldType v pfx false
  | .ident t, pfx, apply => identFieldType t pfx apply
  | .arrayType e, pfx, _ => getFieldType e pfx false
  | .starExpr x, pfx, _ => getFieldType x pfx true
  | .selectorExpr _ sel, pfx, _ => identFieldType sel pfx false
  | _, _, _ => ""

/-- The function `formatFieldType`. -/
def formatFieldType : Expr → String → Bool → String
  | .mapType k v, pfx, _ =>
    "map[" ++ formatFieldType k pfx false ++ "]" ++ formatFieldType v pfx false
  | .ident t, pfx, apply => identFieldType t pfx apply
  | .arrayType e, pfx, _ => "[]" ++ formatFieldType e pfx false
  | .structType, _, _ => "struct"
  | .starExpr x, pfx, _ => formatFieldType x pfx true
  | .selectorExpr _ sel, pfx, _ => identFieldType sel pfx false
  | .interfaceType, _, _ => "interface{}"
  | .other, _, _ => ""

/-- The function `uncommentDecorationNode`, on the start decorations of the
node. -/
def uncommentDecorationNode (parts : List String) : String :=
  "\n".intercalate (parts.map (fun part => ⟨trimPrefixChars ['/', '/'] part.data⟩))

/-- The global `uniqueStructures`, as the list of its keys. -/
abbrev Unique := List String

/-- A result together with the dedup set the call leaves behind. -/
abbrev Res (α : Type) := Except Err (α × Unique)

/-- The pair `(*structType, []*structType)` the collectors return; nil
pointers are `none`. -/
abbrev Found := Option structType × List (Option structType)

/-- The signature of `parseStructuresFromDSTSpec`: decorations of `node`,
`spec`, options, dedup set. -/
abbrev ParseFn := List String → Spec → collectStructOptions → Unique → Res Found

/-- The accumulation step shared by `collectStructsWithOpts` and
`collectStructsFromDSTNode`: the first non-nil `parsed` becomes `mainStruct`,
later ones are appended to `extras`, then `extra` is appended. -/
def addParsed (acc r : Found) : Found :=
  let extras :=
    match r.1 with
    | none => acc.2
    | some p =>
      match acc.1 with
      | none => acc.2
      | some _ => acc.2 ++ [some p]
  let mainStruct :=
    match r.1 with
    | none => acc.1
    | some p =>
      match acc.1 with
      | none => some p
      | some m => some m
  (mainStruct, extras ++ r.2)

/-- The loop `for _, spec := range g.Specs` of `collectStructsFromDSTNode`. -/
def specsLoop (parse : ParseFn) (decs : List String) (opts : collectStructOptions) :
    List Spec → Found → Unique → Res Found
  | [], acc, u => .ok (acc, u)
  | spec :: rest, acc, u =>
    match parse decs spec opts u with
    | .error e => .error e
    | .ok (r, u1) => specsLoop parse decs opts rest (addParsed acc r) u1

/-- The traversal `dst.Inspect(node, collectStructs)` over the declarations
of a file. -/
def genDeclsLoop (parse : ParseFn) (opts : collectStructOptions) :
    List GenDecl → Found → Unique → Res Found
  | [], acc, u => .ok (acc, u)
  | g :: rest, acc, u =>
    match specsLoop parse g.Decs opts g.Specs acc u with
    | .error e => .error e
    | .ok (acc1, u1) => genDeclsLoop parse opts rest acc1 u1

/-- The function `collectStructsFromDSTNode`. -/
def collectStructsFromDSTNode (parse : ParseFn) (node : File)
    (collectOpts : collectStructOptions) (u : Unique) : Res Found :=
  genDeclsLoop parse collectOpts node (none, []) u

/-- The loop `for _, spec := range collectOpts.pkg.Syntax` of
`collectStructsWithOpts`. -/
def filesLoop (parse : ParseFn) (opts : collectStructOptions) :
    List File → Found → Unique → Res Found
  | [], acc, u => .ok (acc, u)
  | file :: rest, acc, u =>
    match collectStructsFromDSTNode parse file opts u with
    | .error e => .error e
    | .ok (r, u1) => filesLoop parse opts rest (addParsed acc r) u1

/-- The function `collectStructsWithOpts`. -/
def collectStructsWithOpts (P : Program) (parse : ParseFn)
    (collectOpts : collectStructOptions) (u : Unique) : Res Found :=
  match P.pkgs[collectOpts.pkg]? with
  | none => .error (.panic "nil pointer dereference: collectOpts.pkg")
  | some pkg => filesLoop parse collectOpts pkg.Syntax (none, []) u

/-- The second half of the `*dst.Ident` case of
`collectUnresolvedExternalStructs`: `if t.Path != ""`. -/
def unresolvedPath (P : Program) (parse : ParseFn) (t : Ident)
    (results : List (Option structType)) (collectOpts : collectStructOptions)
    (u : Unique) : Res (List (Option structType)) :=
  if t.Path ≠ "" then
    if t.String ∈ u then .ok (results, u)
    else
      match P.pkgs[collectOpts.pkg]? with
      | none => .error (.panic "nil pointer dereference: collectOpts.pkg")
      | some pkg =>
        match pkg.Imports.lookup t.Path with
        | none => .ok (results, t.String :: u)
        | some structPackage =>
          match collectStructsWithOpts P parse
              { pkg := structPackage, structName := t.Name,
                packagePrefix := pathBase t.Path } (t.String :: u) with
          | .error e => .error e
          | .ok ((main, extra), u1) => .ok (results ++ [main] ++ extra, u1)
  else .ok (results, u)

/-- The `*dst.Ident` case of `collectUnresolvedExternalStructs`. -/
def unresolvedIdent (P : Program) (parse : ParseFn) (t : Ident)
    (results : List (Option structType)) (collectOpts : collectStructOptions)
    (u : Unique) : Res (List (Option structType)) :=
  match t.Obj with
  | none => unresolvedPath P parse t results collectOpts u
  | some obj =>
    match P.decls[obj.Decl]? with
    | some (.typeSpec spec) =>
      if obj.Name ∈ u then .ok (results, u)
      else
        match parse spec.Decs (.typeSpec spec)
            { pkg := collectOpts.pkg, structName := t.Name,
              packagePrefix := collectOpts.packagePrefix } (obj.Name :: u) with
        | .error e => .error e
        | .ok ((main, extra), u1) =>
          unresolvedPath P parse t (results ++ [main] ++ extra) collectOpts u1
    | _ => .error (.panic "interface conversion: t.Obj.Decl is not *dst.TypeSpec")

/-- The function `collectUnresolvedExternalStructs`; the slice behind the
pointer `results` is passed in and returned. -/
def collectUnresolvedExternalStructs (P : Program) (parse : ParseFn) :
    Expr → List (Option structType) → collectStructOptions → Unique →
      Res (List (Option structType))
  | .mapType k v, results, collectOpts, u =>
    match collectUnresolvedExternalStructs P parse k results collectOpts u with
    | .error e => .error e
    | .ok (results1, u1) =>
      collectUnresolvedExternalStructs P parse v results1 collectOpts u1
  | .ident t, results, collectOpts, u => unresolvedIdent P parse t results collectOpts u
  | .arrayType e, results, collectOpts, u =>
    collectUnresolvedExternalStructs P parse e results collectOpts u
  | .starExpr x, results, collectOpts, u =>
    collectUnresolvedExternalStructs P parse x results collectOpts u
  | .selectorExpr _ sel, results, collectOpts, u =>
    unresolvedIdent P parse sel results collectOpts u
  | _, results, _, u => .ok (results, u)

/-- What one iteration of the member loop of `collectFields` does: go on to
the next member with the lists as they now stand, or leave the function by the
bare `return` of line 356, which returns the fields so far and a nil
structure list. -/
inductive FieldStep where
  | next (fields : List Field) (foundStructures : List (Option structType)) (u : Unique)
  | ret (fields : List Field) (u : Unique)

/-- The tail of the embedded-member branch of `collectFields`: splice the
fields of `structure` and keep `extra`. -/
def spliceEmbedded (fields : List Field) (foundStructures : List (Option structType))
    (r : Found) (u : Unique) : Except Err FieldStep :=
  match r.1 with
  | none => .error (.panic "nil pointer dereference: structure.fields")
  | some embedded => .ok (.next (fields ++ embedded.fields) (foundStructures ++ r.2) u)

/-- The branch `len(f.Names) == 0` of `collectFields`. -/
def embeddedStep (P : Program) (parse : ParseFn) (collectOpts : collectStructOptions)
    (f : FieldDecl) (fields : List Field) (foundStructures : List (Option structType))
    (u : Unique) : Except Err FieldStep :=
  match f.Typ with
  | .ident ident =>
    if ident.Path ≠ "" then
      match P.pkgs[collectOpts.pkg]? with
      | none => .error (.panic "nil pointer dereference: collectOpts.pkg")
      | some pkg =>
        match pkg.Imports.lookup ident.Path with
        | none => .ok (.ret fields u)
        | some structPackage =>
          match collectStructsWithOpts P parse
              { pkg := structPackage, structName := ident.Name,
                packagePrefix := pathBase ident.Path } u with
          | .error e => .error e
          | .ok (r, u1) => spliceEmbedded fields foundStructures r u1
    else
      match ident.Obj with
      | some obj =>
        match P.decls[obj.Decl]? with
        | some (.typeSpec spec) =>
          match parse spec.Decs (.typeSpec spec)
              { pkg := collectOpts.pkg, structName := ident.Name,
                packagePrefix := collectOpts.packagePrefix } u with
          | .error e => .error e
          | .ok (r, u1) => spliceEmbedded fields foundStructures r u1
        | _ => .error (.panic "interface conversion: ident.Obj.Decl is not *dst.TypeSpec")
      | none => spliceEmbedded fields foundStructures (none, []) u
  | _ => .ok (.next fields foundStructures u)

/-- The branch of `collectFields` for a member with a name. -/
def namedStep (L : Lib) (P : Program) (parse : ParseFn) (s : structType)
    (collectOpts : collectStructOptions) (f : FieldDecl) (name yamlTag documentation : String)
    (fields : List Field) (foundStructures : List (Option structType)) (u : Unique) :
    Except Err FieldStep :=
  match name.data with
  | [] => .error (.panic "index out of range: name[0]")
  | c :: _ =>
    -- Public fields only
    if !isUpperByte (leadByte c) then .ok (.next fields foundStructures u)
    else
      let fieldType := formatFieldType f.Typ s.packagePrefix false
      let fieldTypeRef := getFieldType f.Typ s.packagePrefix false
      match collectUnresolvedExternalStructs P parse f.Typ foundStructures collectOpts u with
      | .error e => .error e
      | .ok (found1, u1) =>
        let field : Field :=
          { Name := name, Tag := yamlTag, Typ := fieldType, TypeRef := fieldTypeRef,
            Text := parseComment L documentation }
        .ok (.next (fields ++ [field]) found1 u1)

/-- One iteration of the loop `for _, f := range s.node.Fields.List` of
`collectFields`. -/
def fieldStep (L : Lib) (P : Program) (parse : ParseFn) (s : structType)
    (collectOpts : collectStructOptions) (f : FieldDecl) (fields : List Field)
    (foundStructures : List (Option structType)) (u : Unique) : Except Err FieldStep :=
  match f.Tag with
  | none =>
    match f.Names with
    | _ :: _ => .ok (.next fields foundStructures u)
    | [] => .error (.panic "nil pointer dereference: f.Tag")
  | some yamlTags =>
    let yamlTag : String := ⟨beforeCommaChars yamlTags.data⟩
    if (yamlTag = "" ∨ yamlTag = "-") ∧ countCommas yamlTags < 1 then
      .ok (.next fields foundStructures u)
    else
      let yamlTag := L.toLower yamlTag
      let documentation := uncommentDecorationNode f.Decs
      if documentation = "" then
        match f.Names with
        | [] => .error (.panic "index out of range: f.Names[0]")
        | _ :: _ => .ok (.next fields foundStructures u)
      else if strContains documentation "docgen:nodoc" then
        .ok (.next fields foundStructures u)
      else
        match f.Names with
        | [] => embeddedStep P parse collectOpts f fields foundStructures u
        | name :: _ =>
          namedStep L P parse s collectOpts f name yamlTag documentation fields
            foundStructures u

/-- The member loop of `collectFields`. -/
def fieldsLoop (L : Lib) (P : Program) (parse : ParseFn) (s : structType)
    (collectOpts : collectStructOptions) :
    List FieldDecl → List Field → List (Option structType) → Unique →
      Res (List Field × List (Option structType))
  | [], fields, foundStructures, u => .ok ((fields, foundStructures), u)
  | f :: rest, fields, foundStructures, u =>
    match fieldStep L P parse s collectOpts f fields foundStructures u with
    | .error e => .error e
    | .ok (.ret fields1 u1) => .ok ((fields1, []), u1)
    | .ok (.next fields1 found1 u1) => fieldsLoop L P parse s collectOpts rest fields1 found1 u1

/-- The function `collectFields`. -/
def collectFields (L : Lib) (P : Program) (parse : ParseFn) (s : structType)
    (collectOpts : collectStructOptions) (u : Unique) :
    Res (List Field × List (Option structType)) :=
  fieldsLoop L P parse s collectOpts s.node [] [] u

/-- The function `parseStructuresFromDSTSpec`. The first argument bounds the
depth of nested calls: the function calls itself only through
`collectFields`, and that call is made with one unit less; without a unit
left the call is not made and the result is `Err.fuel`. -/
def parseStructuresFromDSTSpec (L : Lib) (P : Program) : Nat → ParseFn :=
  fun fuel nodeDecs spec collectOpts u =>
    match spec with
    | .other => .ok ((none, []), u)
    | .typeSpec t =>
      match t.Typ with
      | .nil => .ok ((none, []), u)
      | .other => .ok ((none, []), u)
      | .structType x =>
        let gotStructName := t.Name
        -- We only want structures with name as described
        if !L.equalFold collectOpts.structName gotStructName then .ok ((none, []), u)
        else
          match gotStructName.data with
          | [] => .error (.panic "index out of range: gotStructName[0]")
          | c :: _ =>
            -- We only want publicly declared types
            if !isUpperByte (leadByte c) then .ok ((none, []), u)
            else
              let s : structType :=
                { name := gotStructName, node := x,
                  text := parseComment L (uncommentDecorationNode nodeDecs),
                  pkg := collectOpts.pkg, packagePrefix := collectOpts.packagePrefix,
                  fields := [] }
              match fuel with
              | 0 => .error .fuel
              | n + 1 =>
                match collectFields L P (parseStructuresFromDSTSpec L P n) s collectOpts u with
                | .error e => .error e
                | .ok ((fields, structures), u1) =>
                  .ok ((some { s with fields := fields }, structures), u1)

/-- A Go map from strings to slices: absent keys are `none`. -/
abbrev SliceMap (α : Type) := String → Option (List α)

/-- The statement `m[key] = append(m[key], xs...)`. -/
def SliceMap.append {α : Type} (m : SliceMap α) (key : String) (xs : List α) : SliceMap α :=
  fun k => if k = key then some ((m key).getD [] ++ xs) else m k

/-- The loop `for _, field := range s.fields` of `process`, for the struct
stored at position `owner` of `doc.Structs`. -/
def fieldsPass (owner : Nat) :
    List Field → SliceMap Example → SliceMap Appearance →
      SliceMap Example × SliceMap Appearance
  | [], extraExamples, backReferences => (extraExamples, backReferences)
  | field :: rest, extraExamples, backReferences =>
    if field.TypeRef = "" then fieldsPass owner rest extraExamples backReferences
    else
      let extraExamples :=
        if field.Text.Examples.length > 0 then
          extraExamples.append field.TypeRef field.Text.Examples
        else extraExamples
      fieldsPass owner rest extraExamples
        (backReferences.append field.TypeRef [{ Struct := owner, FieldName := field.Tag }])

/-- The literal `newStruct := &Struct{...}` of `process`. -/
def newStruct (s : structType) : Struct :=
  { name := s.name, packagePrefix := s.packagePrefix, Text := s.text, Fields := s.fields }

/-- The loop `for _, s := range structures` of `process`; a nil entry makes
`s.name` panic. -/
def structsPass :
    List (Option structType) → List Struct → SliceMap Example → SliceMap Appearance →
      Except Err (List Struct × SliceMap Example × SliceMap Appearance)
  | [], structs, extraExamples, backReferences =>
    .ok (structs, extraExamples, backReferences)
  | none :: _, _, _, _ => .error (.panic "nil pointer dereference: s.name")
  | some s :: rest, structs, extraExamples, backReferences =>
    let r := fieldsPass structs.length s.fields extraExamples backReferences
    structsPass rest (structs ++ [newStruct s]) r.1 r.2

/-- The body of the loop `for _, s := range doc.Structs` of `process`. -/
def applyExtras (extraExamples : SliceMap Example) (backReferences : SliceMap Appearance)
    (s : Struct) : Struct :=
  let s :=
    match extraExamples s.GetName with
    | some extra => { s with Text := { s.Text with Examples := s.Text.Examples ++ extra } }
    | none => s
  match backReferences s.GetName with
  | some ref => { s with AppearsIn := s.AppearsIn ++ ref }
  | none => s

/-- Lines 135-173 of `process`: both finalisation loops, from the list of
discovered structures to `doc.Structs`. Every entry of `structures` is an
object of its own (each is allocated by one call of
`parseStructuresFromDSTSpec`), so the append to `s.Text.Examples` changes the
text of that node only. -/
def finalise (structures : List (Option structType)) : Except Err (List Struct) :=
  match structsPass structures [] (fun _ => none) (fun _ => none) with
  | .error e => .error e
  | .ok (structs, extraExamples, backReferences) =>
    .ok (structs.map (applyExtras extraExamples backReferences))

/-- The loop `for _, pkg := range pkgs` of `process`. -/
def pkgsLoop (P : Program) (parse : ParseFn) (structName : String) :
    List Nat → List (Option structType) → Unique → Res (List (Option structType))
  | [], structures, u => .ok (structures, u)
  | pkg :: rest, structures, u =>
    match collectStructsWithOpts P parse { pkg := pkg, structName := structName } u with
    | .error e => .error e
    | .ok ((main, extra), u1) =>
      pkgsLoop P parse structName rest (structures ++ [main] ++ extra) u1

/-- The list `structures` that `process` builds from the loaded packages,
starting from the dedup set `u`. -/
def discover (L : Lib) (P : Program) (fuel : Nat) (pkgs : List Nat) (structName : String)
    (u : Unique) : Res (List (Option structType)) :=
  pkgsLoop P (parseStructuresFromDSTSpec L P fuel) structName pkgs [] u

/-- The function `process` up to the call of `render`: `pkgs` is what
`loadRootPackage` returned, the flags are arguments (`structName` is the flag
`structure`), and `uniqueStructures`
starts empty. -/
def process (L : Lib) (P : Program) (fuel : Nat) (pkgs : List Nat)
    (structName inputPath packageName output : String) : Except Err Doc :=
  match discover L P fuel pkgs structName [] with
  | .error e => .error e
  | .ok (structures, _) =>
    if structures.length = 0 then
      .error (.fatal ("failed to find types that could be documented in " ++ inputPath))
    else
      match finalise structures with
      | .error e => .error e
      | .ok structs =>
        .ok { Package := packageName, Name := structName, Structs := structs, File := output }

end Dst

/-! ## Concrete inputs -/

/-- Lower-casing of the ASCII letters; `strings.ToLower` on ASCII strings. -/
def asciiLower (s : String) : String := ⟨s.data.map Char.toLower⟩

/-- The library on the inputs used below, which are ASCII and whose comments
are empty or one plain sentence: `yaml.Unmarshal` of an empty document
succeeds and leaves the text as it is, and of a plain scalar fails (a scalar
does not decode into a struct), again leaving the text as it is. -/
def scalarLib : Lib :=
  { unmarshal := fun data text => { text := text, failed := data ≠ "" }
    toLower := asciiLower
    equalFold := fun a b => asciiLower a == asciiLower b }

namespace Dst

/-- The member `name T` with tag `yaml:"tag"` and a one-line comment. -/
def member (name : String) (typ : Expr) (tag doc : String) : FieldDecl :=
  { Names := [name], Typ := typ, Tag := some tag, Decs := ["// " ++ doc] }

/-- An identifier of a predeclared type such as `string`. -/
def builtin (name : String) : Expr := .ident { Name := name }

/-- An identifier resolved to declaration number `decl` of its own file. -/
def localType (name : String) (decl : Nat) : Expr :=
  .ident { Name := name, Obj := some { Name := name, Decl := decl } }

/-- An identifier `pkg.name` of the package imported from `path`. -/
def importedType (name path : String) : Expr := .ident { Name := name, Path := path }

/-- The declaration `type Config struct { Children []Config }`, documented and
tagged `children`. -/
def selfRefSpec : TypeSpec :=
  { Name := "Config"
    Typ := .structType
      [member "Children" (.arrayType (localType "Config" 0)) "children" "The children."] }

/-- A root package with the single self-referential record `Config`. -/
def selfRefProgram : Program :=
  { pkgs := [{ Syntax := [[{ Decs := ["// Config is the root."],
                              Specs := [.typeSpec selfRefSpec] }]] }]
    decls := [.typeSpec selfRefSpec] }

/-- Root record of `twoModuleProgram`: `Remote b.A` and `Local B`. -/
def rootConfigSpec : TypeSpec :=
  { Name := "Config"
    Typ := .structType
      [member "Remote" (importedType "A" "example.com/x/b") "remote" "The remote part.",
       member "Local" (localType "B" 1) "local" "The local part."] }

/-- Record `B` of the root package. -/
def rootBSpec : TypeSpec :=
  { Name := "B", Typ := .structType [member "X" (builtin "string") "x" "The x."] }

/-- Record `A` of package `b`, with the by-value member `Inner B`. -/
def importedASpec : TypeSpec :=
  { Name := "A", Typ := .structType [member "Inner" (localType "B" 3) "inner" "The inner part."] }

/-- Record `B` of package `b`. -/
def importedBSpec : TypeSpec :=
  { Name := "B", Typ := .structType [member "Y" (builtin "string") "y" "The y."] }

/-- A root package that imports package `b` from `example.com/x/b`; both
declare a record named `B`, and both records are reachable from `Config`. -/
def twoModuleProgram : Program :=
  { pkgs :=
      [{ Syntax := [[{ Specs := [.typeSpec rootConfigSpec] }, { Specs := [.typeSpec rootBSpec] }]]
         Imports := [("example.com/x/b", 1)] },
       { Syntax := [[{ Specs := [.typeSpec importedASpec] },
                     { Specs := [.typeSpec importedBSpec] }]] }]
    decls := [.typeSpec rootConfigSpec, .typeSpec rootBSpec, .typeSpec importedASpec,
              .typeSpec importedBSpec] }

/-- Root record of `byValueProgram`: the single member `Remote b.A`. -/
def remoteOnlySpec : TypeSpec :=
  { Name := "Config"
    Typ := .structType
      [member "Remote" (importedType "A" "example.com/x/b") "remote" "The remote part."] }

/-- The root record `Config` refers to `b.A`, and `b.A` refers by value to
the record `B` of its own package. -/
def byValueProgram : Program :=
  { pkgs :=
      [{ Syntax := [[{ Specs := [.typeSpec remoteOnlySpec] }]]
         Imports := [("example.com/x/b", 1)] },
       { Syntax := [[{ Specs := [.typeSpec importedASpec] },
                     { Specs := [.typeSpec importedBSpec] }]] }]
    decls := [.typeSpec remoteOnlySpec, .other, .typeSpec importedASpec,
              .typeSpec importedBSpec] }

/-- Members of a record: `Opt` tagged `yaml:",omitempty"`, then `Port` tagged
`yaml:"port"`, both documented. -/
def omitemptyMembers : List FieldDecl :=
  [member "Opt" (builtin "string") ",omitempty" "The option.",
   member "Port" (builtin "int") "port" "Listen port."]

/-- Members of a record: `Name`, then `Bare` tagged `yaml:"bare"` without any
documentation comment, then `Port`. -/
def undocumentedMembers : List FieldDecl :=
  [member "Name" (builtin "string") "name" "The name.",
   { Names := ["Bare"], Typ := builtin "int", Tag := some "bare", Decs := [] },
   member "Port" (builtin "int") "port" "Listen port."]

/-- The `structType` that `parseStructuresFromDSTSpec` hands to
`collectFields` for a record of the root package with the given name and
members. -/
def rootStruct (name : String) (members : List FieldDecl) : structType :=
  { name := name, node := members, text := {}, pkg := 0, packagePrefix := "", fields := [] }

/-- A root package that declares the single record `Settings` with the given
members. -/
def settingsProgram (members : List FieldDecl) : Program :=
  { pkgs := [{ Syntax := [[{ Specs := [.typeSpec { Name := "Settings",
                                                    Typ := .structType members }] }]] }]
    decls := [.typeSpec { Name := "Settings", Typ := .structType members }] }

/-! ### The finalisation pass in the words of the specification -/

/-- The Appearances that the fields of one record, stored at position `owner`
of the graph, give to the record type named `key`: one `(owner, F.Tag)` for
every field `F` with `F.TypeRef = key`, in field-list order. -/
def fieldRefs (owner : Nat) (key : String) (fields : List Field) : List Appearance :=
  (fields.filter (fun field => field.TypeRef = key)).map
    (fun field => { Struct := owner, FieldName := field.Tag })

/-- The examples that the fields of one record give to the record type named
`key`: those of every field `F` with `F.TypeRef = key`, in field-list order. -/
def fieldExamples (key : String) (fields : List Field) : List Example :=
  ((fields.filter (fun field => field.TypeRef = key)).map
    (fun field => field.Text.Examples)).flatten

/-- The Appearances of `key` over the records of a graph whose first record
is stored at position `start`, in graph order. -/
def specAppearsFrom (start : Nat) (structures : List structType) (key : String) :
    List Appearance :=
  ((structures.enumFrom start).map (fun p => fieldRefs p.1 key p.2.fields)).flatten

/-- The list of `(S, F.Tag)` over all record types `S` in graph order and all
fields `F` of `S` in field-list order such that `F.TypeRef = key`. -/
def specAppearsIn (structures : List structType) (key : String) : List Appearance :=
  specAppearsFrom 0 structures key

/-- The concatenation, in the same order, of the examples of those fields. -/
def specExamples (structures : List structType) (key : String) : List Example :=
  (structures.map (fun s => fieldExamples key s.fields)).flatten

/-- The finalised node of the record `B` of the graph `structures`, in the
words of the specification: its own text and fields, its own examples
followed by the examples of the fields that reference it, and the
Appearances of those fields. -/
def specStruct (structures : List structType) (B : structType) : Struct :=
  { name := B.name
    packagePrefix := B.packagePrefix
    Text := { B.text with
      Examples := B.text.Examples
        ++ specExamples structures (wrapStructName B.packagePrefix B.name) }
    Fields := B.fields
    AppearsIn := specAppearsIn structures (wrapStructName B.packagePrefix B.name) }

/-- The identifier a member type resolves to, directly or through pointer,
sequence, map-value or selector wrapping: the identifier that `getFieldType`
reaches. -/
def coreIdent : Expr → Option Ident
  | .ident t => some t
  | .mapType _ v => coreIdent v
  | .arrayType e => coreIdent e
  | .starExpr x => coreIdent x
  | .selectorExpr _ sel => some sel
  | _ => none

/-- The identifier of a member type when it stands directly under a pointer,
as in `*B`, `[]*B` or `map[K]*B`: the identifier that `getFieldType` reaches
with the apply flag set. -/
def starIdent : Expr → Option Ident
  | .starExpr (.ident t) => some t
  | .starExpr x => starIdent x
  | .mapType _ v => starIdent v
  | .arrayType e => starIdent e
  | _ => none

/-- The graph without the field `F`: every copy of `F` is removed from every
field list. -/
def withoutField (F : Field) (structures : List structType) : List structType :=
  structures.map (fun s => { s with fields := s.fields.filter (fun field => field ≠ F) })

/-- A documented field of a discovered record, as `collectFields` builds it. -/
def docField (name typ typeRef tag doc : String) (examples : List Example) : Field :=
  { Name := name, Typ := typ, TypeRef := typeRef, Tag := tag,
    Text := { Comment := doc, Description := doc, Examples := examples } }

/-- A discovered record of the root package. -/
def rootRecord (name : String) (examples : List Example) (fields : List Field) : structType :=
  { name := name, node := [], pkg := 0, packagePrefix := "", fields := fields,
    text := { Examples := examples } }

/-- The field `Server ServerConfig` with the example named `default`. -/
def serverField : Field :=
  docField "Server" "ServerConfig" "ServerConfig" "server" "Server settings."
    [{ Name := "default", Value := "{}" }]

/-- Graph of two records: `Config` with the fields `name` and `server`, and
`ServerConfig` with the field `port`. -/
def serverGraph : List structType :=
  [rootRecord "Config" [] [docField "Name" "string" "string" "name" "The name." [], serverField],
   rootRecord "ServerConfig" [{ Name := "own", Value := "1" }]
     [docField "Port" "int" "int" "port" "Listen port." []]]

/-- Graph in which two distinct fields, one of `Config` and one of `Pool`,
reference `Node`. -/
def twoRefsGraph : List structType :=
  [rootRecord "Config" []
     [docField "First" "Node" "Node" "first" "The first." [{ Name := "a", Value := "1" }]],
   rootRecord "Node" [{ Name := "own", Value := "0" }] [],
   rootRecord "Pool" []
     [docField "Nodes" "[]Node" "Node" "nodes" "The nodes." [{ Name := "b", Value := "2" }]]]

/-- The field that `collectFields` builds in package `b` for the member
`Inner *B`, tagged `inner`. -/
def pointerField : Field := docField "Inner" "b.B" "b.B" "inner" "The inner part." []

/-- Graph of the records `A` and `B` of the imported package `b`, where `A`
has the member `Inner *B`. -/
def pointerGraph : List structType :=
  [{ name := "A", node := [], pkg := 1, packagePrefix := "b", text := {},
     fields := [pointerField] },
   { name := "B", node := [], pkg := 1, packagePrefix := "b", text := {}, fields := [] }]

/-! ### Provenance of discovered fields -/

/-- Every declaration node of a program: those that identifiers resolve to
and those of the files of its packages. -/
def Program.specs (P : Program) : List Spec :=
  P.decls ++ P.pkgs.flatMap (fun pkg =>
    pkg.Syntax.flatMap (fun file => file.flatMap (fun g => g.Specs)))

/-- The member `f` belongs to a record declared in the program. -/
def MemberOf (P : Program) (f : FieldDecl) : Prop :=
  ∃ t x, Spec.typeSpec t ∈ P.specs ∧ t.Typ = .structType x ∧ f ∈ x

/-- The guard of line 330 of dst.go: the name part of the yaml tag is empty
or `-` and the tag has no comma. -/
def tagSkipped (yamlTags : String) : Prop :=
  ((⟨beforeCommaChars yamlTags.data⟩ : String) = "" ∨
    (⟨beforeCommaChars yamlTags.data⟩ : String) = "-") ∧ countCommas yamlTags < 1

/-- The field `field` is the one that `collectFields` builds for the named
member `f`, in a record with package prefix `pfx`: the member has a yaml tag
that passes the guard, a documentation comment without the marker
`docgen:nodoc`, and a name whose first byte is upper case. -/
def FromMember (L : Lib) (f : FieldDecl) (pfx : String) (field : Field) : Prop :=
  ∃ yamlTags name names c cs,
    f.Tag = some yamlTags ∧ f.Names = name :: names ∧ ¬ tagSkipped yamlTags ∧
    uncommentDecorationNode f.Decs ≠ "" ∧
    strContains (uncommentDecorationNode f.Decs) "docgen:nodoc" = false ∧
    name.data = c :: cs ∧ isUpperByte (leadByte c) = true ∧
    field = { Name := name, Tag := L.toLower ⟨beforeCommaChars yamlTags.data⟩,
              Typ := formatFieldType f.Typ pfx false,
              TypeRef := getFieldType f.Typ pfx false,
              Text := parseComment L (uncommentDecorationNode f.Decs) }

/-- The field stems from a named member of a record of the program. -/
def GoodField (L : Lib) (P : Program) (field : Field) : Prop :=
  ∃ f pfx, MemberOf P f ∧ FromMember L f pfx field

/-- A discovered record: its name starts with an upper-case byte and all its
fields stem from members of records of the program. -/
def GoodStruct (L : Lib) (P : Program) (S : structType) : Prop :=
  (∃ c cs, S.name.data = c :: cs ∧ isUpperByte (leadByte c) = true) ∧
  ∀ field ∈ S.fields, GoodField L P field

/-- Every non-nil entry of the list is a good record. -/
def GoodList (L : Lib) (P : Program) (xs : List (Option structType)) : Prop :=
  ∀ S, some S ∈ xs → GoodStruct L P S

/-- Both components of a collector result are good. -/
def GoodFound (L : Lib) (P : Program) (r : Found) : Prop :=
  (∀ S, r.1 = some S → GoodStruct L P S) ∧ GoodList L P r.2

/-- The parse function returns good results on the declarations of the
program. -/
def GoodParse (L : Lib) (P : Program) (parse : ParseFn) : Prop :=
  ∀ decs spec opts u r u', spec ∈ P.specs → parse decs spec opts u = .ok (r, u') →
    GoodFound L P r

/-- What a good iteration of the member loop leaves behind. -/
def GoodStep (L : Lib) (P : Program) : FieldStep → Prop
  | .next fields found _ => (∀ field ∈ fields, GoodField L P field) ∧ GoodList L P found
  | .ret fields _ => ∀ field ∈ fields, GoodField L P field

/-! ### Termination of discovery: measure and hypotheses -/

/-- The keys that the `*dst.Ident` case of `collectUnresolvedExternalStructs`
may enter into the dedup set for the identifier `t`. -/
def keysOfIdent (t : Ident) : List String :=
  (match t.Obj with
   | some obj => [obj.Name]
   | none => []) ++ (if t.Path ≠ "" then [t.String] else [])

/-- The keys that `collectUnresolvedExternalStructs` may enter into the dedup
set for a member type. -/
def keysOfExpr : Expr → List String
  | .ident t => keysOfIdent t
  | .mapType k v => keysOfExpr k ++ keysOfExpr v
  | .arrayType e => keysOfExpr e
  | .starExpr x => keysOfExpr x
  | .selectorExpr _ sel => keysOfIdent sel
  | _ => []

/-- The members of a declaration node, empty unless it is a record. -/
def membersOf : Spec → List FieldDecl
  | .typeSpec t =>
    match t.Typ with
    | .structType x => x
    | _ => []
  | .other => []

/-- All dedup keys of a program: those of the member types of its records. -/
def Program.keys (P : Program) : List String :=
  P.specs.flatMap (fun spec => (membersOf spec).flatMap (fun f => keysOfExpr f.Typ))

/-- Number of keys of the program that are not yet in the dedup set. -/
def unvisited (P : Program) (u : Unique) : Nat := (P.keys.toFinset \ u.toFinset).card

/-- Embedding by value: record `s` has an embedded (anonymous) member whose
type is an identifier, and `collectFields` parses `t` for it: `t` is the
declaration the identifier resolves to in its file, or a record of the
imported package whose name matches the identifier under
`strings.EqualFold`. -/
def embedEdge (L : Lib) (P : Program) (s t : TypeSpec) : Prop :=
  ∃ x f ident, s.Typ = .structType x ∧ f ∈ x ∧ f.Names = [] ∧ f.Typ = .ident ident ∧
    ((ident.Path ≠ "" ∧ ∃ pkg k pkg' file g y, pkg ∈ P.pkgs ∧
        pkg.Imports.lookup ident.Path = some k ∧ P.pkgs[k]? = some pkg' ∧
        file ∈ pkg'.Syntax ∧ g ∈ file ∧ Spec.typeSpec t ∈ g.Specs ∧
        t.Typ = .structType y ∧ L.equalFold ident.Name t.Name = true) ∨
     (ident.Path = "" ∧ ∃ obj, ident.Obj = some obj ∧
        P.decls[obj.Decl]? = some (.typeSpec t)))

/-- Embedding by value is acyclic among the records of the program: a rank
decreases along every embedding. -/
def EmbeddingAcyclic (L : Lib) (P : Program) : Prop :=
  ∃ rank : TypeSpec → Nat, ∀ s t, Spec.typeSpec s ∈ P.specs → embedEdge L P s t →
    rank t < rank s

/-- A call does not run out of fuel, and the dedup set only grows. -/
def Safe {α : Type} (u : Unique) (r : Res α) : Prop :=
  r ≠ .error .fuel ∧ ∀ x u', r = .ok (x, u') → u ⊆ u'

/-- The dedup set that an iteration of the member loop leaves behind. -/
def FieldStep.dedup : FieldStep → Unique
  | .next _ _ u => u
  | .ret _ u => u

/-- An iteration of the member loop does not run out of fuel, and the dedup
set only grows. -/
def SafeStep (u : Unique) (r : Except Err FieldStep) : Prop :=
  r ≠ .error .fuel ∧ ∀ st, r = .ok st → u ⊆ st.dedup

/-- The fuel `k` suffices to parse `spec` under the name `name` from the
dedup set `u`: if `spec` is a record that the name matches, `k` is above the
measure `unvisited * (R + 1) + rank`. -/
def Fits (L : Lib) (P : Program) (rank : TypeSpec → Nat) (R k : Nat) (name : String)
    (u : Unique) (spec : Spec) : Prop :=
  ∀ t x, spec = .typeSpec t → t.Typ = .structType x → L.equalFold name t.Name = true →
    unvisited P u * (R + 1) + rank t + 1 ≤ k

/-- The parse function is safe on every declaration of the program that the
fuel `k` fits. -/
def TermParse (L : Lib) (P : Program) (rank : TypeSpec → Nat) (R k : Nat)
    (parse : ParseFn) : Prop :=
  ∀ decs spec opts u, spec ∈ P.specs → Fits L P rank R k opts.structName u spec →
    Safe u (parse decs spec opts u)

/-- Fuel that suffices for every discovery call on the program, for a rank
bounded by `R`. -/
def enoughFuel (P : Program) (R : Nat) : Nat := P.keys.toFinset.card * (R + 1) + R + 1

/-- The declaration `type Base struct { ID string }`. -/
def baseSpec : TypeSpec :=
  { Name := "Base", Typ := .structType [member "ID" (builtin "string") "id" "The identifier."] }

/-- The declaration `type Config struct { Base; Children []Config }`: `Base`
is embedded (tagged `yaml:",inline"`, documented), `Children` refers back to
`Config`. -/
def embeddingSpec : TypeSpec :=
  { Name := "Config"
    Typ := .structType
      [{ Names := [], Typ := localType "Base" 1, Tag := some ",inline",
         Decs := ["// Base fields."] },
       member "Children" (.arrayType (localType "Config" 0)) "children" "The children."] }

/-- A root package with the self-referential record `Config` that embeds
`Base`. -/
def embeddingProgram : Program :=
  { pkgs := [{ Syntax := [[{ Decs := ["// Config is the root."],
                              Specs := [.typeSpec embeddingSpec] },
                            { Specs := [.typeSpec baseSpec] }]] }]
    decls := [.typeSpec embeddingSpec, .typeSpec baseSpec] }

/-! ### The record returned first by a collector -/

/-- The non-nil `mainStruct` of a collector result carries the package prefix
of the options and a name that the requested name matches under
`strings.EqualFold`. -/
def MainMatches (L : Lib) (opts : collectStructOptions) (r : Found) : Prop :=
  ∀ S, r.1 = some S →
    S.packagePrefix = opts.packagePrefix ∧ L.equalFold opts.structName S.name = true

end Dst

/-! ## The escaped text and the scenario of the specification -/

/-- Every double quote of `cs` is directly preceded by a backslash, `prev`
being the character before `cs`. -/
def quotesEscapedAfter : Char → List Char → Bool
  | _, [] => true
  | prev, c :: cs => (c != '"' || prev == '\\') && quotesEscapedAfter c cs

/-- Every double quote of `cs` is directly preceded by a backslash. -/
def quotesEscaped : List Char → Bool
  | [] => true
  | c :: cs => c != '"' && quotesEscapedAfter c cs

/-- The documentation of the member `Server` in the scenario of the
specification, as `uncommentDecorationNode` returns it for the comment lines
`// Server settings.`, `// examples:`, `//   - name: default`,
`//     value: "{}"`. -/
def serverComment : String :=
  " Server settings.\n examples:\n   - name: default\n     value: \"{}\""

/-- The lines of `serverComment` after the first one: a YAML document with
the key `examples`. -/
def examplesBlock : String := " examples:\n   - name: default\n     value: \"{}\""

/-- The library on the inputs of the scenario: `yaml.Unmarshal` of an empty
document succeeds and changes nothing, of `examplesBlock` succeeds and sets
the examples to the one example named `default` of value `{}`, and of any
other document used there (a plain sentence, or a sentence followed by the
block) fails and changes nothing. -/
def scenarioLib : Lib :=
  { unmarshal := fun data text =>
      if data = "" then { text := text, failed := false }
      else if data = examplesBlock then
        { text := { text with Examples := [{ Name := "default", Value := "{}" }] },
          failed := false }
      else { text := text, failed := true }
    toLower := asciiLower
    equalFold := fun a b => asciiLower a == asciiLower b }

/-- The text of `parseComment` in the fallback branch, before the second
decode: the whole comment as Description, its first line as Comment (lines
557-559 of dst.go). -/
def fallbackText (L : Lib) (raw : String) : Text :=
  { (L.unmarshal raw {}).text with Description := raw, Comment := firstLine raw }

/-- The second decode of `parseComment`: the comment without its first line,
decoded into the fallback text (line 562 of dst.go). -/
def secondDecode (L : Lib) (raw : String) : Decoded :=
  L.unmarshal (restLines raw) (fallbackText L raw)

/-! ## Go interpreted string literals -/

/-- Where a scan of the body of an interpreted string literal stands: between
characters, right after a backslash, or inside a numeric escape with `left`
digits to come, the value `acc` read so far, the base, and the kind of bound
on the value. -/
inductive LitState where
  | plain
  | backslash
  | digits (left acc base : Nat) (unicode : Bool)
  deriving DecidableEq, Repr

/-- Value of a hexadecimal digit, `none` for any other character. -/
def hexDigit (c : Char) : Option Nat :=
  let n := c.toNat
  if 0x30 ≤ n ∧ n ≤ 0x39 then some (n - 0x30)
  else if 0x61 ≤ n ∧ n ≤ 0x66 then some (n - 0x61 + 10)
  else if 0x41 ≤ n ∧ n ≤ 0x46 then some (n - 0x41 + 10)
  else none

/-- Whether a numeric escape of the given kind may denote `v`: a byte value
is at most 255, a Unicode value is a code point that is not a surrogate
half. -/
def escapeValueOk (unicode : Bool) (v : Nat) : Bool :=
  if unicode then v ≤ 0x10FFFF && !(0xD800 ≤ v && v ≤ 0xDFFF) else v ≤ 255

/-- Whether `cs`, read from state `st`, completes the body of an interpreted
string literal of the Go language specification: any character except
newline and double quote stands for itself; a backslash starts one of the
escapes `\a \b \f \n \r \t \v \\ \"`, an octal byte `\ooo`, a hexadecimal
byte `\xhh`, or a code point `\uhhhh` or `\Uhhhhhhhh`. -/
def scanLiteral : LitState → List Char → Bool
  | st, [] => st == .plain
  | .plain, c :: cs =>
    if c = '\n' ∨ c = '"' then false
    else if c = '\\' then scanLiteral .backslash cs
    else scanLiteral .plain cs
  | .backslash, c :: cs =>
    if c ∈ ['a', 'b', 'f', 'n', 'r', 't', 'v', '\\', '"'] then scanLiteral .plain cs
    else if c = 'x' then scanLiteral (.digits 2 0 16 false) cs
    else if c = 'u' then scanLiteral (.digits 4 0 16 true) cs
    else if c = 'U' then scanLiteral (.digits 8 0 16 true) cs
    else
      match hexDigit c with
      | some d => if d < 8 then scanLiteral (.digits 2 d 8 false) cs else false
      | none => false
  | .digits left acc base unicode, c :: cs =>
    match hexDigit c with
    | some d =>
      if d < base then
        if left ≤ 1 then
          escapeValueOk unicode (acc * base + d) && scanLiteral .plain cs
        else scanLiteral (.digits (left - 1) (acc * base + d) base unicode) cs
      else false
    | none => false

/-- Whether the text between the double quotes of `"{{ ... }}"` in the
generated file is the body of a well-formed interpreted string literal. -/
def literalBodyOk (body : String) : Bool := scanLiteral .plain body.data

/-- Upper-casing of the ASCII letters; `strings.ToUpper` on ASCII strings. -/
def asciiUpper (s : String) : String := ⟨s.data.map Char.toUpper⟩

/-! ## The single-module generator, `cmd/docgen/docgen.go` -/

namespace Docgen

open Dst

/-- The function `getFieldType` of docgen.go. It reads `go/ast` expressions,
which have the shapes of `Dst.Expr`; an `*ast.Ident` has no import path, and
the function reads only its name. -/
def getFieldType : Expr → String
  | .mapType _ v => getFieldType v
  | .ident t => t.Name
  | .arrayType e => getFieldType e
  | .starExpr x => getFieldType x
  | .selectorExpr _ sel => sel.Name
  | _ => ""

/-- The function `formatFieldType` of docgen.go. -/
def formatFieldType : Expr → String
  | .mapType k v => "map[" ++ formatFieldType k ++ "]" ++ formatFieldType v
  | .ident t => t.Name
  | .arrayType e => "[]" ++ formatFieldType e
  | .structType => "struct"
  | .starExpr x => formatFieldType x
  | .selectorExpr _ sel => sel.Name
  | .interfaceType => "interface{}"
  | .other => ""

end Docgen

/-- The comment made of the lines `// Intro` and `// comment: zzz`, as
`uncommentDecorationNode` returns it. -/
def introComment : String := " Intro\n comment: zzz"

/-- The library on the comment `introComment`. The struct `Text` carries json
tags only, which `gopkg.in/yaml.v2` does not read: it keys every field by its
lower-cased name, so the key `comment` is decoded into `Text.Comment`.
`yaml.Unmarshal` of the document ` comment: zzz` succeeds and sets Comment to
`zzz`; of an empty document it succeeds and changes nothing; of the whole
comment (a plain line followed by a mapping line) it fails and changes
nothing. -/
def commentKeyLib : Lib :=
  { unmarshal := fun data text =>
      if data = "" then { text := text, failed := false }
      else if data = " comment: zzz" then
        { text := { text with Comment := "zzz" }, failed := false }
      else { text := text, failed := true }
    toLower := asciiLower
    equalFold := fun a b => asciiLower a == asciiLower b }

namespace Dst

/-! ### Inputs of the scenarios -/

/-- The record `Config` of the scenario: `Name string` (tag `name`, doc
`The name.`) and `Server ServerConfig` (tag `server`, doc `Server settings.`
followed by the example named `default` of value `{}`). -/
def scenarioConfigSpec : TypeSpec :=
  { Name := "Config"
    Typ := .structType
      [member "Name" (builtin "string") "name" "The name.",
       { Names := ["Server"], Typ := localType "ServerConfig" 1, Tag := some "server",
         Decs := ["// Server settings.", "// examples:", "//   - name: default",
                  "//     value: \"{}\""] }] }

/-- The record `ServerConfig` of the scenario: `Port int` (tag `port`, doc
`Listen port.`). -/
def scenarioServerSpec : TypeSpec :=
  { Name := "ServerConfig"
    Typ := .structType [member "Port" (builtin "int") "port" "Listen port."] }

/-- The declaration set of the scenario: one root package, one file, `Config`
declared before `ServerConfig`. -/
def scenarioProgram : Program :=
  { pkgs := [{ Syntax := [[{ Specs := [.typeSpec scenarioConfigSpec] },
                            { Specs := [.typeSpec scenarioServerSpec] }]] }]
    decls := [.typeSpec scenarioConfigSpec, .typeSpec scenarioServerSpec] }

/-- A root package that declares the record `Settings` with the given
members and one more declaration, which is declaration 1 of the program. -/
def settingsWith (members : List FieldDecl) (other : TypeSpec) : Program :=
  { pkgs := [{ Syntax := [[{ Specs := [.typeSpec { Name := "Settings",
                                                    Typ := .structType members }] },
                            { Specs := [.typeSpec other] }]] }]
    decls := [.typeSpec { Name := "Settings", Typ := .structType members }, .typeSpec other] }

/-- The embedded member `Base` without a tag, documented. -/
def untaggedEmbedded : FieldDecl :=
  { Names := [], Typ := localType "Base" 1, Tag := none, Decs := ["// Base fields."] }

/-- The embedded member `Base` tagged `yaml:",inline"`, documented. -/
def inlineEmbedded : FieldDecl :=
  { Names := [], Typ := localType "Base" 1, Tag := some ",inline", Decs := ["// Base fields."] }

/-- The declaration `type Secret struct { Key string }`. -/
def secretSpec : TypeSpec :=
  { Name := "Secret", Typ := .structType [member "Key" (builtin "string") "key" "The key."] }

/-- The member `Hidden Secret`, tagged `hidden`, whose documentation carries
the marker `docgen:nodoc`. -/
def hiddenMember : FieldDecl :=
  { Names := ["Hidden"], Typ := localType "Secret" 1, Tag := some "hidden",
    Decs := ["// Hidden part.", "// docgen:nodoc"] }

/-! ### The member loop and the way it ends -/

/-- The outcome of an iteration that started from the lists `fields` and
`found`, given its outcome from empty lists. -/
def FieldStep.prepend (fields : List Field) (found : List (Option structType)) :
    FieldStep → FieldStep
  | .next f d u => .next (fields ++ f) (found ++ d) u
  | .ret f u => .ret (fields ++ f) u

/-- What `collectFields` returns after an iteration that ended as `step` and
was the last one: the lists of a `next`, and the named results `fields` and
the nil `structs` of the bare `return`. -/
def FieldStep.result : FieldStep → (List Field × List (Option structType)) × Unique
  | .next fields found u => ((fields, found), u)
  | .ret fields u => ((fields, []), u)

/-- The member loop of `collectFields` together with the way it ended: `next`
with the lists after the last member, or the `ret` of the iteration that left
by the bare `return` of line 356. -/
def fieldsSteps (L : Lib) (P : Program) (parse : ParseFn) (s : structType)
    (collectOpts : collectStructOptions) :
    List FieldDecl → List Field → List (Option structType) → Unique → Except Err FieldStep
  | [], fields, foundStructures, u => .ok (.next fields foundStructures u)
  | f :: rest, fields, foundStructures, u =>
    match fieldStep L P parse s collectOpts f fields foundStructures u with
    | .error e => .error e
    | .ok (.ret fields1 u1) => .ok (.ret fields1 u1)
    | .ok (.next fields1 found1 u1) => fieldsSteps L P parse s collectOpts rest fields1 found1 u1

/-- The `structType` that `parseStructuresFromDSTSpec` builds for the record
`t` with members `x` before it collects the fields. -/
def structOf (L : Lib) (nodeDecs : List String) (t : TypeSpec) (x : List FieldDecl)
    (collectOpts : collectStructOptions) : structType :=
  { name := t.Name, node := x, text := parseComment L (uncommentDecorationNode nodeDecs),
    pkg := collectOpts.pkg, packagePrefix := collectOpts.packagePrefix, fields := [] }

/-! ### A record that embeds a record with a reference -/

/-- The declaration `type Person struct { Name string }`. -/
def personSpec : TypeSpec :=
  { Name := "Person", Typ := .structType [member "Name" (builtin "string") "name" "The name."] }

/-- The declaration `type Base struct { ID string; Owner Person }`. -/
def ownedBaseSpec : TypeSpec :=
  { Name := "Base"
    Typ := .structType
      [member "ID" (builtin "string") "id" "The identifier.",
       member "Owner" (localType "Person" 2) "owner" "The owner."] }

/-- The member `Name string` in front of the embedding. -/
def nameMember : FieldDecl := member "Name" (builtin "string") "name" "The name."

/-- The member `Port int` behind the embedding. -/
def portMember : FieldDecl := member "Port" (builtin "int") "port" "The port."

/-- A root package with `type Settings struct { Name string; Base; Port int }`,
`Base` and `Person`, where `emb` is the declaration of the embedded member
`Base`. -/
def embeddingIn (emb : FieldDecl) : Program :=
  { pkgs := [{ Syntax := [[{ Specs := [.typeSpec
                               { Name := "Settings"
                                 Typ := .structType [nameMember, emb, portMember] }] },
                            { Specs := [.typeSpec ownedBaseSpec] },
                            { Specs := [.typeSpec personSpec] }]] }]
    decls := [.typeSpec { Name := "Settings", Typ := .structType [nameMember, emb, portMember] },
              .typeSpec ownedBaseSpec, .typeSpec personSpec] }

/-- The program `embeddingIn` with the embedding tagged `yaml:",inline"` and
documented. -/
def flatProgram : Program := embeddingIn inlineEmbedded

/-- The embedded member `Base` tagged `yaml:"-"`, documented. -/
def dashEmbedded : FieldDecl :=
  { Names := [], Typ := localType "Base" 1, Tag := some "-", Decs := ["// Base fields."] }

/-- The embedded member `Base` tagged `json:",inline"` only, documented: the
tag has no yaml key, so `tag.Get("yaml")` is empty. -/
def jsonOnlyEmbedded : FieldDecl :=
  { Names := [], Typ := localType "Base" 1, Tag := some "", Decs := ["// Base fields."] }

/-- The field that `collectFields` builds, with `scalarLib`, for a member made
by `member name _ tag doc`. -/
def plainField (name typ typeRef tag doc : String) : Field :=
  { Name := name, Typ := typ, TypeRef := typeRef, Tag := tag,
    Text := { Comment := " " ++ doc, Description := doc } }


/-- The record `Person` as it is discovered through the field `Owner`. -/
def personRecord : structType :=
  { structOf scalarLib [] personSpec [member "Name" (builtin "string") "name" "The name."]
      { pkg := 0, structName := "Person" } with
    fields := [plainField "Name" "string" "string" "name" "The name."] }

/-! ### Resolver and names -/

/-- The method `(*Struct).GetEscapedName`; `strings.ToUpper` is the parameter
`toUpper`. -/
def Struct.GetEscapedName (toUpper : String → String) (s : Struct) : String :=
  if s.packagePrefix = "" then s.name
  else toUpper s.packagePrefix ++ s.name

/-- No identifier of the type expression is import-qualified: every one has
an empty `Path`. -/
def Unqualified : Expr → Bool
  | .ident t => t.Path = ""
  | .mapType k v => Unqualified k && Unqualified v
  | .arrayType e => Unqualified e
  | .starExpr x => Unqualified x
  | .selectorExpr x sel => Unqualified x && sel.Path = ""
  | _ => true

/-- The container decoration that the display form puts in front of the
reference key: `[]` for a sequence, `map[K]` for a map with the display form
of its key type, nothing for an indirection. -/
def decoration : Expr → String → String
  | .mapType k v, pfx => "map[" ++ formatFieldType k pfx false ++ "]" ++ decoration v pfx
  | .arrayType e, pfx => "[]" ++ decoration e pfx
  | .starExpr x, pfx => decoration x pfx
  | _, _ => ""


/-! ### Two modules whose escaped names meet -/

/-- The declaration `type Config struct { Local HTTPRequest; Remote
http.Request }` of the root package. -/
def gatewaySpec : TypeSpec :=
  { Name := "Config"
    Typ := .structType
      [member "Local" (localType "HTTPRequest" 1) "local" "The local request.",
       member "Remote" (importedType "Request" "example.com/x/http") "remote"
         "The remote request."] }

/-- The declaration `type HTTPRequest struct { URL string }` of the root
package. -/
def localRequestSpec : TypeSpec :=
  { Name := "HTTPRequest", Typ := .structType [member "URL" (builtin "string") "url" "The URL."] }

/-- The declaration `type Request struct { Method string }` of the package
`example.com/x/http`. -/
def remoteRequestSpec : TypeSpec :=
  { Name := "Request"
    Typ := .structType [member "Method" (builtin "string") "method" "The method."] }

/-- A root package with `Config` and `HTTPRequest` that imports the package
`http` with the record `Request`. -/
def gatewayProgram : Program :=
  { pkgs :=
      [{ Syntax := [[{ Specs := [.typeSpec gatewaySpec] },
                     { Specs := [.typeSpec localRequestSpec] }]]
         Imports := [("example.com/x/http", 1)] },
       { Syntax := [[{ Specs := [.typeSpec remoteRequestSpec] }]] }]
    decls := [.typeSpec gatewaySpec, .typeSpec localRequestSpec, .typeSpec remoteRequestSpec] }


/-! ### Members whose type is a named type without a record -/

/-- The declaration `type Level int`. -/
def levelSpec : TypeSpec := { Name := "Level", Typ := .other }

/-- The member `Level Level`, tagged `level` and documented. -/
def levelMember : FieldDecl := member "Level" (localType "Level" 1) "level" "The level."

/-- The declaration `type inner struct { Key string }` of an unexported
record. -/
def innerSpec : TypeSpec :=
  { Name := "inner", Typ := .structType [member "Key" (builtin "string") "key" "The key."] }

/-- The member `In inner`, tagged `in` and documented. -/
def innerMember : FieldDecl := member "In" (localType "inner" 1) "in" "The inner part."


/-! ### A member whose module is not among the imports -/

/-- The member `Owner Person`, tagged `owner` and documented. -/
def ownerMember : FieldDecl := member "Owner" (localType "Person" 1) "owner" "The owner."

/-- The named member `Meta meta.Meta` of the module `example.com/x/meta`. -/
def remoteNamed : FieldDecl :=
  member "Meta" (importedType "Meta" "example.com/x/meta") "meta" "The meta part."

/-- The embedded member `meta.Meta` of the module `example.com/x/meta`,
tagged `yaml:",inline"` and documented. -/
def remoteEmbedded : FieldDecl :=
  { Names := [], Typ := importedType "Meta" "example.com/x/meta", Tag := some ",inline",
    Decs := ["// Meta fields."] }

/-- A root package with `type Settings struct { Owner Person; m; Port int }`
and `Person`, where `m` is the declaration of the member in the middle; the
package has no import, so no module of `m` is resolved. -/
def unresolvedIn (m : List FieldDecl) : Program :=
  { pkgs := [{ Syntax := [[{ Specs := [.typeSpec
                               { Name := "Settings"
                                 Typ := .structType ([ownerMember] ++ m ++ [portMember]) }] },
                            { Specs := [.typeSpec personSpec] }]] }]
    decls := [.typeSpec { Name := "Settings"
                          Typ := .structType ([ownerMember] ++ m ++ [portMember]) },
              .typeSpec personSpec] }


/-! ### An example on a by-value reference inside an imported module -/

/-- Record `A` of package `b` whose by-value member `Inner B` carries, below
its sentence, the example named `default` of value `{}`. -/
def exampleASpec : TypeSpec :=
  { Name := "A"
    Typ := .structType
      [{ Names := ["Inner"], Typ := localType "B" 3, Tag := some "inner",
         Decs := ["// The inner part.", "// examples:", "//   - name: default",
                  "//     value: \"{}\""] }] }

/-- The program `byValueProgram` with the example on `Inner`. -/
def byValueExampleProgram : Program :=
  { pkgs :=
      [{ Syntax := [[{ Specs := [.typeSpec remoteOnlySpec] }]]
         Imports := [("example.com/x/b", 1)] },
       { Syntax := [[{ Specs := [.typeSpec exampleASpec] },
                     { Specs := [.typeSpec importedBSpec] }]] }]
    decls := [.typeSpec remoteOnlySpec, .other, .typeSpec exampleASpec,
              .typeSpec importedBSpec] }

end Dst

end Yamldoc

/-! ## Theorems -/

namespace Yamldoc

/-! ### Strings -/

theorem firstLineChars_idem (cs : List Char) :
    firstLineChars (firstLineChars cs) = firstLineChars cs := by
  induction cs with
  | nil => rfl
  | cons c cs ih =>
    by_cases h : c = '\n'
    · simp [firstLineChars, h]
    · simp [firstLineChars, h, ih]

theorem firstLine_idem (s : String) : firstLine (firstLine s) = firstLine s := by
  simp [firstLine, firstLineChars_idem]

/-! ### The comment parser -/

/-- C7, as stated, fails: for the comment `say "hi"` the returned Comment is
`say "hi"` while the first line of the returned Description is the escaped
`say \"hi\"`. -/
theorem parseComment_comment_differs_from_description_line :
    (parseComment scalarLib "say \"hi\"").Comment
      ≠ firstLine (parseComment scalarLib "say \"hi\"").Description := by
  decide

/-- C7, amended: for every raw comment and every decoder, Comment is not
escaped and the returned Description is `escape` of the long description as
it stands before the escaping step. When the whole text decodes, Comment is
the first line of that description. When only the lines after the first
decode, that description is the Comment itself, as the second decode left
it. When neither decodes, Comment and that description are the two fields as
the second decode left them. So whenever the second decode leaves Comment as
it found it and, when it fails, also Description, Comment is the first line
of the raw comment and of the description before escaping. Where, in
addition, escaping does not change the description, Comment is the first
line of the returned Description. -/
theorem parseComment_comment_is_first_line_before_escape (L : Lib) (raw : String) :
    (parseComment L raw).Comment = (parseCommentRaw L raw).Comment ∧
    (parseComment L raw).Description = escape (parseCommentRaw L raw).Description ∧
    ((L.unmarshal raw {}).failed = false →
      (parseComment L raw).Comment = firstLine (parseCommentRaw L raw).Description) ∧
    ((L.unmarshal raw {}).failed = true → (secondDecode L raw).failed = false →
      (parseComment L raw).Comment = (secondDecode L raw).text.Comment ∧
      (parseCommentRaw L raw).Description = (parseComment L raw).Comment) ∧
    ((L.unmarshal raw {}).failed = true → (secondDecode L raw).failed = true →
      (parseComment L raw).Comment = (secondDecode L raw).text.Comment ∧
      (parseCommentRaw L raw).Description = (secondDecode L raw).text.Description) ∧
    ((L.unmarshal raw {}).failed = true →
      (secondDecode L raw).text.Comment = (fallbackText L raw).Comment →
      ((secondDecode L raw).failed = true →
        (secondDecode L raw).text.Description = (fallbackText L raw).Description) →
      (parseComment L raw).Comment = firstLine raw ∧
      (parseComment L raw).Comment = firstLine (parseCommentRaw L raw).Description) ∧
    ((parseComment L raw).Comment = firstLine (parseCommentRaw L raw).Description →
      escape (parseCommentRaw L raw).Description = (parseCommentRaw L raw).Description →
      (parseComment L raw).Comment = firstLine (parseComment L raw).Description) := by
  have hfall : (L.unmarshal raw {}).failed = true →
      parseCommentRaw L raw =
        if (secondDecode L raw).failed = true then (secondDecode L raw).text
        else { (secondDecode L raw).text with
                Description := (secondDecode L raw).text.Comment } := by
    intro h1
    unfold parseCommentRaw secondDecode fallbackText
    simp only [h1, if_true]
  have hC : (parseComment L raw).Comment = (parseCommentRaw L raw).Comment := rfl
  refine ⟨rfl, rfl, ?_, ?_, ?_, ?_, ?_⟩
  · intro h1
    rw [hC]
    unfold parseCommentRaw
    simp [h1]
  · intro h1 h2
    rw [hC, hfall h1]
    simp [h2]
  · intro h1 h2
    rw [hC, hfall h1]
    simp [h2]
  · intro h1 hComment hDescription
    have hline : (secondDecode L raw).text.Comment = firstLine raw := hComment
    rw [hC, hfall h1]
    by_cases h2 : (secondDecode L raw).failed = true
    · have hdesc : (secondDecode L raw).text.Description = raw := hDescription h2
      simp only [h2, if_true]
      exact ⟨hline, by rw [hline, hdesc]⟩
    · have hfalse : (secondDecode L raw).failed = false := by simpa using h2
      rw [hfalse, if_neg (by decide)]
      exact ⟨hline, by
        show (secondDecode L raw).text.Comment = firstLine (secondDecode L raw).text.Comment
        rw [hline, firstLine_idem]⟩
  · intro hfirst hsame
    rw [hfirst]
    show _ = firstLine (escape (parseCommentRaw L raw).Description)
    rw [hsame]

/-- C7, amended, at two comments. For the comment of the member `Server` of
the scenario the second decode reads the examples and leaves Comment alone:
Comment is the first line ` Server settings.`, with its leading blank, and
the returned Description is `Server settings.`. For the comment `Intro`
followed by the line `comment: zzz` the second decode writes the Comment:
Comment and Description are both `zzz`. -/
theorem parseComment_comment_is_first_line_before_escape_witness :
    ((parseComment scenarioLib serverComment).Comment = firstLine serverComment ∧
      (parseComment scenarioLib serverComment).Comment
        = firstLine (parseCommentRaw scenarioLib serverComment).Description) ∧
    (parseComment scenarioLib serverComment).Comment = " Server settings." ∧
    (parseComment scenarioLib serverComment).Description = "Server settings." ∧
    ((parseComment commentKeyLib introComment).Comment
        = (secondDecode commentKeyLib introComment).text.Comment ∧
      (parseCommentRaw commentKeyLib introComment).Description
        = (parseComment commentKeyLib introComment).Comment) ∧
    (parseComment commentKeyLib introComment).Comment = "zzz" :=
  ⟨(parseComment_comment_is_first_line_before_escape scenarioLib serverComment).2.2.2.2.2.1
      (by decide) (by decide) (by decide),
    by decide, by decide,
    (parseComment_comment_is_first_line_before_escape commentKeyLib introComment).2.2.2.1
      (by decide) (by decide),
    by decide⟩

/-! ### Escaping -/

theorem trimLeftChars_decomp (cs : List Char) :
    ∃ ws, (∀ c ∈ ws, isSpace c = true) ∧ cs = ws ++ trimLeftChars cs := by
  induction cs with
  | nil => exact ⟨[], fun _ h => (by cases h), rfl⟩
  | cons c cs ih =>
    by_cases hc : isSpace c = true
    · obtain ⟨ws, hws, hcs⟩ := ih
      refine ⟨c :: ws, ?_, ?_⟩
      · intro d hd
        rcases List.mem_cons.mp hd with h | h
        · exact h ▸ hc
        · exact hws d h
      · simp only [trimLeftChars, hc, if_true, List.cons_append]
        rw [← hcs]
    · exact ⟨[], fun _ h => (by cases h), by simp [trimLeftChars, hc]⟩

theorem trimSpaceChars_decomp (cs : List Char) :
    ∃ l r, (∀ c ∈ l, isSpace c = true) ∧ (∀ c ∈ r, isSpace c = true) ∧
      cs = l ++ trimSpaceChars cs ++ r := by
  obtain ⟨l, hl, hcs⟩ := trimLeftChars_decomp cs
  obtain ⟨r, hr, hrev⟩ := trimLeftChars_decomp (trimLeftChars cs).reverse
  refine ⟨l, r.reverse, hl, fun c hc => hr c (List.mem_reverse.mp hc), ?_⟩
  have h2 : trimLeftChars cs = trimSpaceChars cs ++ r.reverse := by
    have := congrArg List.reverse hrev
    simpa [trimSpaceChars] using this
  rw [List.append_assoc, ← h2]
  exact hcs

theorem not_mem_escapeChars (cs : List Char) : '\n' ∉ escapeChars cs := by
  induction cs with
  | nil => simp [escapeChars]
  | cons c cs ih =>
    unfold escapeChars
    by_cases h1 : c = '"'
    · simp [h1, ih]
    · by_cases h2 : c = '\n'
      · simp [h2, ih]
      · have h3 : ¬ ('\n' = c) := fun h => h2 h.symm
        simp [h1, h2, h3, ih]

theorem quotesEscapedAfter_escapeChars (prev : Char) (cs : List Char) :
    quotesEscapedAfter prev (escapeChars cs) = true := by
  induction cs generalizing prev with
  | nil => rfl
  | cons c cs ih =>
    unfold escapeChars
    by_cases h1 : c = '"'
    · simp [h1, quotesEscapedAfter, ih]
    · by_cases h2 : c = '\n'
      · simp [h2, quotesEscapedAfter, ih]
      · simp [h1, h2, quotesEscapedAfter, ih]

theorem quotesEscaped_of_after {prev : Char} (hprev : prev ≠ '\\') {cs : List Char}
    (h : quotesEscapedAfter prev cs = true) : quotesEscaped cs = true := by
  cases cs with
  | nil => rfl
  | cons c cs =>
    simp only [quotesEscapedAfter, Bool.and_eq_true, Bool.or_eq_true, bne_iff_ne, ne_eq,
      beq_iff_eq] at h
    simp only [quotesEscaped, Bool.and_eq_true, bne_iff_ne, ne_eq]
    refine ⟨?_, h.2⟩
    rcases h.1 with h1 | h1
    · exact h1
    · exact absurd h1 hprev

theorem quotesEscaped_escapeChars (cs : List Char) : quotesEscaped (escapeChars cs) = true :=
  @quotesEscaped_of_after ' ' (by decide) (escapeChars cs) (quotesEscapedAfter_escapeChars ' ' cs)

theorem quotesEscapedAfter_append_left (prev : Char) (l r : List Char)
    (h : quotesEscapedAfter prev (l ++ r) = true) : quotesEscapedAfter prev l = true := by
  induction l generalizing prev with
  | nil => rfl
  | cons c cs ih =>
    simp only [List.cons_append, quotesEscapedAfter, Bool.and_eq_true] at h ⊢
    exact ⟨h.1, ih c h.2⟩

theorem quotesEscaped_append_left (l r : List Char) (h : quotesEscaped (l ++ r) = true) :
    quotesEscaped l = true := by
  cases l with
  | nil => rfl
  | cons c cs =>
    simp only [List.cons_append, quotesEscaped, Bool.and_eq_true] at h ⊢
    exact ⟨h.1, quotesEscapedAfter_append_left c cs r h.2⟩

theorem quotesEscaped_drop_spaces (ws cs : List Char) (hws : ∀ c ∈ ws, isSpace c = true)
    (h : quotesEscaped (ws ++ cs) = true) : quotesEscaped cs = true := by
  induction ws with
  | nil => exact h
  | cons w ws ih =>
    apply ih (fun c hc => hws c (List.mem_cons_of_mem _ hc))
    simp only [List.cons_append, quotesEscaped, Bool.and_eq_true] at h
    have hw : w ≠ '\\' := by
      intro hw
      have := hws w (List.mem_cons_self _ _)
      rw [hw] at this
      exact absurd this (by decide)
    exact quotesEscaped_of_after hw h.2

theorem quotesEscaped_trimSpaceChars (cs : List Char) (h : quotesEscaped cs = true) :
    quotesEscaped (trimSpaceChars cs) = true := by
  obtain ⟨l, r, hl, _, hcs⟩ := trimSpaceChars_decomp cs
  rw [hcs, List.append_assoc] at h
  exact quotesEscaped_append_left _ r (quotesEscaped_drop_spaces l _ hl h)

theorem mem_of_mem_trimSpaceChars {c : Char} {cs : List Char} (h : c ∈ trimSpaceChars cs) :
    c ∈ cs := by
  obtain ⟨l, r, _, _, hcs⟩ := trimSpaceChars_decomp cs
  rw [hcs]
  exact List.mem_append_left _ (List.mem_append_right _ h)

theorem escape_no_newline (s : String) : '\n' ∉ (escape s).data := fun h =>
  not_mem_escapeChars s.data (mem_of_mem_trimSpaceChars h)

theorem escape_quotesEscaped (s : String) : quotesEscaped (escape s).data = true :=
  quotesEscaped_trimSpaceChars _ (quotesEscaped_escapeChars s.data)

theorem trimLeftChars_head (cs : List Char) (c : Char)
    (h : (trimLeftChars cs).head? = some c) : isSpace c = false := by
  induction cs with
  | nil => simp [trimLeftChars] at h
  | cons d ds ih =>
    unfold trimLeftChars at h
    by_cases hd : isSpace d = true
    · rw [if_pos hd] at h
      exact ih h
    · rw [if_neg hd] at h
      simp only [List.head?_cons, Option.some.injEq] at h
      rw [← h]
      simpa using hd

theorem trimLeftChars_getLast (cs : List Char) (h : trimLeftChars cs ≠ []) :
    (trimLeftChars cs).getLast? = cs.getLast? := by
  obtain ⟨ws, _, hws⟩ := trimLeftChars_decomp cs
  conv_rhs => rw [hws]
  exact (List.getLast?_append_of_ne_nil ws h).symm

/-- The result of `strings.TrimSpace` does not end in white space. -/
theorem trimSpaceChars_getLast (cs : List Char) (c : Char)
    (h : (trimSpaceChars cs).getLast? = some c) : isSpace c = false := by
  unfold trimSpaceChars at h
  rw [List.getLast?_reverse] at h
  exact trimLeftChars_head _ c h

/-- The result of `strings.TrimSpace` does not start with white space. -/
theorem trimSpaceChars_head (cs : List Char) (c : Char)
    (h : (trimSpaceChars cs).head? = some c) : isSpace c = false := by
  unfold trimSpaceChars at h
  rw [List.head?_reverse] at h
  have hne : trimLeftChars (trimLeftChars cs).reverse ≠ [] := by
    intro hnil
    rw [hnil] at h
    cases h
  rw [trimLeftChars_getLast _ hne, List.getLast?_reverse] at h
  exact trimLeftChars_head cs c h

/-- C19: the escaping that `parseComment` applies. For every raw comment and
every decoder, the returned Description is `escape` of the long description
selected before (the trimmed decoded description when the whole text
decodes; after a failed first decode, the Comment when the remaining lines
decode and the Description when they do not), so it has no newline and every
double quote in it is directly preceded by a backslash; every example Name is
`escape` of the decoded name; every example Value is the decoded value
without its surrounding white space, the characters between left as they
are: the returned value neither starts nor ends with a white-space
character, and the decoded value is the returned one between two runs of
white space, so a value such as `  {"a": "b\n"}  ` loses the blanks at both
ends and keeps its quotes and its backslash. The Description, being a result
of `escape`, has no white space at its ends either. Values and Comment are
not changed by the escaping step. -/
theorem parseComment_escapes (L : Lib) (raw : String) :
    (parseComment L raw).Description = escape (parseCommentRaw L raw).Description ∧
    (parseCommentRaw L raw).Description =
      (if (L.unmarshal raw {}).failed = true then
        (if (L.unmarshal (restLines raw)
              { (L.unmarshal raw {}).text with
                Description := raw, Comment := firstLine raw }).failed = true then
          (L.unmarshal (restLines raw)
              { (L.unmarshal raw {}).text with
                Description := raw, Comment := firstLine raw }).text.Description
        else
          (L.unmarshal (restLines raw)
              { (L.unmarshal raw {}).text with
                Description := raw, Comment := firstLine raw }).text.Comment)
      else trimSpace (L.unmarshal raw {}).text.Description) ∧
    '\n' ∉ (parseComment L raw).Description.data ∧
    quotesEscaped (parseComment L raw).Description.data = true ∧
    (parseComment L raw).Examples = (parseCommentRaw L raw).Examples.map
      (fun ex => { Name := escape ex.Name, Value := trimSpace ex.Value }) ∧
    (∀ ex ∈ (parseCommentRaw L raw).Examples, ∃ l r,
      (∀ c ∈ l, isSpace c = true) ∧ (∀ c ∈ r, isSpace c = true) ∧
      ex.Value.data = l ++ (trimSpace ex.Value).data ++ r) ∧
    (∀ ex ∈ (parseComment L raw).Examples,
      (∀ c, ex.Value.data.head? = some c → isSpace c = false) ∧
      (∀ c, ex.Value.data.getLast? = some c → isSpace c = false)) ∧
    ((∀ c, (parseComment L raw).Description.data.head? = some c → isSpace c = false) ∧
      (∀ c, (parseComment L raw).Description.data.getLast? = some c → isSpace c = false)) ∧
    trimSpace "  \x7b\"a\": \"b\\n\"\x7d  " = "\x7b\"a\": \"b\\n\"\x7d" ∧
    (parseComment L raw).Values = (parseCommentRaw L raw).Values ∧
    (parseComment L raw).Comment = (parseCommentRaw L raw).Comment := by
  refine ⟨rfl, ?_, escape_no_newline _, escape_quotesEscaped _, rfl, ?_, ?_,
    ⟨fun c h => trimSpaceChars_head _ c h, fun c h => trimSpaceChars_getLast _ c h⟩,
    by decide, rfl, rfl⟩
  · unfold parseCommentRaw
    by_cases h1 : (L.unmarshal raw {}).failed = true
    · simp only [h1, if_true]
      split <;> rfl
    · simp [h1]
  · intro ex _
    exact trimSpaceChars_decomp ex.Value.data
  · intro ex hex
    have hmem : ex ∈ (parseCommentRaw L raw).Examples.map
        (fun ex => ({ Name := escape ex.Name, Value := trimSpace ex.Value } : Example)) := hex
    obtain ⟨ex0, _, hex0⟩ := List.mem_map.mp hmem
    subst hex0
    exact ⟨fun c h => trimSpaceChars_head _ c h, fun c h => trimSpaceChars_getLast _ c h⟩

theorem parseCommentRaw_fallback (L : Lib) (raw : String)
    (hfail : (L.unmarshal raw {}).failed = true) :
    parseCommentRaw L raw =
      if (secondDecode L raw).failed = true then (secondDecode L raw).text
      else { (secondDecode L raw).text with Description := (secondDecode L raw).text.Comment } := by
  unfold parseCommentRaw secondDecode fallbackText
  simp only [hfail, if_true]

/-- The plain-text fallback of `parseComment` on a comment whose second
decode leaves the fields it does not decode alone. Let structured decoding
of the whole comment fail, and let the second decode, of the comment without
its first line, leave the Comment as it found it and, when it fails, also
the Description (the decoder is a library function; `parseComment` does not
set either field again after the second decode, except Description when the
decode succeeds). Then Comment is the first line of the comment; if the
second decode succeeds, Description is `escape` of that first line alone and
the examples and values are those the decode left (names escaped, values
trimmed); if it fails, Description is `escape` of the entire comment.
`parseComment` is a total function: it returns a Text for every comment. -/
theorem parseComment_plain_text_fallback (L : Lib) (raw : String)
    (hfail : (L.unmarshal raw {}).failed = true)
    (hframeComment : (secondDecode L raw).text.Comment = (fallbackText L raw).Comment)
    (hframeDescription : (secondDecode L raw).failed = true →
      (secondDecode L raw).text.Description = (fallbackText L raw).Description) :
    (parseComment L raw).Comment = firstLine raw ∧
    ((secondDecode L raw).failed = false →
      (parseComment L raw).Description = escape (firstLine raw)) ∧
    ((secondDecode L raw).failed = true → (parseComment L raw).Description = escape raw) ∧
    (parseComment L raw).Examples = (secondDecode L raw).text.Examples.map
      (fun ex => { Name := escape ex.Name, Value := trimSpace ex.Value }) ∧
    (parseComment L raw).Values = (secondDecode L raw).text.Values ∧
    (∀ (L' : Lib) (raw' : String), ∃ text : Text, parseComment L' raw' = text) := by
  have hraw := parseCommentRaw_fallback L raw hfail
  have hComment : (secondDecode L raw).text.Comment = firstLine raw := hframeComment
  have hDescription : (secondDecode L raw).failed = true →
      (secondDecode L raw).text.Description = raw := hframeDescription
  by_cases h2 : (secondDecode L raw).failed = true
  · have hp : parseComment L raw = escapeText (secondDecode L raw).text := by
      unfold parseComment
      rw [hraw, if_pos h2]
    refine ⟨?_, ?_, ?_, ?_, ?_, fun L' raw' => ⟨_, rfl⟩⟩
    · rw [hp]; exact hComment
    · intro h; rw [h2] at h; cases h
    · intro _; rw [hp]; show escape _ = _; rw [hDescription h2]
    · rw [hp]; rfl
    · rw [hp]; rfl
  · have hp : parseComment L raw = escapeText
        { (secondDecode L raw).text with Description := (secondDecode L raw).text.Comment } := by
      unfold parseComment
      rw [hraw, if_neg h2]
    refine ⟨?_, ?_, ?_, ?_, ?_, fun L' raw' => ⟨_, rfl⟩⟩
    · rw [hp]; exact hComment
    · intro _; rw [hp]; show escape _ = _; rw [hComment]
    · intro h; exact absurd h h2
    · rw [hp]; rfl
    · rw [hp]; rfl

/-- The plain-text fallback at the comment of the member `Server` of the
scenario: the whole comment does not decode, its lines after the first do. -/
theorem parseComment_plain_text_fallback_witness :
    (scenarioLib.unmarshal serverComment {}).failed = true ∧
    (secondDecode scenarioLib serverComment).failed = false ∧
    parseComment scenarioLib serverComment
      = { Comment := " Server settings.", Description := "Server settings.",
          Examples := [{ Name := "default", Value := "{}" }], Values := [] } ∧
    (parseComment scenarioLib serverComment).Comment = firstLine serverComment :=
  ⟨by decide, by decide, by decide,
    (parseComment_plain_text_fallback scenarioLib serverComment (by decide) (by decide)
      (by decide)).1⟩

/-- C20: the code at the failing input. The comment lines `// Intro` and
`// comment: zzz` give the raw comment ` Intro`, newline, ` comment: zzz`.
Structured decoding of the whole text fails and that of the remaining line
succeeds, writing `zzz` into Comment because the decoder keys the field by
its name. `parseComment` then takes Comment for the Description: both are
`zzz`, while the first line of the raw comment is ` Intro`. Without the key
`comment` in the remaining lines (the comment of `Server`) Comment is the
first line and Description is that line, escaped. -/
theorem parseComment_takes_decoded_comment_key :
    Dst.uncommentDecorationNode ["// Intro", "// comment: zzz"] = introComment ∧
    (commentKeyLib.unmarshal introComment {}).failed = true ∧
    restLines introComment = " comment: zzz" ∧
    (secondDecode commentKeyLib introComment).failed = false ∧
    firstLine introComment = " Intro" ∧ escape (firstLine introComment) = "Intro" ∧
    parseComment commentKeyLib introComment
      = { Comment := "zzz", Description := "zzz", Examples := [], Values := [] } ∧
    (parseComment commentKeyLib introComment).Comment ≠ firstLine introComment ∧
    (parseComment commentKeyLib introComment).Description ≠ escape (firstLine introComment) ∧
    parseComment scenarioLib serverComment
      = { Comment := firstLine serverComment, Description := escape (firstLine serverComment),
          Examples := [{ Name := "default", Value := "{}" }], Values := [] } := by
  refine ⟨by decide, by decide, by decide, by decide, by decide, by decide, by decide,
    by decide, by decide, by decide⟩

/-- C18: the code at failing inputs. `escape` leaves backslashes as they are:
for `regex \d+` the escaped text is the text itself, whose `\d` is no escape
of an interpreted string literal, and for `path\` the escaped text ends in a
backslash, which would escape the closing quote. Newlines at the ends are
replaced before the trimming, so `escape` of newline `abc` newline is
`\nabc\n`, which denotes `abc` with the newlines, not trimmed. A text
without backslash such as `say "hi"` is embedded well. -/
theorem escape_leaves_backslashes :
    escape "regex \\d+" = "regex \\d+" ∧ literalBodyOk (escape "regex \\d+") = false ∧
    escape "path\\" = "path\\" ∧ literalBodyOk (escape "path\\") = false ∧
    escape "\nabc\n" = "\\nabc\\n" ∧
    escape "say \"hi\"" = "say \\\"hi\\\"" ∧ literalBodyOk (escape "say \"hi\"") = true := by
  decide

/-! ### The field collector -/

namespace Dst

theorem namedStep_congr (L : Lib) (P : Program) (parse : ParseFn) (s s' : structType)
    (h : s.packagePrefix = s'.packagePrefix) (opts : collectStructOptions) (f : FieldDecl)
    (name yamlTag documentation : String) (fields : List Field)
    (found : List (Option structType)) (u : Unique) :
    namedStep L P parse s opts f name yamlTag documentation fields found u
      = namedStep L P parse s' opts f name yamlTag documentation fields found u := by
  simp only [namedStep, h]

theorem fieldStep_congr (L : Lib) (P : Program) (parse : ParseFn) (s s' : structType)
    (h : s.packagePrefix = s'.packagePrefix) (opts : collectStructOptions) (f : FieldDecl)
    (fields : List Field) (found : List (Option structType)) (u : Unique) :
    fieldStep L P parse s opts f fields found u
      = fieldStep L P parse s' opts f fields found u := by
  simp only [fieldStep, namedStep_congr L P parse s s' h]

theorem fieldsLoop_congr (L : Lib) (P : Program) (parse : ParseFn) (s s' : structType)
    (h : s.packagePrefix = s'.packagePrefix) (opts : collectStructOptions)
    (members : List FieldDecl) (fields : List Field) (found : List (Option structType))
    (u : Unique) :
    fieldsLoop L P parse s opts members fields found u
      = fieldsLoop L P parse s' opts members fields found u := by
  induction members generalizing fields found u with
  | nil => rfl
  | cons f rest ih =>
    simp only [fieldsLoop, fieldStep_congr L P parse s s' h]
    split <;> first | rfl | exact ih _ _ _

/-- A member with a name and without documentation leaves the lists and the
dedup set as they are. -/
theorem fieldStep_undocumented (L : Lib) (P : Program) (parse : ParseFn) (s : structType)
    (opts : collectStructOptions) (f : FieldDecl) (hn : f.Names ≠ [])
    (hd : uncommentDecorationNode f.Decs = "") (fields : List Field)
    (found : List (Option structType)) (u : Unique) :
    fieldStep L P parse s opts f fields found u = .ok (.next fields found u) := by
  obtain ⟨name, names, hnames⟩ := List.exists_cons_of_ne_nil hn
  unfold fieldStep
  cases hTag : f.Tag with
  | none => simp [hnames]
  | some yamlTags =>
    simp only [hd, hnames, if_true]
    split <;> rfl

/-- A member whose step changes nothing can be removed from the member list. -/
theorem fieldsLoop_skip (L : Lib) (P : Program) (parse : ParseFn) (s : structType)
    (opts : collectStructOptions) (f : FieldDecl)
    (hf : ∀ fields found u, fieldStep L P parse s opts f fields found u
      = .ok (.next fields found u))
    (before after : List FieldDecl) (fields : List Field)
    (found : List (Option structType)) (u : Unique) :
    fieldsLoop L P parse s opts (before ++ f :: after) fields found u
      = fieldsLoop L P parse s opts (before ++ after) fields found u := by
  induction before generalizing fields found u with
  | nil => simp [fieldsLoop, hf]
  | cons g rest ih =>
    simp only [List.cons_append, fieldsLoop]
    split <;> first | rfl | exact ih _ _ _

/-- C8, as stated, fails: for a record whose member `Bare` is named, tagged
and has no documentation comment, `collectFields` of dst.go returns a field
list, the one of the members `Name` and `Port`. -/
theorem collectFields_returns_despite_undocumented_member :
    (collectFields scalarLib (settingsProgram undocumentedMembers)
        (parseStructuresFromDSTSpec scalarLib (settingsProgram undocumentedMembers) 1)
        (rootStruct "Settings" undocumentedMembers)
        { pkg := 0, structName := "Settings" } []).toOption.map
      (fun r => r.1.1.map (fun field => field.Name)) = some ["Name", "Port"] := by
  decide

/-- C8, amended: in dst.go a named member without documentation comment is
skipped, not fatal: `collectFields` returns for the record exactly what it
returns for the record without that member (same fields, same discovered
structures, same dedup set). -/
theorem collectFields_skips_undocumented_member (L : Lib) (P : Program) (parse : ParseFn)
    (s : structType) (opts : collectStructOptions) (u : Unique) (f : FieldDecl)
    (before after : List FieldDecl) (hn : f.Names ≠ [])
    (hd : uncommentDecorationNode f.Decs = "") :
    collectFields L P parse { s with node := before ++ f :: after } opts u
      = collectFields L P parse { s with node := before ++ after } opts u := by
  unfold collectFields
  rw [fieldsLoop_congr L P parse { s with node := before ++ f :: after } s rfl,
    fieldsLoop_congr L P parse { s with node := before ++ after } s rfl]
  exact fieldsLoop_skip L P parse s opts f
    (fun fields found u => fieldStep_undocumented L P parse s opts f hn hd fields found u)
    before after [] [] u

/-- C8, amended, at the record with the members `Name`, `Bare`, `Port`. -/
theorem collectFields_skips_undocumented_member_witness :
    collectFields scalarLib (settingsProgram undocumentedMembers)
        (parseStructuresFromDSTSpec scalarLib (settingsProgram undocumentedMembers) 1)
        { rootStruct "Settings" [] with
          node := [member "Name" (builtin "string") "name" "The name."] ++
            { Names := ["Bare"], Typ := builtin "int", Tag := some "bare", Decs := [] } ::
            [member "Port" (builtin "int") "port" "Listen port."] }
        { pkg := 0, structName := "Settings" } []
      = collectFields scalarLib (settingsProgram undocumentedMembers)
        (parseStructuresFromDSTSpec scalarLib (settingsProgram undocumentedMembers) 1)
        { rootStruct "Settings" [] with
          node := [member "Name" (builtin "string") "name" "The name."] ++
            [member "Port" (builtin "int") "port" "Listen port."] }
        { pkg := 0, structName := "Settings" } [] :=
  collectFields_skips_undocumented_member scalarLib (settingsProgram undocumentedMembers)
    (parseStructuresFromDSTSpec scalarLib (settingsProgram undocumentedMembers) 1)
    (rootStruct "Settings" []) { pkg := 0, structName := "Settings" } []
    { Names := ["Bare"], Typ := builtin "int", Tag := some "bare", Decs := [] }
    [member "Name" (builtin "string") "name" "The name."]
    [member "Port" (builtin "int") "port" "Listen port."] (by decide) (by decide)

/-- C6, as stated, fails: for a record whose member `Opt` is tagged
`yaml:",omitempty"`, `collectFields` of dst.go returns a Field for `Opt`, and
its Tag is empty. -/
theorem collectFields_keeps_member_with_empty_tag_name :
    (collectFields scalarLib (settingsProgram omitemptyMembers)
        (parseStructuresFromDSTSpec scalarLib (settingsProgram omitemptyMembers) 1)
        (rootStruct "Settings" omitemptyMembers)
        { pkg := 0, structName := "Settings" } []).toOption.map
      (fun r => r.1.1.map (fun field => (field.Name, field.Tag)))
      = some [("Opt", ""), ("Port", "port")] := by
  decide

/-! ### Discovery and `process` on concrete inputs -/

/-- C2: the code at the failing input. For the root record `Config` with the
member `Children []Config`, discovery from an empty dedup set returns the
record `Config` of the root package twice. -/
theorem discover_lists_self_referential_root_twice :
    (discover scalarLib selfRefProgram 3 [0] "Config" []).toOption.map
      (fun r => r.1.map (Option.map (fun s => (s.packagePrefix, s.name))))
      = some [some ("", "Config"), some ("", "Config")] := by
  decide

/-- C3: the code at the failing input. The root record `Config` has the
members `Remote b.A` and `Local B`; `b.A` has the member `Inner B` of its own
package. Discovery returns `Config`, `b.A` and `b.B`: the record `B` of the
root package, the type of `Local`, has no node. -/
theorem discover_misses_root_record_with_shared_bare_name :
    (discover scalarLib twoModuleProgram 4 [0] "Config" []).toOption.map
      (fun r => r.1.map (Option.map (fun s => (s.packagePrefix, s.name))))
      = some [some ("", "Config"), some ("b", "A"), some ("b", "B")] := by
  decide

/-- C9: the code at the failing input. One package is loaded and no record in
it is named `Missing`: `process` does not end with the fatal error, it
panics on the nil entry of `structures`. -/
theorem process_panics_when_root_is_missing :
    process scalarLib selfRefProgram 3 [0] "Missing" "./pkg" "main" "out.go"
      = .error (.panic "nil pointer dereference: s.name") := by
  rfl

/-- C1, as stated, fails: record `A` of the imported package `b` has the
member `Inner B` (tag `inner`), by value, whose type resolves to declaration 3
of the program, the record `B` of the same package. After `process`, `b.A` is
node 1 and `b.B` is node 2 of the graph, the reference key of `inner` is `B`,
and the AppearsIn list of `b.B` is empty: it has no entry `(b.A, inner)`. -/
theorem process_by_value_reference_in_imported_module_has_no_appearance :
    importedASpec.Typ
      = .structType [member "Inner" (localType "B" 3) "inner" "The inner part."] ∧
    coreIdent (localType "B" 3) = some { Name := "B", Obj := some { Name := "B", Decl := 3 } } ∧
    byValueProgram.decls[3]? = some (.typeSpec importedBSpec) ∧
    (process scalarLib byValueProgram 4 [0] "Config" "./pkg" "main" "out.go").toOption.map
      (fun doc => doc.Structs.map (fun s =>
        (s.GetName, s.Fields.map (fun field => (field.Tag, field.TypeRef)), s.AppearsIn)))
      = some [("Config", [("remote", "b.A")], []),
              ("b.A", [("inner", "B")], [{ Struct := 0, FieldName := "remote" }]),
              ("b.B", [("y", "string")], [])] := by
  refine ⟨rfl, rfl, rfl, ?_⟩
  decide

/-! ### The finalisation pass -/

theorem wrapStructName_ne_empty (pfx name : String) (h : name ≠ "") :
    wrapStructName pfx name ≠ "" := by
  unfold wrapStructName
  by_cases hp : pfx = ""
  · simpa [hp] using h
  · simp only [hp, if_false]
    intro hcontra
    have := congrArg String.data hcontra
    simp [String.data_append] at this

theorem SliceMap.getD_append {α : Type} (m : SliceMap α) (key : String) (xs : List α)
    (k : String) :
    ((m.append key xs) k).getD [] = (m k).getD [] ++ (if k = key then xs else []) := by
  unfold SliceMap.append
  by_cases h : k = key
  · simp [h]
  · simp [h]

theorem fieldsPass_examples (owner : Nat) (fields : List Field) (ex : SliceMap Example)
    (br : SliceMap Appearance) (k : String) (hk : k ≠ "") :
    ((fieldsPass owner fields ex br).1 k).getD [] = (ex k).getD [] ++ fieldExamples k fields := by
  induction fields generalizing ex br with
  | nil => simp [fieldsPass, fieldExamples]
  | cons field rest ih =>
    unfold fieldsPass
    have hcons : fieldExamples k (field :: rest)
        = (if field.TypeRef = k then field.Text.Examples else []) ++ fieldExamples k rest := by
      unfold fieldExamples
      by_cases h : field.TypeRef = k
      · simp [List.filter_cons, h]
      · simp [List.filter_cons, h]
    by_cases h0 : field.TypeRef = ""
    · have hne : ¬ ("" = k) := fun h => hk h.symm
      simp only [h0, if_true]
      rw [ih, hcons, h0]
      simp [hne]
    · simp only [h0, if_false]
      rw [ih, hcons]
      by_cases hlen : field.Text.Examples.length > 0
      · simp only [hlen, if_true, SliceMap.getD_append, List.append_assoc]
        by_cases hk' : k = field.TypeRef
        · simp [hk']
        · have hk2 : ¬ (field.TypeRef = k) := fun h => hk' h.symm
          simp [hk', hk2]
      · have hnil : field.Text.Examples = [] := by
          cases hE : field.Text.Examples with
          | nil => rfl
          | cons a b => simp [hE] at hlen
        simp [hlen, hnil]

theorem fieldsPass_refs (owner : Nat) (fields : List Field) (ex : SliceMap Example)
    (br : SliceMap Appearance) (k : String) (hk : k ≠ "") :
    ((fieldsPass owner fields ex br).2 k).getD [] = (br k).getD [] ++ fieldRefs owner k fields := by
  induction fields generalizing ex br with
  | nil => simp [fieldsPass, fieldRefs]
  | cons field rest ih =>
    unfold fieldsPass
    have hcons : fieldRefs owner k (field :: rest)
        = (if field.TypeRef = k then [{ Struct := owner, FieldName := field.Tag }] else [])
          ++ fieldRefs owner k rest := by
      unfold fieldRefs
      by_cases h : field.TypeRef = k
      · simp [List.filter_cons, h]
      · simp [List.filter_cons, h]
    by_cases h0 : field.TypeRef = ""
    · have hne : ¬ ("" = k) := fun h => hk h.symm
      simp only [h0, if_true]
      rw [ih, hcons, h0]
      simp [hne]
    · simp only [h0, if_false]
      rw [ih, hcons, SliceMap.getD_append, List.append_assoc]
      by_cases hk' : k = field.TypeRef
      · simp [hk']
      · have hk2 : ¬ (field.TypeRef = k) := fun h => hk' h.symm
        simp [hk', hk2]

theorem structsPass_ok (structures : List structType) (structs : List Struct)
    (ex : SliceMap Example) (br : SliceMap Appearance) :
    ∃ ex' br', structsPass (structures.map some) structs ex br
        = .ok (structs ++ structures.map newStruct, ex', br') ∧
      ∀ k, k ≠ "" →
        (ex' k).getD [] = (ex k).getD [] ++ specExamples structures k ∧
        (br' k).getD [] = (br k).getD [] ++ specAppearsFrom structs.length structures k := by
  induction structures generalizing structs ex br with
  | nil =>
    exact ⟨ex, br, by simp [structsPass], fun k _ => by simp [specExamples, specAppearsFrom]⟩
  | cons s rest ih =>
    obtain ⟨ex', br', hrun, hmaps⟩ := ih (structs ++ [newStruct s])
      (fieldsPass structs.length s.fields ex br).1 (fieldsPass structs.length s.fields ex br).2
    refine ⟨ex', br', ?_, ?_⟩
    · simp only [List.map_cons, structsPass, hrun, List.append_assoc, List.singleton_append]
    · intro k hk
      obtain ⟨h1, h2⟩ := hmaps k hk
      rw [h1, h2, fieldsPass_examples _ _ _ _ _ hk, fieldsPass_refs _ _ _ _ _ hk]
      simp [specExamples, specAppearsFrom, List.enumFrom_cons, List.append_assoc]

theorem applyExtras_eq (ex : SliceMap Example) (br : SliceMap Appearance) (s : Struct) :
    applyExtras ex br s =
      { s with
        Text := { s.Text with Examples := s.Text.Examples ++ (ex s.GetName).getD [] }
        AppearsIn := s.AppearsIn ++ (br s.GetName).getD [] } := by
  unfold applyExtras
  cases hex : ex s.GetName <;> cases hbr : br s.GetName <;>
    simp [Struct.GetName, hex, hbr] <;> simp [Struct.GetName] at hex hbr <;> simp [hex, hbr]

/-- The finalisation pass over a graph without nil entries and without an
empty record name returns, for every record, the node that the specification
describes. -/
theorem finalise_eq_spec (structures : List structType)
    (hname : ∀ B ∈ structures, B.name ≠ "") :
    finalise (structures.map some) = .ok (structures.map (specStruct structures)) := by
  obtain ⟨ex', br', hrun, hmaps⟩ := structsPass_ok structures [] (fun _ => none) (fun _ => none)
  unfold finalise
  rw [hrun]
  simp only [List.nil_append, List.map_map]
  congr 1
  apply List.map_congr_left
  intro B hB
  obtain ⟨h1, h2⟩ := hmaps _ (wrapStructName_ne_empty B.packagePrefix B.name (hname B hB))
  simp only [Function.comp, applyExtras_eq, newStruct, Struct.GetName, specStruct, h1, h2,
    specAppearsIn]
  simp

theorem finalise_node (structures : List structType) (hname : ∀ B ∈ structures, B.name ≠ "")
    (j : Nat) (B : structType) (hB : structures[j]? = some B) :
    ∃ structs, finalise (structures.map some) = .ok structs ∧
      structs.length = structures.length ∧
      structs[j]? = some (specStruct structures B) := by
  refine ⟨_, finalise_eq_spec structures hname, by simp, ?_⟩
  simp [List.getElem?_map, hB]

theorem mem_fieldRefs (owner : Nat) (key : String) (fields : List Field) (F : Field)
    (hF : F ∈ fields) (hkey : F.TypeRef = key) :
    ({ Struct := owner, FieldName := F.Tag } : Appearance) ∈ fieldRefs owner key fields := by
  unfold fieldRefs
  exact List.mem_map.mpr ⟨F, List.mem_filter.mpr ⟨hF, by simpa using hkey⟩, rfl⟩

theorem mem_specAppearsFrom (start : Nat) (structures : List structType) (key : String)
    (i : Nat) (A : structType) (F : Field) (hA : structures[i]? = some A) (hF : F ∈ A.fields)
    (hkey : F.TypeRef = key) :
    ({ Struct := start + i, FieldName := F.Tag } : Appearance)
      ∈ specAppearsFrom start structures key := by
  induction structures generalizing start i with
  | nil => simp at hA
  | cons s rest ih =>
    unfold specAppearsFrom
    rw [List.enumFrom_cons, List.map_cons, List.flatten_cons, List.mem_append]
    cases i with
    | zero =>
      left
      simp only [List.getElem?_cons_zero, Option.some.injEq] at hA
      subst hA
      exact mem_fieldRefs _ _ _ _ hF hkey
    | succ i =>
      right
      simp only [List.getElem?_cons_succ] at hA
      have := ih (start + 1) i hA
      unfold specAppearsFrom at this
      have hidx : start + 1 + i = start + (i + 1) := by omega
      rw [hidx] at this
      exact this

theorem mem_specExamples (structures : List structType) (key : String)
    (i : Nat) (A : structType) (F : Field) (hA : structures[i]? = some A) (hF : F ∈ A.fields)
    (hkey : F.TypeRef = key) (e : Example) (he : e ∈ F.Text.Examples) :
    e ∈ specExamples structures key := by
  unfold specExamples fieldExamples
  rw [List.mem_flatten]
  refine ⟨_, List.mem_map.mpr ⟨A, List.getElem?_mem hA, rfl⟩, ?_⟩
  rw [List.mem_flatten]
  exact ⟨_, List.mem_map.mpr ⟨F, List.mem_filter.mpr ⟨hF, by simpa using hkey⟩, rfl⟩, he⟩

theorem fieldExamples_without (F : Field) (key : String) (hkey : F.TypeRef ≠ key)
    (fields : List Field) :
    fieldExamples key (fields.filter (fun field => field ≠ F)) = fieldExamples key fields := by
  unfold fieldExamples
  rw [List.filter_filter]
  congr 2
  apply List.filter_congr
  intro field _
  by_cases h : field.TypeRef = key
  · have : field ≠ F := fun hf => hkey (hf ▸ h)
    simp [h, this]
  · simp [h]

theorem specExamples_without (F : Field) (key : String) (hkey : F.TypeRef ≠ key)
    (structures : List structType) :
    specExamples (withoutField F structures) key = specExamples structures key := by
  unfold specExamples withoutField
  rw [List.map_map]
  congr 1
  apply List.map_congr_left
  intro s _
  exact fieldExamples_without F key hkey s.fields

theorem getFieldType_local (e : Expr) (t : Ident) (apply : Bool) (hcore : coreIdent e = some t)
    (hpath : t.Path = "") : getFieldType e "" apply = t.Name := by
  induction e generalizing apply with
  | ident t' =>
    simp only [coreIdent, Option.some.injEq] at hcore
    subst hcore
    simp [getFieldType, identFieldType, hpath]
  | mapType k v _ ihv => exact ihv false hcore
  | arrayType e ih => exact ih false hcore
  | starExpr x ih => exact ih true hcore
  | selectorExpr x sel _ =>
    simp only [coreIdent, Option.some.injEq] at hcore
    subst hcore
    simp [getFieldType, identFieldType, hpath]
  | structType => simp [coreIdent] at hcore
  | interfaceType => simp [coreIdent] at hcore
  | other => simp [coreIdent] at hcore

theorem getFieldType_starIdent (e : Expr) (t : Ident) (pfx : String) (apply : Bool)
    (hstar : starIdent e = some t) (hpath : t.Path = "") :
    getFieldType e pfx apply = wrapStructName pfx t.Name := by
  induction e generalizing apply with
  | ident t' => simp [starIdent] at hstar
  | mapType k v _ ihv => exact ihv false (by simpa [starIdent] using hstar)
  | arrayType e ih => exact ih false (by simpa [starIdent] using hstar)
  | starExpr x ih =>
    cases x with
    | ident t' =>
      simp only [starIdent, Option.some.injEq] at hstar
      subst hstar
      by_cases hp : pfx = ""
      · simp [getFieldType, identFieldType, hpath, hp, wrapStructName]
      · simp [getFieldType, identFieldType, hpath, hp]
    | mapType k v => exact ih true (by simpa [starIdent] using hstar)
    | arrayType e' => exact ih true (by simpa [starIdent] using hstar)
    | starExpr x' => exact ih true (by simpa [starIdent] using hstar)
    | selectorExpr x' sel => simp [starIdent] at hstar
    | structType => simp [starIdent] at hstar
    | interfaceType => simp [starIdent] at hstar
    | other => simp [starIdent] at hstar
  | selectorExpr x sel _ => simp [starIdent] at hstar
  | structType => simp [starIdent] at hstar
  | interfaceType => simp [starIdent] at hstar
  | other => simp [starIdent] at hstar

theorem getFieldType_qualified (e : Expr) (t : Ident) (pfx : String) (apply : Bool)
    (hcore : coreIdent e = some t) (hpath : t.Path ≠ "") :
    getFieldType e pfx apply = wrapStructName (pathBase t.Path) t.Name := by
  induction e generalizing apply with
  | ident t' =>
    simp only [coreIdent, Option.some.injEq] at hcore
    subst hcore
    simp [getFieldType, identFieldType, hpath]
  | mapType k v _ ihv => exact ihv false hcore
  | arrayType e ih => exact ih false hcore
  | starExpr x ih => exact ih true hcore
  | selectorExpr x sel _ =>
    simp only [coreIdent, Option.some.injEq] at hcore
    subst hcore
    simp [getFieldType, identFieldType, hpath]
  | structType => simp [coreIdent] at hcore
  | interfaceType => simp [coreIdent] at hcore
  | other => simp [coreIdent] at hcore

/-- C10: finalisation preserves discovery order. For every record `B` of a
graph (no nil entry, no empty record name), the finalised node of `B` has as
AppearsIn the list of `(S, F.Tag)` over all records `S` in graph order and
all fields `F` of `S` in field-list order with `F.TypeRef` equal to the name
of `B`, and as Text.Examples the own examples of `B` followed by the
examples of those fields in the same order. -/
theorem finalise_preserves_discovery_order (structures : List structType)
    (hname : ∀ S ∈ structures, S.name ≠ "") (j : Nat) (B : structType)
    (hB : structures[j]? = some B) :
    ∃ structs B', finalise (structures.map some) = .ok structs ∧
      structs.length = structures.length ∧ structs[j]? = some B' ∧
      B'.GetName = wrapStructName B.packagePrefix B.name ∧
      B'.AppearsIn = specAppearsIn structures B'.GetName ∧
      B'.Text.Examples = B.text.Examples ++ specExamples structures B'.GetName := by
  obtain ⟨structs, hrun, hlen, hj⟩ := finalise_node structures hname j B hB
  exact ⟨structs, specStruct structures B, hrun, hlen, hj, rfl, rfl, rfl⟩

/-- C10 at a graph in which `Config.first` and `Pool.nodes` reference `Node`:
`Node` gets exactly the two Appearances, in discovery order. -/
theorem finalise_preserves_discovery_order_witness :
    specAppearsIn twoRefsGraph "Node"
        = [{ Struct := 0, FieldName := "first" }, { Struct := 2, FieldName := "nodes" }] ∧
    specExamples twoRefsGraph "Node" = [{ Name := "a", Value := "1" }, { Name := "b", Value := "2" }] ∧
    ∃ structs B', finalise (twoRefsGraph.map some) = .ok structs ∧
      structs.length = twoRefsGraph.length ∧ structs[1]? = some B' ∧
      B'.GetName = wrapStructName "" "Node" ∧
      B'.AppearsIn = specAppearsIn twoRefsGraph B'.GetName ∧
      B'.Text.Examples
        = [{ Name := "own", Value := "0" }] ++ specExamples twoRefsGraph B'.GetName :=
  ⟨by decide, by decide,
    finalise_preserves_discovery_order twoRefsGraph (by decide) 1
      (rootRecord "Node" [{ Name := "own", Value := "0" }] []) rfl⟩

/-- The reference key of a member type is the name of the record it refers
to in three cases: an unqualified identifier between two records of the root
module, an import-qualified identifier and a record of that import, an
unqualified identifier directly under a pointer and a record of the module of
the owner. -/
theorem referenceKey_eq_name (A B : structType) (e : Expr) (t : Ident)
    (hcore : coreIdent e = some t) (hN : t.Name = B.name)
    (hcase : (t.Path = "" ∧ A.packagePrefix = "" ∧ B.packagePrefix = "") ∨
      (t.Path ≠ "" ∧ B.packagePrefix = pathBase t.Path) ∨
      (t.Path = "" ∧ starIdent e = some t ∧ B.packagePrefix = A.packagePrefix)) :
    getFieldType e A.packagePrefix false = wrapStructName B.packagePrefix B.name := by
  rcases hcase with ⟨hp, hAp, hBp⟩ | ⟨hp, hBp⟩ | ⟨hp, he, hBp⟩
  · rw [hAp, hBp, getFieldType_local e t false hcore hp, hN]
    simp [wrapStructName]
  · rw [getFieldType_qualified e t _ false hcore hp, hBp, hN]
  · rw [getFieldType_starIdent e t _ false he hp, hBp, hN]

/-- C5, as stated, fails: record `A` of the imported package `b` has the
member `Inner B` (tag `inner`), by value, documented with the example named
`default`; its type resolves to the record `B` of the same package. After
`process`, `b.A` is node 1 and `b.B` is node 2 of the graph, the field `inner`
carries the example and has the reference key `B`, and `b.B` has no example:
the example of the field has not reached the record it references. -/
theorem process_example_on_by_value_reference_is_not_propagated :
    exampleASpec.Typ
      = .structType [{ Names := ["Inner"], Typ := localType "B" 3, Tag := some "inner",
                       Decs := ["// The inner part.", "// examples:", "//   - name: default",
                                "//     value: \"{}\""] }] ∧
    coreIdent (localType "B" 3) = some { Name := "B", Obj := some { Name := "B", Decl := 3 } } ∧
    byValueExampleProgram.decls[3]? = some (.typeSpec importedBSpec) ∧
    (process scenarioLib byValueExampleProgram 4 [0] "Config" "./pkg" "main" "out.go").toOption.map
      (fun doc => doc.Structs.map (fun s =>
        (s.GetName, s.Fields.map (fun field => (field.Tag, field.TypeRef, field.Text.Examples)),
          s.Text.Examples)))
      = some [("Config", [("remote", "b.A", [])], []),
              ("b.A", [("inner", "B", [{ Name := "default", Value := "{}" }])], []),
              ("b.B", [("y", "string", [])], [])] := by
  refine ⟨rfl, rfl, rfl, ?_⟩
  rfl

/-- C5, amended: example propagation where the reference key is the name of
the referenced record. In a graph (no nil entry, no empty record name) let
the field `F` of record `A` carry at least one example, let its reference key
be computed from the member type `e` with the package prefix of `A`, let `e`
resolve (directly or through pointer, sequence, map-value or selector
wrapping) to the identifier `t`, and let record `B`, of another name than
`A`, bear the name of `t`. If `t` is unqualified and `A` and `B` live in the
root module, or `t` is import-qualified and `B` lives in the module of that
import, or `t` is unqualified, stands directly under a pointer (`*t`, `[]*t`,
`map[K]*t`) and `B` lives in the module of `A`, then after finalisation
every example of `F` is among the examples of `B`, and the examples of `A`
are its own followed by those that the fields other than `F` give it: `F`
adds nothing to `A`. -/
theorem finalise_propagates_examples (structures : List structType)
    (hname : ∀ S ∈ structures, S.name ≠ "") (i j : Nat) (A B : structType) (F : Field)
    (e : Expr) (t : Ident)
    (hA : structures[i]? = some A) (hB : structures[j]? = some B) (hF : F ∈ A.fields)
    (hRef : F.TypeRef = getFieldType e A.packagePrefix false)
    (hcore : coreIdent e = some t) (hN : t.Name = B.name)
    (hcase : (t.Path = "" ∧ A.packagePrefix = "" ∧ B.packagePrefix = "") ∨
      (t.Path ≠ "" ∧ B.packagePrefix = pathBase t.Path) ∨
      (t.Path = "" ∧ starIdent e = some t ∧ B.packagePrefix = A.packagePrefix))
    (hAB : wrapStructName A.packagePrefix A.name ≠ wrapStructName B.packagePrefix B.name)
    (_hEx : F.Text.Examples ≠ []) :
    ∃ structs A' B', finalise (structures.map some) = .ok structs ∧
      structs[i]? = some A' ∧ structs[j]? = some B' ∧
      (∀ ex ∈ F.Text.Examples, ex ∈ B'.Text.Examples) ∧
      A'.Text.Examples = A.text.Examples
        ++ specExamples (withoutField F structures) (wrapStructName A.packagePrefix A.name) := by
  have hkey : F.TypeRef = wrapStructName B.packagePrefix B.name := by
    rw [hRef]
    exact referenceKey_eq_name A B e t hcore hN hcase
  obtain ⟨structs, hrun, _, hj⟩ := finalise_node structures hname j B hB
  obtain ⟨structs', hrun', _, hi⟩ := finalise_node structures hname i A hA
  rw [hrun] at hrun'
  cases hrun'
  refine ⟨structs, specStruct structures A, specStruct structures B, hrun, hi, hj, ?_, ?_⟩
  · intro ex hex
    exact List.mem_append_right _ (mem_specExamples structures _ i A F hA hF hkey ex hex)
  · have hne : F.TypeRef ≠ wrapStructName A.packagePrefix A.name := by
      rw [hkey]; exact fun h => hAB h.symm
    rw [specExamples_without F _ hne]
    rfl

/-- C5, amended, at the graph of `Config` and `ServerConfig`, for the field
`server` with the example named `default`, whose member type is the
unqualified `ServerConfig` of the root module. -/
theorem finalise_propagates_examples_witness :
    ∃ structs A' B', finalise (serverGraph.map some) = .ok structs ∧
      structs[0]? = some A' ∧ structs[1]? = some B' ∧
      (∀ ex ∈ serverField.Text.Examples, ex ∈ B'.Text.Examples) ∧
      A'.Text.Examples = [] ++ specExamples (withoutField serverField serverGraph)
        (wrapStructName "" "Config") :=
  finalise_propagates_examples serverGraph (by decide) 0 1
    (rootRecord "Config" []
      [docField "Name" "string" "string" "name" "The name." [], serverField])
    (rootRecord "ServerConfig" [{ Name := "own", Value := "1" }]
      [docField "Port" "int" "int" "port" "Listen port." []])
    serverField (localType "ServerConfig" 1)
    { Name := "ServerConfig", Obj := some { Name := "ServerConfig", Decl := 1 } }
    rfl rfl (by decide) (by decide) rfl rfl (Or.inl ⟨rfl, rfl, rfl⟩) (by decide) (by decide)

/-- C1, amended: back-reference correctness where the reference key is the
name of the referenced record. Let `F` be a field of record `A` whose
reference key was computed from the member type `e` with the package prefix
of `A`, let `e` resolve (directly or through pointer, sequence, map-value or
selector wrapping) to the identifier `t`, and let record `B` of the graph
bear the name of `t`. If `t` is unqualified and `A` and `B` live in the root
module, or `t` is import-qualified and `B` lives in the module of that
import, or `t` is unqualified, stands directly under a pointer (`*t`, `[]*t`,
`map[K]*t`) and `B` lives in the module of `A`, then after finalisation the
AppearsIn list of `B` contains `(A, F.Tag)`. -/
theorem finalise_back_reference (structures : List structType)
    (hname : ∀ S ∈ structures, S.name ≠ "") (i j : Nat) (A B : structType) (F : Field)
    (e : Expr) (t : Ident)
    (hA : structures[i]? = some A) (hB : structures[j]? = some B) (hF : F ∈ A.fields)
    (hRef : F.TypeRef = getFieldType e A.packagePrefix false)
    (hcore : coreIdent e = some t) (hN : t.Name = B.name)
    (hcase : (t.Path = "" ∧ A.packagePrefix = "" ∧ B.packagePrefix = "") ∨
      (t.Path ≠ "" ∧ B.packagePrefix = pathBase t.Path) ∨
      (t.Path = "" ∧ starIdent e = some t ∧ B.packagePrefix = A.packagePrefix)) :
    ∃ structs B', finalise (structures.map some) = .ok structs ∧ structs[j]? = some B' ∧
      ({ Struct := i, FieldName := F.Tag } : Appearance) ∈ B'.AppearsIn := by
  obtain ⟨structs, hrun, _, hj⟩ := finalise_node structures hname j B hB
  refine ⟨structs, specStruct structures B, hrun, hj, ?_⟩
  have hkey : F.TypeRef = wrapStructName B.packagePrefix B.name := by
    rw [hRef]
    rcases hcase with ⟨hp, hAp, hBp⟩ | ⟨hp, hBp⟩ | ⟨hp, he, hBp⟩
    · rw [hAp, hBp, getFieldType_local e t false hcore hp, hN]
      simp [wrapStructName]
    · rw [getFieldType_qualified e t _ false hcore hp, hBp, hN]
    · rw [getFieldType_starIdent e t _ false he hp, hBp, hN]
  have := mem_specAppearsFrom 0 structures _ i A F hA hF hkey
  simpa [specStruct, specAppearsIn] using this

/-- C1, amended, at the records `A` and `B` of the imported package `b`,
where `A` has the member `Inner *B`. -/
theorem finalise_back_reference_witness :
    ∃ structs B', finalise (pointerGraph.map some) = .ok structs ∧ structs[1]? = some B' ∧
      ({ Struct := 0, FieldName := pointerField.Tag } : Appearance) ∈ B'.AppearsIn :=
  finalise_back_reference pointerGraph (by decide) 0 1
    { name := "A", node := [], pkg := 1, packagePrefix := "b", text := {},
      fields := [pointerField] }
    { name := "B", node := [], pkg := 1, packagePrefix := "b", text := {}, fields := [] }
    pointerField (.starExpr (localType "B" 3)) { Name := "B", Obj := some { Name := "B", Decl := 3 } }
    rfl rfl (by decide) (by decide) rfl rfl (Or.inr (Or.inr ⟨rfl, rfl, rfl⟩))

/-! ### Provenance of discovered fields -/

theorem Program.mem_specs_of_decl (P : Program) (i : Nat) (spec : Spec)
    (h : P.decls[i]? = some spec) : spec ∈ P.specs :=
  List.mem_append_left _ (List.getElem?_mem h)

theorem Program.mem_specs_of_pkg (P : Program) (pkg : Package) (file : File) (g : GenDecl)
    (spec : Spec) (hpkg : pkg ∈ P.pkgs) (hfile : file ∈ pkg.Syntax) (hg : g ∈ file)
    (hspec : spec ∈ g.Specs) : spec ∈ P.specs := by
  apply List.mem_append_right
  exact List.mem_flatMap.mpr ⟨pkg, hpkg, List.mem_flatMap.mpr
    ⟨file, hfile, List.mem_flatMap.mpr ⟨g, hg, hspec⟩⟩⟩

theorem GoodList.append {L : Lib} {P : Program} {xs ys : List (Option structType)}
    (hx : GoodList L P xs) (hy : GoodList L P ys) : GoodList L P (xs ++ ys) := by
  intro S hS
  rcases List.mem_append.mp hS with h | h
  · exact hx S h
  · exact hy S h

theorem GoodList.nil (L : Lib) (P : Program) : GoodList L P [] := by
  intro S hS
  cases hS

theorem GoodFound.results {L : Lib} {P : Program} {results : List (Option structType)}
    {r : Found} (hres : GoodList L P results) (hr : GoodFound L P r) :
    GoodList L P (results ++ [r.1] ++ r.2) := by
  refine GoodList.append (GoodList.append hres ?_) hr.2
  intro S hS
  simp only [List.mem_singleton] at hS
  exact hr.1 S hS.symm

theorem GoodFound.empty (L : Lib) (P : Program) : GoodFound L P (none, []) :=
  ⟨fun _ h => (by cases h), GoodList.nil L P⟩

theorem addParsed_good {L : Lib} {P : Program} {acc r : Found} (hacc : GoodFound L P acc)
    (hr : GoodFound L P r) : GoodFound L P (addParsed acc r) := by
  obtain ⟨a1, a2⟩ := acc
  obtain ⟨r1, r2⟩ := r
  cases r1 with
  | none => exact ⟨hacc.1, GoodList.append hacc.2 hr.2⟩
  | some p =>
    cases a1 with
    | none => exact ⟨hr.1, GoodList.append hacc.2 hr.2⟩
    | some m =>
      refine ⟨hacc.1, GoodList.append (GoodList.append hacc.2 ?_) hr.2⟩
      intro S hS
      simp only [List.mem_singleton] at hS
      exact hr.1 S hS.symm

theorem specsLoop_good {L : Lib} {P : Program} {parse : ParseFn} (hp : GoodParse L P parse)
    (decs : List String) (opts : collectStructOptions) (specs : List Spec)
    (hs : ∀ spec ∈ specs, spec ∈ P.specs) (acc : Found) (u : Unique) (r : Found) (u' : Unique)
    (hacc : GoodFound L P acc) (h : specsLoop parse decs opts specs acc u = .ok (r, u')) :
    GoodFound L P r := by
  induction specs generalizing acc u with
  | nil =>
    simp only [specsLoop, Except.ok.injEq, Prod.mk.injEq] at h
    exact h.1 ▸ hacc
  | cons spec rest ih =>
    unfold specsLoop at h
    split at h
    · cases h
    · next r1 u1 hparse =>
      exact ih (fun s hs' => hs s (List.mem_cons_of_mem _ hs')) _ _
        (addParsed_good hacc (hp _ _ _ _ _ _ (hs spec (List.mem_cons_self _ _)) hparse)) h

theorem genDeclsLoop_good {L : Lib} {P : Program} {parse : ParseFn} (hp : GoodParse L P parse)
    (opts : collectStructOptions) (file : List GenDecl)
    (hs : ∀ g ∈ file, ∀ spec ∈ g.Specs, spec ∈ P.specs) (acc : Found) (u : Unique)
    (r : Found) (u' : Unique) (hacc : GoodFound L P acc)
    (h : genDeclsLoop parse opts file acc u = .ok (r, u')) : GoodFound L P r := by
  induction file generalizing acc u with
  | nil =>
    simp only [genDeclsLoop, Except.ok.injEq, Prod.mk.injEq] at h
    exact h.1 ▸ hacc
  | cons g rest ih =>
    unfold genDeclsLoop at h
    split at h
    · cases h
    · next acc1 u1 hloop =>
      exact ih (fun g' hg' => hs g' (List.mem_cons_of_mem _ hg')) _ _
        (specsLoop_good hp _ _ _ (hs g (List.mem_cons_self _ _)) _ _ _ _ hacc hloop) h

theorem filesLoop_good {L : Lib} {P : Program} {parse : ParseFn} (hp : GoodParse L P parse)
    (opts : collectStructOptions) (files : List File)
    (hs : ∀ file ∈ files, ∀ g ∈ file, ∀ spec ∈ g.Specs, spec ∈ P.specs) (acc : Found)
    (u : Unique) (r : Found) (u' : Unique) (hacc : GoodFound L P acc)
    (h : filesLoop parse opts files acc u = .ok (r, u')) : GoodFound L P r := by
  induction files generalizing acc u with
  | nil =>
    simp only [filesLoop, Except.ok.injEq, Prod.mk.injEq] at h
    exact h.1 ▸ hacc
  | cons file rest ih =>
    unfold filesLoop at h
    split at h
    · cases h
    · next r1 u1 hfile =>
      exact ih (fun f' hf' => hs f' (List.mem_cons_of_mem _ hf')) _ _
        (addParsed_good hacc
          (genDeclsLoop_good hp _ _ (hs file (List.mem_cons_self _ _)) _ _ _ _
            (GoodFound.empty L P) hfile)) h

theorem collectStructsWithOpts_good {L : Lib} {P : Program} {parse : ParseFn}
    (hp : GoodParse L P parse) (opts : collectStructOptions) (u : Unique) (r : Found)
    (u' : Unique) (h : collectStructsWithOpts P parse opts u = .ok (r, u')) :
    GoodFound L P r := by
  unfold collectStructsWithOpts at h
  split at h
  · cases h
  · next pkg hpkg =>
    exact filesLoop_good hp _ _
      (fun file hfile g hg spec hspec =>
        P.mem_specs_of_pkg pkg file g spec (List.getElem?_mem hpkg) hfile hg hspec)
      _ _ _ _ (GoodFound.empty L P) h

theorem unresolvedPath_good {L : Lib} {P : Program} {parse : ParseFn}
    (hp : GoodParse L P parse) (t : Ident) (results : List (Option structType))
    (opts : collectStructOptions) (u : Unique) (results' : List (Option structType))
    (u' : Unique) (hres : GoodList L P results)
    (h : unresolvedPath P parse t results opts u = .ok (results', u')) :
    GoodList L P results' := by
  unfold unresolvedPath at h
  split at h
  · split at h
    · cases h; exact hres
    · split at h
      · cases h
      · split at h
        · cases h; exact hres
        · split at h
          · cases h
          · next main extra u1 hcall =>
            cases h
            exact GoodFound.results hres (collectStructsWithOpts_good hp _ _ _ _ hcall)
  · cases h; exact hres

theorem unresolvedIdent_good {L : Lib} {P : Program} {parse : ParseFn}
    (hp : GoodParse L P parse) (t : Ident) (results : List (Option structType))
    (opts : collectStructOptions) (u : Unique) (results' : List (Option structType))
    (u' : Unique) (hres : GoodList L P results)
    (h : unresolvedIdent P parse t results opts u = .ok (results', u')) :
    GoodList L P results' := by
  unfold unresolvedIdent at h
  split at h
  · exact unresolvedPath_good hp _ _ _ _ _ _ hres h
  · split at h
    · next spec hdecl =>
      split at h
      · cases h; exact hres
      · split at h
        · cases h
        · next main extra u1 hcall =>
          exact unresolvedPath_good hp _ _ _ _ _ _
            (GoodFound.results hres (hp _ _ _ _ _ _ (P.mem_specs_of_decl _ _ hdecl) hcall)) h
    · cases h

theorem collectUnresolvedExternalStructs_good {L : Lib} {P : Program} {parse : ParseFn}
    (hp : GoodParse L P parse) (e : Expr) (results : List (Option structType))
    (opts : collectStructOptions) (u : Unique) (results' : List (Option structType))
    (u' : Unique) (hres : GoodList L P results)
    (h : collectUnresolvedExternalStructs P parse e results opts u = .ok (results', u')) :
    GoodList L P results' := by
  induction e generalizing results u results' u' with
  | ident t => exact unresolvedIdent_good hp _ _ _ _ _ _ hres h
  | mapType k v ihk ihv =>
    unfold collectUnresolvedExternalStructs at h
    split at h
    · cases h
    · next results1 u1 hk => exact ihv _ _ _ _ (ihk _ _ _ _ hres hk) h
  | arrayType e ih => exact ih _ _ _ _ hres h
  | starExpr x ih => exact ih _ _ _ _ hres h
  | selectorExpr x sel _ => exact unresolvedIdent_good hp _ _ _ _ _ _ hres h
  | structType => cases h; exact hres
  | interfaceType => cases h; exact hres
  | other => cases h; exact hres

theorem spliceEmbedded_good {L : Lib} {P : Program} (fields : List Field)
    (found : List (Option structType)) (r : Found) (u : Unique) (st : FieldStep)
    (hfields : ∀ field ∈ fields, GoodField L P field) (hfound : GoodList L P found)
    (hr : GoodFound L P r) (h : spliceEmbedded fields found r u = .ok st) :
    GoodStep L P st := by
  unfold spliceEmbedded at h
  split at h
  · cases h
  · next embedded hemb =>
    cases h
    refine ⟨?_, GoodList.append hfound hr.2⟩
    intro field hfield
    rcases List.mem_append.mp hfield with hf | hf
    · exact hfields field hf
    · exact (hr.1 embedded hemb).2 field hf

theorem embeddedStep_good {L : Lib} {P : Program} {parse : ParseFn}
    (hp : GoodParse L P parse) (opts : collectStructOptions) (f : FieldDecl)
    (fields : List Field) (found : List (Option structType)) (u : Unique) (st : FieldStep)
    (hfields : ∀ field ∈ fields, GoodField L P field) (hfound : GoodList L P found)
    (h : embeddedStep P parse opts f fields found u = .ok st) : GoodStep L P st := by
  unfold embeddedStep at h
  split at h
  · split at h
    · split at h
      · cases h
      · split at h
        · cases h; exact hfields
        · split at h
          · cases h
          · next r u1 hcall =>
            exact spliceEmbedded_good _ _ _ _ _ hfields hfound
              (collectStructsWithOpts_good hp _ _ _ _ hcall) h
    · split at h
      · split at h
        · next spec hdecl =>
          split at h
          · cases h
          · next r u1 hcall =>
            exact spliceEmbedded_good _ _ _ _ _ hfields hfound
              (hp _ _ _ _ _ _ (P.mem_specs_of_decl _ _ hdecl) hcall) h
        · cases h
      · exact spliceEmbedded_good _ _ _ _ _ hfields hfound (GoodFound.empty L P) h
  · cases h; exact ⟨hfields, hfound⟩

theorem namedStep_good {L : Lib} {P : Program} {parse : ParseFn}
    (hp : GoodParse L P parse) (s : structType) (opts : collectStructOptions) (f : FieldDecl)
    (hf : MemberOf P f) (yamlTags name : String) (names : List String)
    (hTag : f.Tag = some yamlTags) (hNames : f.Names = name :: names)
    (hkeep : ¬ tagSkipped yamlTags) (hdoc : uncommentDecorationNode f.Decs ≠ "")
    (hnodoc : strContains (uncommentDecorationNode f.Decs) "docgen:nodoc" = false)
    (fields : List Field) (found : List (Option structType)) (u : Unique)
    (st : FieldStep) (hfields : ∀ field ∈ fields, GoodField L P field)
    (hfound : GoodList L P found)
    (h : namedStep L P parse s opts f name (L.toLower ⟨beforeCommaChars yamlTags.data⟩)
      (uncommentDecorationNode f.Decs) fields found u = .ok st) : GoodStep L P st := by
  unfold namedStep at h
  split at h
  · cases h
  · next c cs hc =>
    split at h
    · cases h; exact ⟨hfields, hfound⟩
    · next hupper =>
      split at h
      · cases h
      · next found1 u1 hcall =>
        cases h
        refine ⟨?_, collectUnresolvedExternalStructs_good hp _ _ _ _ _ _ hfound hcall⟩
        intro field hfield
        rcases List.mem_append.mp hfield with hmem | hmem
        · exact hfields field hmem
        · simp only [List.mem_singleton] at hmem
          exact ⟨f, s.packagePrefix, hf, yamlTags, name, names, c, cs, hTag,
            hNames, hkeep, hdoc, hnodoc, hc, by simpa using hupper, hmem⟩

theorem fieldStep_good {L : Lib} {P : Program} {parse : ParseFn}
    (hp : GoodParse L P parse) (s : structType) (opts : collectStructOptions) (f : FieldDecl)
    (hf : MemberOf P f) (fields : List Field) (found : List (Option structType)) (u : Unique)
    (st : FieldStep) (hfields : ∀ field ∈ fields, GoodField L P field)
    (hfound : GoodList L P found)
    (h : fieldStep L P parse s opts f fields found u = .ok st) : GoodStep L P st := by
  unfold fieldStep at h
  cases hTag : f.Tag with
  | none =>
    cases hNames : f.Names with
    | nil => simp [hTag, hNames] at h
    | cons name names =>
      simp only [hTag, hNames] at h
      cases h; exact ⟨hfields, hfound⟩
  | some yamlTags =>
    simp only [hTag] at h
    by_cases hskip : tagSkipped yamlTags
    · rw [if_pos (by unfold tagSkipped at hskip; exact hskip)] at h
      cases h; exact ⟨hfields, hfound⟩
    · rw [if_neg (by unfold tagSkipped at hskip; exact hskip)] at h
      by_cases hdoc : uncommentDecorationNode f.Decs = ""
      · rw [if_pos hdoc] at h
        cases hNames : f.Names with
        | nil => simp [hNames] at h
        | cons name names =>
          simp only [hNames] at h
          cases h; exact ⟨hfields, hfound⟩
      · rw [if_neg hdoc] at h
        by_cases hnodoc : strContains (uncommentDecorationNode f.Decs) "docgen:nodoc" = true
        · rw [if_pos hnodoc] at h
          cases h; exact ⟨hfields, hfound⟩
        · rw [if_neg hnodoc] at h
          cases hNames : f.Names with
          | nil =>
            simp only [hNames] at h
            exact embeddedStep_good hp _ _ _ _ _ _ hfields hfound h
          | cons name names =>
            simp only [hNames] at h
            exact namedStep_good hp s opts f hf yamlTags name names hTag hNames hskip hdoc
              (by simpa using hnodoc) _ _ _ _ hfields hfound h

theorem fieldsLoop_good {L : Lib} {P : Program} {parse : ParseFn}
    (hp : GoodParse L P parse) (s : structType) (opts : collectStructOptions)
    (members : List FieldDecl) (hm : ∀ f ∈ members, MemberOf P f) (fields : List Field)
    (found : List (Option structType)) (u : Unique)
    (r : List Field × List (Option structType)) (u' : Unique)
    (hfields : ∀ field ∈ fields, GoodField L P field) (hfound : GoodList L P found)
    (h : fieldsLoop L P parse s opts members fields found u = .ok (r, u')) :
    (∀ field ∈ r.1, GoodField L P field) ∧ GoodList L P r.2 := by
  induction members generalizing fields found u with
  | nil =>
    simp only [fieldsLoop, Except.ok.injEq, Prod.mk.injEq] at h
    rw [← h.1]
    exact ⟨hfields, hfound⟩
  | cons f rest ih =>
    unfold fieldsLoop at h
    split at h
    · cases h
    · next fields1 u1 hstep =>
      cases h
      exact ⟨fieldStep_good hp s opts f (hm f (List.mem_cons_self _ _)) _ _ _ _ hfields hfound
        hstep, GoodList.nil L P⟩
    · next fields1 found1 u1 hstep =>
      have hgood := fieldStep_good hp s opts f (hm f (List.mem_cons_self _ _)) _ _ _ _
        hfields hfound hstep
      exact ih (fun g hg => hm g (List.mem_cons_of_mem _ hg)) _ _ _ hgood.1 hgood.2 h

theorem collectFields_good {L : Lib} {P : Program} {parse : ParseFn}
    (hp : GoodParse L P parse) (s : structType) (opts : collectStructOptions)
    (hm : ∀ f ∈ s.node, MemberOf P f) (u : Unique)
    (r : List Field × List (Option structType)) (u' : Unique)
    (h : collectFields L P parse s opts u = .ok (r, u')) :
    (∀ field ∈ r.1, GoodField L P field) ∧ GoodList L P r.2 :=
  fieldsLoop_good hp s opts s.node hm [] [] u r u' (fun _ hf => by cases hf)
    (GoodList.nil L P) h

theorem parseStructuresFromDSTSpec_good (L : Lib) (P : Program) (n : Nat) :
    GoodParse L P (parseStructuresFromDSTSpec L P n) := by
  induction n with
  | zero =>
    intro decs spec opts u r u' _ h
    unfold parseStructuresFromDSTSpec at h
    split at h
    · cases h; exact GoodFound.empty L P
    · split at h
      · cases h; exact GoodFound.empty L P
      · cases h; exact GoodFound.empty L P
      · simp only at h
        split at h
        · cases h; exact GoodFound.empty L P
        · split at h
          · cases h
          · split at h
            · cases h; exact GoodFound.empty L P
            · cases h
  | succ n ih =>
    intro decs spec opts u r u' hspec h
    unfold parseStructuresFromDSTSpec at h
    split at h
    · cases h; exact GoodFound.empty L P
    · next t =>
      split at h
      · cases h; exact GoodFound.empty L P
      · cases h; exact GoodFound.empty L P
      · next x hx =>
        simp only at h
        split at h
        · cases h; exact GoodFound.empty L P
        · split at h
          · cases h
          · next c cs hc =>
            split at h
            · cases h; exact GoodFound.empty L P
            · next hupper =>
              split at h
              · cases h
              · next fields structures u1 hcall =>
                cases h
                have hgood := collectFields_good ih _ opts
                  (fun f hf => ⟨t, x, hspec, hx, hf⟩) u _ _ hcall
                refine ⟨?_, hgood.2⟩
                intro S hS
                cases hS
                exact ⟨⟨c, cs, hc, by simpa using hupper⟩, hgood.1⟩

theorem pkgsLoop_good {L : Lib} {P : Program} {parse : ParseFn} (hp : GoodParse L P parse)
    (structName : String) (pkgs : List Nat) (structures : List (Option structType))
    (u : Unique) (r : List (Option structType)) (u' : Unique)
    (hres : GoodList L P structures)
    (h : pkgsLoop P parse structName pkgs structures u = .ok (r, u')) : GoodList L P r := by
  induction pkgs generalizing structures u with
  | nil =>
    simp only [pkgsLoop, Except.ok.injEq, Prod.mk.injEq] at h
    exact h.1 ▸ hres
  | cons pkg rest ih =>
    unfold pkgsLoop at h
    split at h
    · cases h
    · next main extra u1 hcall =>
      exact ih _ _ (GoodFound.results hres (collectStructsWithOpts_good hp _ _ _ _ hcall)) h

/-- Every record that discovery returns has a non-empty name, whose first
byte is an upper-case letter. -/
theorem discover_names_nonempty (L : Lib) (P : Program) (n : Nat) (pkgs : List Nat)
    (structName : String) (u : Unique) (structures : List (Option structType)) (u' : Unique)
    (h : discover L P n pkgs structName u = .ok (structures, u')) :
    ∀ S, some S ∈ structures → S.name ≠ "" := by
  intro S hS hname
  have hgood := pkgsLoop_good (parseStructuresFromDSTSpec_good L P n) structName pkgs [] u
    structures u' (GoodList.nil L P) h S hS
  obtain ⟨⟨c, cs, hc, _⟩, _⟩ := hgood
  rw [hname] at hc
  cases hc

/-- C6, amended: in dst.go every Field that `collectFields` returns for a
record of the program, and every field of a structure it discovers, stems
from a member with a yaml tag: its Tag is the lower-cased name part of that
tag, and the name part is neither empty nor `-` unless the tag contains a
comma. A member whose yaml tag has an empty or `-` name part and no comma is
excluded: its iteration leaves the field list, the discovered structures and
the dedup set as they are. -/
theorem collectFields_tag_from_kept_yaml_tag (L : Lib) (P : Program) (n : Nat)
    (s : structType) (opts : collectStructOptions) (u : Unique)
    (fields : List Field) (found : List (Option structType)) (u' : Unique)
    (hs : ∀ f ∈ s.node, MemberOf P f)
    (h : collectFields L P (parseStructuresFromDSTSpec L P n) s opts u
      = .ok ((fields, found), u')) :
    (∀ field, (field ∈ fields ∨ ∃ S, some S ∈ found ∧ field ∈ S.fields) →
      ∃ f yamlTags, MemberOf P f ∧ f.Tag = some yamlTags ∧
        field.Tag = L.toLower ⟨beforeCommaChars yamlTags.data⟩ ∧
        ((beforeCommaChars yamlTags.data ≠ [] ∧ beforeCommaChars yamlTags.data ≠ ['-']) ∨
          1 ≤ countCommas yamlTags)) ∧
    (∀ (f : FieldDecl) (yamlTags : String) (fields0 : List Field)
        (found0 : List (Option structType)) (u0 : Unique),
      f.Tag = some yamlTags → tagSkipped yamlTags →
      fieldStep L P (parseStructuresFromDSTSpec L P n) s opts f fields0 found0 u0
        = .ok (.next fields0 found0 u0)) := by
  have hgood := collectFields_good (parseStructuresFromDSTSpec_good L P n) s opts hs u _ _ h
  constructor
  · intro field hfield
    have hgf : GoodField L P field := by
      rcases hfield with hmem | ⟨S, hS, hmem⟩
      · exact hgood.1 field hmem
      · exact (hgood.2 S hS).2 field hmem
    obtain ⟨f, pfx, hf, yamlTags, name, names, c, cs, hTag, _, hkeep, _, _, _, _, hfield⟩ := hgf
    refine ⟨f, yamlTags, hf, hTag, by rw [hfield], ?_⟩
    unfold tagSkipped at hkeep
    by_cases hc : 1 ≤ countCommas yamlTags
    · exact Or.inr hc
    · left
      have hlt : countCommas yamlTags < 1 := by omega
      constructor
      · intro hnil
        exact hkeep ⟨Or.inl (by rw [hnil]), hlt⟩
      · intro hdash
        exact hkeep ⟨Or.inr (by rw [hdash]), hlt⟩
  · intro f yamlTags fields0 found0 u0 hTag hskip
    unfold fieldStep
    simp only [hTag]
    rw [if_pos (by unfold tagSkipped at hskip; exact hskip)]

/-- C6, amended, at the record with the members `Opt` (tagged
`yaml:",omitempty"`) and `Port`. -/
theorem collectFields_tag_from_kept_yaml_tag_witness :
    (∀ field, (field ∈
          [{ Name := "Opt", Typ := "string", TypeRef := "string", Tag := "",
             Text := { Comment := " The option.", Description := "The option." } },
           { Name := "Port", Typ := "int", TypeRef := "int", Tag := "port",
             Text := { Comment := " Listen port.", Description := "Listen port." } }] ∨
        ∃ S, some S ∈ ([] : List (Option structType)) ∧ field ∈ S.fields) →
      ∃ f yamlTags, MemberOf (settingsProgram omitemptyMembers) f ∧ f.Tag = some yamlTags ∧
        field.Tag = scalarLib.toLower ⟨beforeCommaChars yamlTags.data⟩ ∧
        ((beforeCommaChars yamlTags.data ≠ [] ∧ beforeCommaChars yamlTags.data ≠ ['-']) ∨
          1 ≤ countCommas yamlTags)) ∧
    (∀ (f : FieldDecl) (yamlTags : String) (fields0 : List Field)
        (found0 : List (Option structType)) (u0 : Unique),
      f.Tag = some yamlTags → tagSkipped yamlTags →
      fieldStep scalarLib (settingsProgram omitemptyMembers)
          (parseStructuresFromDSTSpec scalarLib (settingsProgram omitemptyMembers) 1)
          (rootStruct "Settings" omitemptyMembers) { pkg := 0, structName := "Settings" }
          f fields0 found0 u0
        = .ok (.next fields0 found0 u0)) :=
  collectFields_tag_from_kept_yaml_tag scalarLib (settingsProgram omitemptyMembers) 1
    (rootStruct "Settings" omitemptyMembers) { pkg := 0, structName := "Settings" } []
    _ _ [] (fun _ hf => ⟨_, omitemptyMembers, List.mem_append_left _ (List.mem_singleton.mpr rfl),
      rfl, hf⟩) rfl

/-! ### Termination of discovery -/

theorem unvisited_mono (P : Program) {u u' : Unique} (h : u ⊆ u') :
    unvisited P u' ≤ unvisited P u := by
  unfold unvisited
  apply Finset.card_le_card
  apply Finset.sdiff_subset_sdiff (Finset.Subset.refl _)
  intro a ha
  exact List.mem_toFinset.mpr (h (List.mem_toFinset.mp ha))

theorem unvisited_cons_lt (P : Program) {u : Unique} {key : String} (hkey : key ∈ P.keys)
    (hnew : key ∉ u) : unvisited P (key :: u) < unvisited P u := by
  unfold unvisited
  apply Finset.card_lt_card
  rw [Finset.ssubset_iff_of_subset]
  · refine ⟨key, ?_, ?_⟩
    · simp [hkey, hnew]
    · simp
  · apply Finset.sdiff_subset_sdiff (Finset.Subset.refl _)
    intro a ha
    simp only [List.toFinset_cons, Finset.mem_insert]
    exact Or.inr ha

theorem unvisited_le_card (P : Program) (u : Unique) :
    unvisited P u ≤ P.keys.toFinset.card := by
  unfold unvisited
  exact Finset.card_le_card Finset.sdiff_subset

theorem Fits.mono {L : Lib} {P : Program} {rank : TypeSpec → Nat} {R k : Nat} {name : String}
    {u u' : Unique} {spec : Spec} (h : u ⊆ u') (hfit : Fits L P rank R k name u spec) :
    Fits L P rank R k name u' spec := by
  intro t x ht hx hfold
  have h1 := hfit t x ht hx hfold
  have h2 := unvisited_mono P h
  have h3 : unvisited P u' * (R + 1) ≤ unvisited P u * (R + 1) := Nat.mul_le_mul_right _ h2
  omega

theorem Fits.of_bound {L : Lib} {P : Program} {rank : TypeSpec → Nat} {R k : Nat}
    (hR : ∀ t, Spec.typeSpec t ∈ P.specs → rank t ≤ R) {name : String} {u : Unique}
    {spec : Spec} (hspec : spec ∈ P.specs) (hk : unvisited P u * (R + 1) + R + 1 ≤ k) :
    Fits L P rank R k name u spec := by
  intro t x ht _ _
  have := hR t (ht ▸ hspec)
  omega

theorem Safe.trans {α : Type} {u u1 : Unique} {r : Res α} (h : u ⊆ u1) (hs : Safe u1 r) :
    Safe u r :=
  ⟨hs.1, fun x u' hr => fun _ ha => hs.2 x u' hr (h ha)⟩

theorem Safe.ok {α : Type} {u u' : Unique} (x : α) (h : u ⊆ u') :
    Safe u (.ok (x, u') : Res α) :=
  ⟨fun hc => (by cases hc), fun _ _ hr => (by cases hr; exact h)⟩

theorem Safe.stopped {α : Type} {u : Unique} {e : Err} (h : e ≠ .fuel) :
    Safe u (.error e : Res α) :=
  ⟨fun hc => (by cases hc; exact h rfl), fun _ _ hr => (by cases hr)⟩

theorem Safe.not_fuel {α : Type} {u : Unique} {r : Res α} {e : Err} (hs : Safe u r)
    (he : r = .error e) : e ≠ .fuel := by
  intro hfuel
  exact hs.1 (by rw [he, hfuel])

theorem Safe.subset {α : Type} {u : Unique} {r : Res α} {x : α} {u' : Unique}
    (hs : Safe u r) (hr : r = .ok (x, u')) : u ⊆ u' := hs.2 x u' hr

theorem specsLoop_safe {L : Lib} {P : Program} {rank : TypeSpec → Nat} {R k : Nat}
    {parse : ParseFn} (hp : TermParse L P rank R k parse) (decs : List String)
    (opts : collectStructOptions) (specs : List Spec) (hs : ∀ spec ∈ specs, spec ∈ P.specs)
    (acc : Found) (u : Unique)
    (hfit : ∀ spec ∈ specs, Fits L P rank R k opts.structName u spec) :
    Safe u (specsLoop parse decs opts specs acc u) := by
  induction specs generalizing acc u with
  | nil => exact Safe.ok _ (List.Subset.refl _)
  | cons spec rest ih =>
    have hsafe := hp decs spec opts u (hs spec (List.mem_cons_self _ _))
      (hfit spec (List.mem_cons_self _ _))
    unfold specsLoop
    split
    · next e he => exact Safe.stopped (hsafe.not_fuel he)
    · next r u1 hok =>
      have hsub := hsafe.subset hok
      exact Safe.trans hsub (ih (fun s hs' => hs s (List.mem_cons_of_mem _ hs')) _ _
        (fun s hs' => (hfit s (List.mem_cons_of_mem _ hs')).mono hsub))

theorem genDeclsLoop_safe {L : Lib} {P : Program} {rank : TypeSpec → Nat} {R k : Nat}
    {parse : ParseFn} (hp : TermParse L P rank R k parse) (opts : collectStructOptions)
    (file : List GenDecl) (hs : ∀ g ∈ file, ∀ spec ∈ g.Specs, spec ∈ P.specs) (acc : Found)
    (u : Unique)
    (hfit : ∀ g ∈ file, ∀ spec ∈ g.Specs, Fits L P rank R k opts.structName u spec) :
    Safe u (genDeclsLoop parse opts file acc u) := by
  induction file generalizing acc u with
  | nil => exact Safe.ok _ (List.Subset.refl _)
  | cons g rest ih =>
    have hsafe := specsLoop_safe hp g.Decs opts g.Specs (hs g (List.mem_cons_self _ _)) acc u
      (hfit g (List.mem_cons_self _ _))
    unfold genDeclsLoop
    split
    · next e he => exact Safe.stopped (hsafe.not_fuel he)
    · next acc1 u1 hok =>
      have hsub := hsafe.subset hok
      exact Safe.trans hsub (ih (fun g' hg' => hs g' (List.mem_cons_of_mem _ hg')) _ _
        (fun g' hg' spec hspec => (hfit g' (List.mem_cons_of_mem _ hg') spec hspec).mono hsub))

theorem filesLoop_safe {L : Lib} {P : Program} {rank : TypeSpec → Nat} {R k : Nat}
    {parse : ParseFn} (hp : TermParse L P rank R k parse) (opts : collectStructOptions)
    (files : List File)
    (hs : ∀ file ∈ files, ∀ g ∈ file, ∀ spec ∈ g.Specs, spec ∈ P.specs) (acc : Found)
    (u : Unique)
    (hfit : ∀ file ∈ files, ∀ g ∈ file, ∀ spec ∈ g.Specs,
      Fits L P rank R k opts.structName u spec) :
    Safe u (filesLoop parse opts files acc u) := by
  induction files generalizing acc u with
  | nil => exact Safe.ok _ (List.Subset.refl _)
  | cons file rest ih =>
    have hsafe := genDeclsLoop_safe hp opts file (hs file (List.mem_cons_self _ _)) (none, []) u
      (hfit file (List.mem_cons_self _ _))
    unfold filesLoop collectStructsFromDSTNode
    split
    · next e he => exact Safe.stopped (hsafe.not_fuel he)
    · next r u1 hok =>
      have hsub := hsafe.subset hok
      exact Safe.trans hsub (ih (fun f' hf' => hs f' (List.mem_cons_of_mem _ hf')) _ _
        (fun f' hf' g hg spec hspec =>
          (hfit f' (List.mem_cons_of_mem _ hf') g hg spec hspec).mono hsub))

theorem collectStructsWithOpts_safe {L : Lib} {P : Program} {rank : TypeSpec → Nat}
    {R k : Nat} {parse : ParseFn} (hp : TermParse L P rank R k parse)
    (opts : collectStructOptions) (u : Unique)
    (hfit : ∀ pkg file g spec, P.pkgs[opts.pkg]? = some pkg → file ∈ pkg.Syntax → g ∈ file →
      spec ∈ g.Specs → Fits L P rank R k opts.structName u spec) :
    Safe u (collectStructsWithOpts P parse opts u) := by
  unfold collectStructsWithOpts
  split
  · exact Safe.stopped (by simp)
  · next pkg hpkg =>
    exact filesLoop_safe hp opts pkg.Syntax
      (fun file hfile g hg spec hspec =>
        P.mem_specs_of_pkg pkg file g spec (List.getElem?_mem hpkg) hfile hg hspec)
      _ u (fun file hfile g hg spec hspec => hfit pkg file g spec hpkg hfile hg hspec)

theorem fuel_after_insert {P : Program} {R k : Nat} {u : Unique} {key : String}
    (hkey : key ∈ P.keys) (hnew : key ∉ u) (hk : unvisited P u * (R + 1) ≤ k) :
    unvisited P (key :: u) * (R + 1) + R + 1 ≤ k := by
  have hlt := unvisited_cons_lt P hkey hnew
  have h1 : (unvisited P (key :: u) + 1) * (R + 1) ≤ unvisited P u * (R + 1) :=
    Nat.mul_le_mul_right _ hlt
  have h2 : (unvisited P (key :: u) + 1) * (R + 1)
      = unvisited P (key :: u) * (R + 1) + R + 1 := by ring
  omega

theorem fuel_mono {P : Program} {R k : Nat} {u u' : Unique} (h : u ⊆ u')
    (hk : unvisited P u * (R + 1) ≤ k) : unvisited P u' * (R + 1) ≤ k :=
  Nat.le_trans (Nat.mul_le_mul_right _ (unvisited_mono P h)) hk

theorem unresolvedPath_safe {L : Lib} {P : Program} {rank : TypeSpec → Nat} {R k : Nat}
    {parse : ParseFn} (hp : TermParse L P rank R k parse)
    (hR : ∀ t, Spec.typeSpec t ∈ P.specs → rank t ≤ R) (t : Ident)
    (results : List (Option structType)) (opts : collectStructOptions) (u : Unique)
    (hkeys : ∀ key ∈ keysOfIdent t, key ∈ P.keys) (hk : unvisited P u * (R + 1) ≤ k) :
    Safe u (unresolvedPath P parse t results opts u) := by
  unfold unresolvedPath
  split
  · next hpath =>
    have hkey : t.String ∈ P.keys := hkeys _ (by simp [keysOfIdent, hpath])
    split
    · exact Safe.ok _ (List.Subset.refl _)
    · next hnew =>
      split
      · exact Safe.stopped (by simp)
      · next pkg hpkg =>
        split
        · exact Safe.ok _ (List.subset_cons_self _ _)
        · next structPackage hlook =>
          have hsafe := collectStructsWithOpts_safe hp
            { pkg := structPackage, structName := t.Name, packagePrefix := pathBase t.Path }
            (t.String :: u)
            (fun pkg' file g spec hpkg' hfile hg hspec =>
              Fits.of_bound hR
                (P.mem_specs_of_pkg pkg' file g spec (List.getElem?_mem hpkg') hfile hg hspec)
                (fuel_after_insert hkey hnew hk))
          split
          · next e he => exact Safe.stopped (hsafe.not_fuel he)
          · next main extra u1 hok =>
            exact Safe.ok _ (fun a ha => hsafe.subset hok (List.mem_cons_of_mem _ ha))
  · exact Safe.ok _ (List.Subset.refl _)

theorem unresolvedIdent_safe {L : Lib} {P : Program} {rank : TypeSpec → Nat} {R k : Nat}
    {parse : ParseFn} (hp : TermParse L P rank R k parse)
    (hR : ∀ t, Spec.typeSpec t ∈ P.specs → rank t ≤ R) (t : Ident)
    (results : List (Option structType)) (opts : collectStructOptions) (u : Unique)
    (hkeys : ∀ key ∈ keysOfIdent t, key ∈ P.keys) (hk : unvisited P u * (R + 1) ≤ k) :
    Safe u (unresolvedIdent P parse t results opts u) := by
  unfold unresolvedIdent
  split
  · exact unresolvedPath_safe hp hR t results opts u hkeys hk
  · next obj hobj =>
    have hkey : obj.Name ∈ P.keys := hkeys _ (by simp [keysOfIdent, hobj])
    split
    · next spec hdecl =>
      split
      · exact Safe.ok _ (List.Subset.refl _)
      · next hnew =>
        have hsafe := hp spec.Decs (.typeSpec spec)
          { pkg := opts.pkg, structName := t.Name, packagePrefix := opts.packagePrefix }
          (obj.Name :: u) (P.mem_specs_of_decl _ _ hdecl)
          (Fits.of_bound hR (P.mem_specs_of_decl _ _ hdecl) (fuel_after_insert hkey hnew hk))
        split
        · next e he => exact Safe.stopped (hsafe.not_fuel he)
        · next main extra u1 hok =>
          have hsub : u ⊆ u1 := fun a ha => hsafe.subset hok (List.mem_cons_of_mem _ ha)
          exact Safe.trans hsub
            (unresolvedPath_safe hp hR t _ opts u1 hkeys (fuel_mono hsub hk))
    · exact Safe.stopped (by simp)

theorem collectUnresolvedExternalStructs_safe {L : Lib} {P : Program}
    {rank : TypeSpec → Nat} {R k : Nat} {parse : ParseFn}
    (hp : TermParse L P rank R k parse)
    (hR : ∀ t, Spec.typeSpec t ∈ P.specs → rank t ≤ R) (e : Expr)
    (results : List (Option structType)) (opts : collectStructOptions) (u : Unique)
    (hkeys : ∀ key ∈ keysOfExpr e, key ∈ P.keys) (hk : unvisited P u * (R + 1) ≤ k) :
    Safe u (collectUnresolvedExternalStructs P parse e results opts u) := by
  induction e generalizing results u with
  | ident t => exact unresolvedIdent_safe hp hR t results opts u hkeys hk
  | mapType key value ihk ihv =>
    have hsafe := ihk results u
      (fun a ha => hkeys a (by simp [keysOfExpr, ha])) hk
    unfold collectUnresolvedExternalStructs
    split
    · next e he => exact Safe.stopped (hsafe.not_fuel he)
    · next results1 u1 hok =>
      have hsub := hsafe.subset hok
      exact Safe.trans hsub (ihv results1 u1
        (fun a ha => hkeys a (by simp [keysOfExpr, ha])) (fuel_mono hsub hk))
  | arrayType e ih => exact ih results u hkeys hk
  | starExpr x ih => exact ih results u hkeys hk
  | selectorExpr x sel _ => exact unresolvedIdent_safe hp hR sel results opts u hkeys hk
  | structType => exact Safe.ok _ (List.Subset.refl _)
  | interfaceType => exact Safe.ok _ (List.Subset.refl _)
  | other => exact Safe.ok _ (List.Subset.refl _)

theorem spliceEmbedded_safe (fields : List Field) (found : List (Option structType))
    (r : Found) (u u1 : Unique) (h : u ⊆ u1) :
    SafeStep u (spliceEmbedded fields found r u1) := by
  unfold spliceEmbedded
  split
  · exact ⟨fun hc => (by cases hc), fun _ hr => (by cases hr)⟩
  · exact ⟨fun hc => (by cases hc), fun _ hr => (by cases hr; exact h)⟩

theorem SafeStep.next (fields : List Field) (found : List (Option structType))
    {u u1 : Unique} (h : u ⊆ u1) : SafeStep u (.ok (.next fields found u1)) :=
  ⟨fun hc => (by cases hc), fun _ hr => (by cases hr; exact h)⟩

theorem SafeStep.ret (fields : List Field) {u u1 : Unique} (h : u ⊆ u1) :
    SafeStep u (.ok (.ret fields u1)) :=
  ⟨fun hc => (by cases hc), fun _ hr => (by cases hr; exact h)⟩

theorem SafeStep.failed {u : Unique} {e : Err} (h : e ≠ .fuel) : SafeStep u (.error e) :=
  ⟨fun hc => (by cases hc; exact h rfl), fun _ hr => (by cases hr)⟩

theorem embeddedStep_safe {L : Lib} {P : Program} {rank : TypeSpec → Nat} {R k : Nat}
    {parse : ParseFn} (hp : TermParse L P rank R k parse)
    (hrank : ∀ s t, Spec.typeSpec s ∈ P.specs → embedEdge L P s t → rank t < rank s)
    (s : TypeSpec) (x : List FieldDecl) (hs : Spec.typeSpec s ∈ P.specs)
    (hx : s.Typ = .structType x) (opts : collectStructOptions) (f : FieldDecl) (hf : f ∈ x)
    (hNames : f.Names = []) (fields : List Field) (found : List (Option structType))
    (u : Unique) (hk : unvisited P u * (R + 1) + rank s ≤ k) :
    SafeStep u (embeddedStep P parse opts f fields found u) := by
  unfold embeddedStep
  split
  · next ident hTyp =>
    split
    · next hpath =>
      split
      · exact SafeStep.failed (by simp)
      · next pkg hpkg =>
        split
        · exact SafeStep.ret _ (List.Subset.refl _)
        · next structPackage hlook =>
          have hsafe := collectStructsWithOpts_safe hp
            { pkg := structPackage, structName := ident.Name,
              packagePrefix := pathBase ident.Path } u
            (fun pkg' file g spec hpkg' hfile hg hspec t y ht hy hfold => by
              subst ht
              have hedge : embedEdge L P s t :=
                ⟨x, f, ident, hx, hf, hNames, hTyp, Or.inl ⟨hpath, pkg, structPackage, pkg',
                  file, g, y, List.getElem?_mem hpkg, hlook, hpkg', hfile, hg, hspec, hy,
                  hfold⟩⟩
              have := hrank s t hs hedge
              omega)
          split
          · next e he => exact SafeStep.failed (hsafe.not_fuel he)
          · next r u1 hok =>
            exact spliceEmbedded_safe _ _ _ _ _ (hsafe.subset hok)
    · next hpath =>
      split
      · next obj hobj =>
        split
        · next spec hdecl =>
          have hsafe := hp spec.Decs (.typeSpec spec)
            { pkg := opts.pkg, structName := ident.Name,
              packagePrefix := opts.packagePrefix } u (P.mem_specs_of_decl _ _ hdecl)
            (fun t y ht _ _ => by
              cases ht
              have hedge : embedEdge L P s spec :=
                ⟨x, f, ident, hx, hf, hNames, hTyp,
                  Or.inr ⟨by simpa using hpath, obj, hobj, hdecl⟩⟩
              have := hrank s spec hs hedge
              omega)
          split
          · next e he => exact SafeStep.failed (hsafe.not_fuel he)
          · next r u1 hok =>
            exact spliceEmbedded_safe _ _ _ _ _ (hsafe.subset hok)
        · exact SafeStep.failed (by simp)
      · exact spliceEmbedded_safe _ _ _ _ _ (List.Subset.refl _)
  · exact SafeStep.next _ _ (List.Subset.refl _)

theorem namedStep_safe {L : Lib} {P : Program} {rank : TypeSpec → Nat} {R k : Nat}
    {parse : ParseFn} (hp : TermParse L P rank R k parse)
    (hR : ∀ t, Spec.typeSpec t ∈ P.specs → rank t ≤ R) (sT : structType)
    (opts : collectStructOptions) (f : FieldDecl) (name yamlTag documentation : String)
    (fields : List Field) (found : List (Option structType)) (u : Unique)
    (hkeys : ∀ key ∈ keysOfExpr f.Typ, key ∈ P.keys) (hk : unvisited P u * (R + 1) ≤ k) :
    SafeStep u (namedStep L P parse sT opts f name yamlTag documentation fields found u) := by
  unfold namedStep
  split
  · exact SafeStep.failed (by simp)
  · split
    · exact SafeStep.next _ _ (List.Subset.refl _)
    · have hsafe := collectUnresolvedExternalStructs_safe hp hR f.Typ found opts u hkeys hk
      simp only
      split
      · next e he => exact SafeStep.failed (hsafe.not_fuel he)
      · next found1 u1 hok => exact SafeStep.next _ _ (hsafe.subset hok)

theorem Program.mem_keys (P : Program) (s : TypeSpec) (x : List FieldDecl)
    (hs : Spec.typeSpec s ∈ P.specs) (hx : s.Typ = .structType x) (f : FieldDecl) (hf : f ∈ x)
    (key : String) (hkey : key ∈ keysOfExpr f.Typ) : key ∈ P.keys := by
  unfold Program.keys
  refine List.mem_flatMap.mpr ⟨.typeSpec s, hs, List.mem_flatMap.mpr ⟨f, ?_, hkey⟩⟩
  simp [membersOf, hx, hf]

theorem fieldStep_safe {L : Lib} {P : Program} {rank : TypeSpec → Nat} {R k : Nat}
    {parse : ParseFn} (hp : TermParse L P rank R k parse)
    (hR : ∀ t, Spec.typeSpec t ∈ P.specs → rank t ≤ R)
    (hrank : ∀ s t, Spec.typeSpec s ∈ P.specs → embedEdge L P s t → rank t < rank s)
    (s : TypeSpec) (x : List FieldDecl) (hs : Spec.typeSpec s ∈ P.specs)
    (hx : s.Typ = .structType x) (sT : structType) (opts : collectStructOptions)
    (f : FieldDecl) (hf : f ∈ x) (fields : List Field) (found : List (Option structType))
    (u : Unique) (hk : unvisited P u * (R + 1) + rank s ≤ k) :
    SafeStep u (fieldStep L P parse sT opts f fields found u) := by
  have hk' : unvisited P u * (R + 1) ≤ k := by omega
  unfold fieldStep
  cases hTag : f.Tag with
  | none =>
    cases hNames : f.Names with
    | nil => exact SafeStep.failed (by simp)
    | cons name names => exact SafeStep.next _ _ (List.Subset.refl _)
  | some yamlTags =>
    simp only
    split
    · exact SafeStep.next _ _ (List.Subset.refl _)
    · split
      · cases hNames : f.Names with
        | nil => exact SafeStep.failed (by simp)
        | cons name names => exact SafeStep.next _ _ (List.Subset.refl _)
      · split
        · exact SafeStep.next _ _ (List.Subset.refl _)
        · cases hNames : f.Names with
          | nil =>
            exact embeddedStep_safe hp hrank s x hs hx opts f hf hNames fields found u hk
          | cons name names =>
            exact namedStep_safe hp hR sT opts f name _ _ fields found u
              (fun key hkey => P.mem_keys s x hs hx f hf key hkey) hk'

theorem fieldsLoop_safe {L : Lib} {P : Program} {rank : TypeSpec → Nat} {R k : Nat}
    {parse : ParseFn} (hp : TermParse L P rank R k parse)
    (hR : ∀ t, Spec.typeSpec t ∈ P.specs → rank t ≤ R)
    (hrank : ∀ s t, Spec.typeSpec s ∈ P.specs → embedEdge L P s t → rank t < rank s)
    (s : TypeSpec) (x : List FieldDecl) (hs : Spec.typeSpec s ∈ P.specs)
    (hx : s.Typ = .structType x) (sT : structType) (opts : collectStructOptions)
    (members : List FieldDecl) (hm : ∀ f ∈ members, f ∈ x) (fields : List Field)
    (found : List (Option structType)) (u : Unique)
    (hk : unvisited P u * (R + 1) + rank s ≤ k) :
    Safe u (fieldsLoop L P parse sT opts members fields found u) := by
  induction members generalizing fields found u with
  | nil => exact Safe.ok _ (List.Subset.refl _)
  | cons f rest ih =>
    have hstep := fieldStep_safe hp hR hrank s x hs hx sT opts f
      (hm f (List.mem_cons_self _ _)) fields found u hk
    unfold fieldsLoop
    split
    · next e he =>
      exact Safe.stopped (fun hfuel => hstep.1 (by rw [he, hfuel]))
    · next fields1 u1 hok => exact Safe.ok _ (hstep.2 _ hok)
    · next fields1 found1 u1 hok =>
      have hsub : u ⊆ u1 := hstep.2 _ hok
      have hk1 : unvisited P u1 * (R + 1) + rank s ≤ k := by
        have := fuel_mono (R := R) (k := unvisited P u * (R + 1)) hsub (Nat.le_refl _)
        omega
      exact Safe.trans hsub
        (ih (fun g hg => hm g (List.mem_cons_of_mem _ hg)) fields1 found1 u1 hk1)

theorem parseStructuresFromDSTSpec_safe (L : Lib) (P : Program) (rank : TypeSpec → Nat)
    (R : Nat) (hR : ∀ t, Spec.typeSpec t ∈ P.specs → rank t ≤ R)
    (hrank : ∀ s t, Spec.typeSpec s ∈ P.specs → embedEdge L P s t → rank t < rank s)
    (k : Nat) : TermParse L P rank R k (parseStructuresFromDSTSpec L P k) := by
  induction k with
  | zero =>
    intro decs spec opts u hspec hfit
    unfold parseStructuresFromDSTSpec
    split
    · exact Safe.ok _ (List.Subset.refl _)
    · next t =>
      split
      · exact Safe.ok _ (List.Subset.refl _)
      · exact Safe.ok _ (List.Subset.refl _)
      · next x hx =>
        simp only
        split
        · exact Safe.ok _ (List.Subset.refl _)
        · next hfold =>
          have := hfit t x rfl hx (by simpa using hfold)
          omega
  | succ k ih =>
    intro decs spec opts u hspec hfit
    unfold parseStructuresFromDSTSpec
    split
    · exact Safe.ok _ (List.Subset.refl _)
    · next t =>
      split
      · exact Safe.ok _ (List.Subset.refl _)
      · exact Safe.ok _ (List.Subset.refl _)
      · next x hx =>
        simp only
        split
        · exact Safe.ok _ (List.Subset.refl _)
        · next hfold =>
          have hcost := hfit t x rfl hx (by simpa using hfold)
          split
          · exact Safe.stopped (by simp)
          · split
            · exact Safe.ok _ (List.Subset.refl _)
            · have hsafe := fieldsLoop_safe ih hR hrank t x hspec hx
                { name := t.Name, node := x,
                  text := parseComment L (uncommentDecorationNode decs),
                  pkg := opts.pkg, packagePrefix := opts.packagePrefix, fields := [] }
                opts x (fun _ hf => hf) [] [] u (by omega)
              unfold collectFields
              simp only
              split
              · next e he => exact Safe.stopped (hsafe.not_fuel he)
              · next fields structures u1 hok => exact Safe.ok _ (hsafe.subset hok)

theorem exists_rank_bound (rank : TypeSpec → Nat) (specs : List Spec) :
    ∃ R, ∀ t, Spec.typeSpec t ∈ specs → rank t ≤ R := by
  induction specs with
  | nil => exact ⟨0, fun _ h => by cases h⟩
  | cons spec rest ih =>
    obtain ⟨R, hR⟩ := ih
    cases spec with
    | other =>
      refine ⟨R, fun t ht => hR t ?_⟩
      simpa using ht
    | typeSpec s =>
      refine ⟨max R (rank s), fun t ht => ?_⟩
      rcases List.mem_cons.mp ht with h | h
      · cases h
        exact Nat.le_max_right _ _
      · exact Nat.le_trans (hR t h) (Nat.le_max_left _ _)

theorem pkgsLoop_safe {L : Lib} {P : Program} {rank : TypeSpec → Nat} {R k : Nat}
    {parse : ParseFn} (hp : TermParse L P rank R k parse)
    (hR : ∀ t, Spec.typeSpec t ∈ P.specs → rank t ≤ R) (structName : String)
    (pkgs : List Nat) (structures : List (Option structType)) (u : Unique)
    (hk : unvisited P u * (R + 1) + R + 1 ≤ k) :
    Safe u (pkgsLoop P parse structName pkgs structures u) := by
  induction pkgs generalizing structures u with
  | nil => exact Safe.ok _ (List.Subset.refl _)
  | cons pkg rest ih =>
    have hsafe := collectStructsWithOpts_safe hp { pkg := pkg, structName := structName } u
      (fun pkg' file g spec hpkg' hfile hg hspec =>
        Fits.of_bound hR
          (P.mem_specs_of_pkg pkg' file g spec (List.getElem?_mem hpkg') hfile hg hspec) hk)
    unfold pkgsLoop
    split
    · next e he => exact Safe.stopped (hsafe.not_fuel he)
    · next main extra u1 hok =>
      have hsub := hsafe.subset hok
      have hk1 : unvisited P u1 * (R + 1) + R + 1 ≤ k := by
        have := fuel_mono (R := R) (k := unvisited P u * (R + 1)) hsub (Nat.le_refl _)
        omega
      exact Safe.trans hsub (ih _ u1 hk1)

theorem enoughFuel_le {P : Program} {R n : Nat} (h : enoughFuel P R ≤ n) (u : Unique) :
    unvisited P u * (R + 1) + R + 1 ≤ n := by
  have h1 : unvisited P u * (R + 1) ≤ P.keys.toFinset.card * (R + 1) :=
    Nat.mul_le_mul_right _ (unvisited_le_card P u)
  unfold enoughFuel at h
  omega

theorem embeddingProgram_acyclic : EmbeddingAcyclic scalarLib embeddingProgram := by
  refine ⟨fun t => if t.Name = "Config" then 1 else 0, ?_⟩
  intro s t hs hedge
  obtain ⟨x, f, ident, hx, hf, hNames, hTyp, hcase⟩ := hedge
  have hs' : s = embeddingSpec ∨ s = baseSpec := by
    simp [Program.specs, embeddingProgram] at hs
    tauto
  rcases hs' with hs' | hs'
  · subst hs'
    simp only [embeddingSpec, SpecType.structType.injEq] at hx
    subst hx
    simp only [List.mem_cons, List.mem_singleton, List.not_mem_nil, or_false] at hf
    rcases hf with hf | hf
    · subst hf
      simp only [localType, Expr.ident.injEq] at hTyp
      subst hTyp
      rcases hcase with ⟨hpath, _⟩ | ⟨_, obj, hobj, hdecl⟩
      · simp at hpath
      · simp only [Option.some.injEq] at hobj
        subst hobj
        simp [embeddingProgram] at hdecl
        subst hdecl
        simp [baseSpec, embeddingSpec]
    · subst hf
      simp [member] at hNames
  · subst hs'
    simp only [baseSpec, SpecType.structType.injEq] at hx
    subst hx
    simp only [List.mem_singleton] at hf
    subst hf
    simp [member] at hNames

/-- C4: termination of discovery. For every program in which embedding by
value is acyclic there is an amount of fuel from which on none of
`collectStructsWithOpts`, `parseStructuresFromDSTSpec`, `collectFields`,
`collectUnresolvedExternalStructs` (on the declarations, records and member
types of the program, from any dedup set) nor the discovery loop of `process`
runs out of fuel: every call ends, with a result, a panic or a fatal error.
Member types may refer to any record, themselves included. The dedup set is
consulted before recursing (a key that is present ends the call at once, the
lists untouched) and updated before recursing, which strictly decreases the
number of keys not yet visited. -/
theorem discovery_terminates (L : Lib) (P : Program) (hacyclic : EmbeddingAcyclic L P) :
    (∃ fuel, ∀ n, fuel ≤ n → ∀ (opts : collectStructOptions) (u : Unique),
      collectStructsWithOpts P (parseStructuresFromDSTSpec L P n) opts u ≠ .error .fuel ∧
      (∀ decs spec, spec ∈ P.specs →
        parseStructuresFromDSTSpec L P n decs spec opts u ≠ .error .fuel) ∧
      (∀ t x sT, Spec.typeSpec t ∈ P.specs → t.Typ = .structType x → sT.node = x →
        collectFields L P (parseStructuresFromDSTSpec L P n) sT opts u ≠ .error .fuel) ∧
      (∀ f results, MemberOf P f →
        collectUnresolvedExternalStructs P (parseStructuresFromDSTSpec L P n) f.Typ results
          opts u ≠ .error .fuel) ∧
      (∀ pkgs structName, discover L P n pkgs structName u ≠ .error .fuel)) ∧
    (∀ (parse : ParseFn) (t : Ident) (results : List (Option structType))
        (opts : collectStructOptions) (u : Unique) (obj : Obj) (spec : TypeSpec),
      t.Obj = some obj → P.decls[obj.Decl]? = some (.typeSpec spec) → obj.Name ∈ u →
      unresolvedIdent P parse t results opts u = .ok (results, u)) ∧
    (∀ (u : Unique) (key : String), key ∈ P.keys → key ∉ u →
      unvisited P (key :: u) < unvisited P u) := by
  obtain ⟨rank, hrank⟩ := hacyclic
  obtain ⟨R, hR⟩ := exists_rank_bound rank P.specs
  refine ⟨⟨enoughFuel P R, ?_⟩, ?_, fun u key hkey hnew => unvisited_cons_lt P hkey hnew⟩
  · intro n hn opts u
    have hp := parseStructuresFromDSTSpec_safe L P rank R hR hrank n
    have hk := enoughFuel_le hn u
    refine ⟨?_, ?_, ?_, ?_, ?_⟩
    · exact (collectStructsWithOpts_safe hp opts u
        (fun pkg' file g spec hpkg' hfile hg hspec =>
          Fits.of_bound hR
            (P.mem_specs_of_pkg pkg' file g spec (List.getElem?_mem hpkg') hfile hg hspec)
            hk)).1
    · intro decs spec hspec
      exact (hp decs spec opts u hspec (Fits.of_bound hR hspec hk)).1
    · intro t x sT ht hx hnode
      have hRt := hR t ht
      exact (fieldsLoop_safe hp hR hrank t x ht hx sT opts sT.node
        (fun f hf => hnode ▸ hf) [] [] u (by omega)).1
    · intro f results hf
      obtain ⟨t, x, ht, hx, hfx⟩ := hf
      exact (collectUnresolvedExternalStructs_safe hp hR f.Typ results opts u
        (fun key hkey => P.mem_keys t x ht hx f hfx key hkey) (by omega)).1
    · intro pkgs structName
      exact (pkgsLoop_safe hp hR structName pkgs [] u hk).1
  · intro parse t results opts u obj spec hobj hdecl hmem
    unfold unresolvedIdent
    simp [hobj, hdecl, hmem]

/-- C4 at the root record `Config` that embeds `Base` and has the member
`Children []Config`: embedding is acyclic, and with three units of fuel
discovery returns `Config` and, through `Children`, `Config` again. -/
theorem discovery_terminates_witness :
    EmbeddingAcyclic scalarLib embeddingProgram ∧
    (discover scalarLib embeddingProgram 3 [0] "Config" []).toOption.map
      (fun r => r.1.map (Option.map (fun s => (s.name, s.fields.map (fun field => field.Tag)))))
      = some [some ("Config", ["id", "children"]), some ("Config", ["id", "children"])] ∧
    ((∃ fuel, ∀ n, fuel ≤ n → ∀ (opts : collectStructOptions) (u : Unique),
      collectStructsWithOpts embeddingProgram
          (parseStructuresFromDSTSpec scalarLib embeddingProgram n) opts u ≠ .error .fuel ∧
      (∀ decs spec, spec ∈ embeddingProgram.specs →
        parseStructuresFromDSTSpec scalarLib embeddingProgram n decs spec opts u
          ≠ .error .fuel) ∧
      (∀ t x sT, Spec.typeSpec t ∈ embeddingProgram.specs → t.Typ = .structType x →
        sT.node = x →
        collectFields scalarLib embeddingProgram
          (parseStructuresFromDSTSpec scalarLib embeddingProgram n) sT opts u
          ≠ .error .fuel) ∧
      (∀ f results, MemberOf embeddingProgram f →
        collectUnresolvedExternalStructs embeddingProgram
          (parseStructuresFromDSTSpec scalarLib embeddingProgram n) f.Typ results
          opts u ≠ .error .fuel) ∧
      (∀ pkgs structName,
        discover scalarLib embeddingProgram n pkgs structName u ≠ .error .fuel)) ∧
    (∀ (parse : ParseFn) (t : Ident) (results : List (Option structType))
        (opts : collectStructOptions) (u : Unique) (obj : Obj) (spec : TypeSpec),
      t.Obj = some obj → embeddingProgram.decls[obj.Decl]? = some (.typeSpec spec) →
      obj.Name ∈ u →
      unresolvedIdent embeddingProgram parse t results opts u = .ok (results, u)) ∧
    (∀ (u : Unique) (key : String), key ∈ embeddingProgram.keys → key ∉ u →
      unvisited embeddingProgram (key :: u) < unvisited embeddingProgram u)) :=
  ⟨embeddingProgram_acyclic, by decide,
    discovery_terminates scalarLib embeddingProgram embeddingProgram_acyclic⟩

/-! ### The type reference resolver -/

theorem pathBase_ne_empty (p : String) : pathBase p ≠ "" := by
  unfold pathBase
  by_cases hp : p = ""
  · simp [hp]
  · simp only [hp, if_false]
    by_cases hq : afterLastSlash (stripTrailingSlashes p.data) = []
    · simp [hq]
    · simp only [hq, if_false]
      intro h
      exact hq (congrArg String.data h)

theorem append_dot_ne (p N : String) : p ++ "." ++ N ≠ N := by
  intro h
  have := congrArg String.length h
  simp only [String.length_append] at this
  have h1 : (".").length = 1 := rfl
  omega

theorem identFieldType_unqualified (t : Ident) (ht : t.Path = "") (p : String) (apply : Bool) :
    identFieldType t p apply = if apply = true ∧ p ≠ "" then p ++ "." ++ t.Name else t.Name := by
  unfold identFieldType wrapStructName
  by_cases hp : p = "" <;> cases apply <;> simp [ht, hp]

theorem identFieldType_qualified (t : Ident) (ht : t.Path ≠ "") (p : String) (apply : Bool) :
    identFieldType t p apply = pathBase t.Path ++ "." ++ t.Name := by
  unfold identFieldType wrapStructName
  simp [ht, pathBase_ne_empty]

/-- C16: the map rule of the resolver. The reference key of `map[K]V` is the
reference key of `V` computed with the apply flag off, whatever `K` and the
incoming flag are; the display form is `map[` + display of `K` + `]` +
display of `V`, both computed with the flag off. -/
theorem map_type_rule (K K' V : Expr) (p : String) (a a' : Bool) :
    getFieldType (.mapType K V) p a = getFieldType V p false ∧
    getFieldType (.mapType K V) p a = getFieldType (.mapType K' V) p a' ∧
    formatFieldType (.mapType K V) p a
      = "map[" ++ formatFieldType K p false ++ "]" ++ formatFieldType V p false := by
  refine ⟨?_, ?_, ?_⟩
  · simp [getFieldType]
  · simp [getFieldType]
  · simp [formatFieldType]

/-- C15: the module-prefix rule of the resolver. For an unqualified name `N`
and a prefix `p`, `getFieldType` and `formatFieldType` give `p.N` when the
apply flag is on and `p` is not empty, and `N` otherwise, and `p.N` is given
in no other case. Only an indirection passes the flag on: sequence, map and
selector pass it off. So with the flag off and `p` not empty, `*N` resolves
to `p.N`, while `N`, `[]N`, `map[K]N` and `*[]N` resolve to `N`, with the
container decoration in the display form. -/
theorem unqualified_name_rule (t : Ident) (ht : t.Path = "") (p : String) (hp : p ≠ "")
    (apply : Bool) (K X : Expr) :
    (getFieldType (.ident t) p apply
      = if apply = true ∧ p ≠ "" then p ++ "." ++ t.Name else t.Name) ∧
    (formatFieldType (.ident t) p apply
      = if apply = true ∧ p ≠ "" then p ++ "." ++ t.Name else t.Name) ∧
    (getFieldType (.ident t) p apply = p ++ "." ++ t.Name ↔ apply = true) ∧
    (formatFieldType (.ident t) p apply = p ++ "." ++ t.Name ↔ apply = true) ∧
    (getFieldType (.ident t) "" apply = t.Name ∧ formatFieldType (.ident t) "" apply = t.Name) ∧
    (∀ e : Expr,
      getFieldType (.starExpr e) p apply = getFieldType e p true ∧
      formatFieldType (.starExpr e) p apply = formatFieldType e p true ∧
      getFieldType (.arrayType e) p apply = getFieldType e p false ∧
      formatFieldType (.arrayType e) p apply = "[]" ++ formatFieldType e p false ∧
      getFieldType (.mapType K e) p apply = getFieldType e p false ∧
      getFieldType (.selectorExpr X t) p apply = t.Name ∧
      formatFieldType (.selectorExpr X t) p apply = t.Name) ∧
    (getFieldType (.starExpr (.ident t)) p false = p ++ "." ++ t.Name ∧
      formatFieldType (.starExpr (.ident t)) p false = p ++ "." ++ t.Name) ∧
    (getFieldType (.ident t) p false = t.Name ∧
      getFieldType (.arrayType (.ident t)) p false = t.Name ∧
      getFieldType (.mapType K (.ident t)) p false = t.Name ∧
      getFieldType (.starExpr (.arrayType (.ident t))) p false = t.Name) ∧
    (formatFieldType (.ident t) p false = t.Name ∧
      formatFieldType (.arrayType (.ident t)) p false = "[]" ++ t.Name ∧
      formatFieldType (.mapType K (.ident t)) p false
        = "map[" ++ formatFieldType K p false ++ "]" ++ t.Name ∧
      formatFieldType (.starExpr (.arrayType (.ident t))) p false = "[]" ++ t.Name) := by
  have hid := identFieldType_unqualified t ht
  have hne : t.Name ≠ p ++ "." ++ t.Name := fun h => append_dot_ne p t.Name h.symm
  refine ⟨?_, ?_, ?_, ?_, ?_, ?_, ?_, ?_, ?_⟩
  · simp [getFieldType, hid]
  · simp [formatFieldType, hid]
  · cases apply <;> simp [getFieldType, hid, hp, hne]
  · cases apply <;> simp [formatFieldType, hid, hp, hne]
  · simp [getFieldType, formatFieldType, hid]
  · intro e
    simp [getFieldType, formatFieldType, hid]
  · simp [getFieldType, formatFieldType, hid, hp]
  · simp [getFieldType, hid]
  · simp [formatFieldType, hid]

/-- C15 at the name `B` and the prefix `b`. -/
theorem unqualified_name_rule_witness :
    getFieldType (.starExpr (localType "B" 3)) "b" false = "b.B" ∧
    getFieldType (.arrayType (localType "B" 3)) "b" false = "B" ∧
    formatFieldType (.mapType (builtin "string") (localType "B" 3)) "b" false = "map[string]B" ∧
    formatFieldType (.arrayType (.starExpr (localType "B" 3))) "b" false = "[]b.B" ∧
    (getFieldType (localType "B" 3) "b" true = "b" ++ "." ++ "B" ↔ true = true) :=
  ⟨by decide, by decide, by decide, by decide,
    (unqualified_name_rule { Name := "B", Obj := some { Name := "B", Decl := 3 } } rfl "b"
      (by decide) true (builtin "string") (builtin "pkg")).2.2.1⟩

theorem addParsed_main {L : Lib} {opts : collectStructOptions} {acc r : Found}
    (hacc : MainMatches L opts acc) (hr : MainMatches L opts r) :
    MainMatches L opts (addParsed acc r) := by
  obtain ⟨a1, a2⟩ := acc
  obtain ⟨r1, r2⟩ := r
  cases r1 with
  | none => exact hacc
  | some q =>
    cases a1 with
    | none => exact hr
    | some m => exact hacc

theorem parseStructuresFromDSTSpec_main (L : Lib) (P : Program) (n : Nat)
    (decs : List String) (spec : Spec) (opts : collectStructOptions) (u : Unique) (r : Found)
    (u' : Unique) (h : parseStructuresFromDSTSpec L P n decs spec opts u = .ok (r, u')) :
    MainMatches L opts r := by
  intro S hS
  unfold parseStructuresFromDSTSpec at h
  split at h
  · cases h; cases hS
  · next t =>
    split at h
    · cases h; cases hS
    · cases h; cases hS
    · next x hx =>
      simp only at h
      split at h
      · cases h; cases hS
      · next hfold =>
        split at h
        · cases h
        · split at h
          · cases h; cases hS
          · split at h
            · cases h
            · split at h
              · cases h
              · cases h
                cases hS
                exact ⟨rfl, by simpa using hfold⟩

theorem specsLoop_main (L : Lib) (P : Program) (n : Nat) (decs : List String)
    (opts : collectStructOptions) (specs : List Spec) (acc : Found) (u : Unique) (r : Found)
    (u' : Unique) (hacc : MainMatches L opts acc)
    (h : specsLoop (parseStructuresFromDSTSpec L P n) decs opts specs acc u = .ok (r, u')) :
    MainMatches L opts r := by
  induction specs generalizing acc u with
  | nil =>
    simp only [specsLoop, Except.ok.injEq, Prod.mk.injEq] at h
    exact h.1 ▸ hacc
  | cons spec rest ih =>
    unfold specsLoop at h
    split at h
    · cases h
    · next r1 u1 hparse =>
      exact ih _ _ (addParsed_main hacc
        (parseStructuresFromDSTSpec_main L P n _ _ _ _ _ _ hparse)) h

theorem genDeclsLoop_main (L : Lib) (P : Program) (n : Nat) (opts : collectStructOptions)
    (file : List GenDecl) (acc : Found) (u : Unique) (r : Found) (u' : Unique)
    (hacc : MainMatches L opts acc)
    (h : genDeclsLoop (parseStructuresFromDSTSpec L P n) opts file acc u = .ok (r, u')) :
    MainMatches L opts r := by
  induction file generalizing acc u with
  | nil =>
    simp only [genDeclsLoop, Except.ok.injEq, Prod.mk.injEq] at h
    exact h.1 ▸ hacc
  | cons g rest ih =>
    unfold genDeclsLoop at h
    split at h
    · cases h
    · next acc1 u1 hloop =>
      exact ih _ _ (specsLoop_main L P n _ _ _ _ _ _ _ hacc hloop) h

theorem filesLoop_main (L : Lib) (P : Program) (n : Nat) (opts : collectStructOptions)
    (files : List File) (acc : Found) (u : Unique) (r : Found) (u' : Unique)
    (hacc : MainMatches L opts acc)
    (h : filesLoop (parseStructuresFromDSTSpec L P n) opts files acc u = .ok (r, u')) :
    MainMatches L opts r := by
  induction files generalizing acc u with
  | nil =>
    simp only [filesLoop, Except.ok.injEq, Prod.mk.injEq] at h
    exact h.1 ▸ hacc
  | cons file rest ih =>
    unfold filesLoop at h
    split at h
    · cases h
    · next r1 u1 hfile =>
      exact ih _ _ (addParsed_main hacc
        (genDeclsLoop_main L P n opts file _ _ _ _ (fun _ hS => by cases hS) hfile)) h

theorem collectStructsWithOpts_main (L : Lib) (P : Program) (n : Nat)
    (opts : collectStructOptions) (u : Unique) (r : Found) (u' : Unique)
    (h : collectStructsWithOpts P (parseStructuresFromDSTSpec L P n) opts u = .ok (r, u')) :
    MainMatches L opts r := by
  unfold collectStructsWithOpts at h
  split at h
  · cases h
  · exact filesLoop_main L P n opts _ _ _ _ _ (fun _ hS => by cases hS) h

/-- C17: qualified names. For an identifier `N` imported from path `P`, both
`getFieldType` and `formatFieldType` return `base(P).N` for every prefix and
every apply flag, so the prefix of the caller is never applied; this is the
GetName of a record with package prefix `base(P)` and name `N`; and the
record that discovery returns first for the identifier (the call of
`collectStructsWithOpts` in `collectUnresolvedExternalStructs`) has the
package prefix `base(P)` and a name that `N` matches, so that its GetName is
the reference key when it bears the name `N`. -/
theorem qualified_name_rule (t : Ident) (ht : t.Path ≠ "") (p : String) (apply : Bool) :
    getFieldType (.ident t) p apply = pathBase t.Path ++ "." ++ t.Name ∧
    formatFieldType (.ident t) p apply = pathBase t.Path ++ "." ++ t.Name ∧
    (∀ S : Struct, S.packagePrefix = pathBase t.Path → S.name = t.Name →
      getFieldType (.ident t) p apply = S.GetName ∧
      formatFieldType (.ident t) p apply = S.GetName) ∧
    (∀ (L : Lib) (P : Program) (n structPackage : Nat) (u : Unique) (S : structType)
        (extra : List (Option structType)) (u' : Unique),
      collectStructsWithOpts P (parseStructuresFromDSTSpec L P n)
          { pkg := structPackage, structName := t.Name, packagePrefix := pathBase t.Path } u
        = .ok ((some S, extra), u') →
      S.packagePrefix = pathBase t.Path ∧ L.equalFold t.Name S.name = true ∧
      (S.name = t.Name → getFieldType (.ident t) p apply = (newStruct S).GetName)) := by
  have hid := identFieldType_qualified t ht p apply
  have hget : getFieldType (.ident t) p apply = pathBase t.Path ++ "." ++ t.Name := by
    simp [getFieldType, hid]
  have hfmt : formatFieldType (.ident t) p apply = pathBase t.Path ++ "." ++ t.Name := by
    simp [formatFieldType, hid]
  have hname : ∀ pfx name : String, pfx = pathBase t.Path → name = t.Name →
      wrapStructName pfx name = pathBase t.Path ++ "." ++ t.Name := by
    intro pfx name h1 h2
    subst h1 h2
    simp [wrapStructName, pathBase_ne_empty]
  refine ⟨hget, hfmt, ?_, ?_⟩
  · intro S hS hN
    rw [hget, hfmt]
    exact ⟨(hname _ _ hS hN).symm, (hname _ _ hS hN).symm⟩
  · intro L P n structPackage u S extra u' hrun
    obtain ⟨h1, h2⟩ := collectStructsWithOpts_main L P n _ u _ u' hrun S rfl
    refine ⟨h1, h2, fun hN => ?_⟩
    rw [hget]
    exact (hname _ _ h1 hN).symm

/-- C17 at the identifier `b.A` of `byValueProgram`, imported from
`example.com/x/b`: the key is `b.A`, and the record discovered for it is
named `b.A`. -/
theorem qualified_name_rule_witness :
    getFieldType (importedType "A" "example.com/x/b") "root" true = "b" ++ "." ++ "A" ∧
    (collectStructsWithOpts byValueProgram (parseStructuresFromDSTSpec scalarLib byValueProgram 3)
        { pkg := 1, structName := "A", packagePrefix := pathBase "example.com/x/b" }
        ["example.com/x/b.A"]).toOption.map
      (fun r => r.1.1.map (fun S => (newStruct S).GetName)) = some (some "b.A") :=
  ⟨(qualified_name_rule { Name := "A", Path := "example.com/x/b" } (by decide) "root" true).1,
    by decide⟩

/-! ### The scenario of the specification -/

/-- C11: the Config/ServerConfig scenario. For the root record `Config` with
`Name string` (tag `name`, doc `The name.`) and `Server ServerConfig` (tag
`server`, doc `Server settings.` with the example `default` of value `{}`),
and the record `ServerConfig` with `Port int` (tag `port`, doc
`Listen port.`), `process` with at least two units of fuel gives exactly two
records, `Config` then `ServerConfig`; `ServerConfig` has the one Appearance
`(Config, server)` and the one example `(default, {})`; `Config` has no
Appearance and no example. -/
theorem scenario_config_server (n : Nat) :
    uncommentDecorationNode ["// Server settings.", "// examples:", "//   - name: default",
      "//     value: \"{}\""] = serverComment ∧
    (process scenarioLib scenarioProgram (n + 2) [0] "Config" "./pkg" "main" "out.go").toOption.map
      (fun doc => doc.Structs.map (fun s =>
        (s.GetName, s.AppearsIn, s.Text.Examples,
          s.Fields.map (fun field => (field.Tag, field.Typ, field.Text.Description)))))
      = some [("Config", [], [],
                [("name", "string", "The name."), ("server", "ServerConfig", "Server settings.")]),
              ("ServerConfig", [{ Struct := 0, FieldName := "server" }],
                [{ Name := "default", Value := "{}" }], [("port", "int", "Listen port.")])] := by
  refine ⟨by decide, ?_⟩
  rfl

/-! ### Members without tag and excluded members -/

/-- An embedded member without a tag stops `collectFields` at `f.Tag.Value`,
whatever its documentation and its type are. -/
theorem fieldStep_untagged_embedded (L : Lib) (P : Program) (parse : ParseFn) (s : structType)
    (opts : collectStructOptions) (f : FieldDecl) (hTag : f.Tag = none) (hNames : f.Names = [])
    (fields : List Field) (found : List (Option structType)) (u : Unique) :
    fieldStep L P parse s opts f fields found u
      = .error (.panic "nil pointer dereference: f.Tag") := by
  unfold fieldStep
  simp [hTag, hNames]

/-- C14: the code at the failing input. The record `Settings` embeds the
documented record `Base` of its own file without a tag: `collectFields`
panics at the nil tag, and so does `process`. With the tag `yaml:",inline"`
on the embedded member the fields of `Base` are spliced in. -/
theorem collectFields_panics_on_untagged_embedded_member :
    collectFields scalarLib
        (settingsWith [untaggedEmbedded, member "Port" (builtin "int") "port" "Listen port."]
          baseSpec)
        (parseStructuresFromDSTSpec scalarLib
          (settingsWith [untaggedEmbedded, member "Port" (builtin "int") "port" "Listen port."]
            baseSpec) 2)
        (rootStruct "Settings"
          [untaggedEmbedded, member "Port" (builtin "int") "port" "Listen port."])
        { pkg := 0, structName := "Settings" } []
      = .error (.panic "nil pointer dereference: f.Tag") ∧
    process scalarLib
        (settingsWith [untaggedEmbedded, member "Port" (builtin "int") "port" "Listen port."]
          baseSpec) 3 [0] "Settings" "./pkg" "main" "out.go"
      = .error (.panic "nil pointer dereference: f.Tag") ∧
    (collectFields scalarLib
        (settingsWith [inlineEmbedded, member "Port" (builtin "int") "port" "Listen port."]
          baseSpec)
        (parseStructuresFromDSTSpec scalarLib
          (settingsWith [inlineEmbedded, member "Port" (builtin "int") "port" "Listen port."]
            baseSpec) 2)
        (rootStruct "Settings"
          [inlineEmbedded, member "Port" (builtin "int") "port" "Listen port."])
        { pkg := 0, structName := "Settings" } []).toOption.map
      (fun r => r.1.1.map (fun field => field.Tag)) = some ["id", "port"] := by
  refine ⟨rfl, rfl, ?_⟩
  decide

theorem marker_not_in_empty : strContains "" "docgen:nodoc" = false := by decide

/-- A member that is named or tagged and whose documentation carries the
marker leaves the lists and the dedup set as they are. -/
theorem fieldStep_nodoc (L : Lib) (P : Program) (parse : ParseFn) (s : structType)
    (opts : collectStructOptions) (f : FieldDecl)
    (hmark : strContains (uncommentDecorationNode f.Decs) "docgen:nodoc" = true)
    (hreach : f.Names ≠ [] ∨ f.Tag ≠ none) (fields : List Field)
    (found : List (Option structType)) (u : Unique) :
    fieldStep L P parse s opts f fields found u = .ok (.next fields found u) := by
  have hdoc : uncommentDecorationNode f.Decs ≠ "" := by
    intro h
    rw [h, marker_not_in_empty] at hmark
    cases hmark
  unfold fieldStep
  cases hTag : f.Tag with
  | none =>
    cases hNames : f.Names with
    | nil => rcases hreach with h | h <;> contradiction
    | cons name names => rfl
  | some yamlTags =>
    simp only [hdoc, hmark, if_true, if_false]
    split <;> rfl

/-- C12: excluded members. For every member whose documentation contains the
marker `docgen:nodoc`: the documentation is not empty, so the member is not
taken for undocumented; its iteration of the member loop leaves the field
list, the discovered structures and the dedup set exactly as they were, or,
for an embedded member without a tag, stops at the nil tag before the
documentation is read, again without a Field, without discovery and with the
dedup set untouched; and when the member is named or tagged, `collectFields`
returns for the record exactly what it returns for the record without the
member, whatever the type of the member is. -/
theorem collectFields_excludes_nodoc_member (L : Lib) (P : Program) (parse : ParseFn)
    (s : structType) (opts : collectStructOptions) (f : FieldDecl)
    (hmark : strContains (uncommentDecorationNode f.Decs) "docgen:nodoc" = true) :
    uncommentDecorationNode f.Decs ≠ "" ∧
    (∀ (fields : List Field) (found : List (Option structType)) (u : Unique),
      fieldStep L P parse s opts f fields found u = .ok (.next fields found u) ∨
      (f.Tag = none ∧ f.Names = [] ∧
        fieldStep L P parse s opts f fields found u
          = .error (.panic "nil pointer dereference: f.Tag"))) ∧
    (f.Names ≠ [] ∨ f.Tag ≠ none →
      ∀ (before after : List FieldDecl) (u : Unique),
        collectFields L P parse { s with node := before ++ f :: after } opts u
          = collectFields L P parse { s with node := before ++ after } opts u) := by
  refine ⟨?_, ?_, ?_⟩
  · intro h
    rw [h, marker_not_in_empty] at hmark
    cases hmark
  · intro fields found u
    by_cases hreach : f.Names ≠ [] ∨ f.Tag ≠ none
    · exact Or.inl (fieldStep_nodoc L P parse s opts f hmark hreach fields found u)
    · have hN : f.Names = [] := by
        by_contra h
        exact hreach (Or.inl h)
      have hT : f.Tag = none := by
        by_contra h
        exact hreach (Or.inr h)
      exact Or.inr ⟨hT, hN, fieldStep_untagged_embedded L P parse s opts f hT hN fields found u⟩
  · intro hreach before after u
    unfold collectFields
    rw [fieldsLoop_congr L P parse { s with node := before ++ f :: after } s rfl,
      fieldsLoop_congr L P parse { s with node := before ++ after } s rfl]
    exact fieldsLoop_skip L P parse s opts f
      (fun fields found u => fieldStep_nodoc L P parse s opts f hmark hreach fields found u)
      before after [] [] u

/-- C12 at the record `Settings` with the members `Name`, `Hidden Secret`
(marked `docgen:nodoc`) and `Port`, where `Secret` is a documented record not
yet visited: the fields are `name` and `port`, nothing is discovered and the
dedup set stays empty. -/
theorem collectFields_excludes_nodoc_member_witness :
    (collectFields scalarLib
        (settingsWith [member "Name" (builtin "string") "name" "The name.", hiddenMember,
          member "Port" (builtin "int") "port" "Listen port."] secretSpec)
        (parseStructuresFromDSTSpec scalarLib
          (settingsWith [member "Name" (builtin "string") "name" "The name.", hiddenMember,
            member "Port" (builtin "int") "port" "Listen port."] secretSpec) 2)
        (rootStruct "Settings"
          [member "Name" (builtin "string") "name" "The name.", hiddenMember,
            member "Port" (builtin "int") "port" "Listen port."])
        { pkg := 0, structName := "Settings" } []).toOption.map
      (fun r => (r.1.1.map (fun field => field.Tag), r.1.2.length, r.2))
      = some (["name", "port"], 0, []) ∧
    (∀ (fields : List Field) (found : List (Option structType)) (u : Unique),
      fieldStep scalarLib (settingsWith [hiddenMember] secretSpec)
          (parseStructuresFromDSTSpec scalarLib (settingsWith [hiddenMember] secretSpec) 2)
          (rootStruct "Settings" [hiddenMember]) { pkg := 0, structName := "Settings" }
          hiddenMember fields found u = .ok (.next fields found u) ∨
      (hiddenMember.Tag = none ∧ hiddenMember.Names = [] ∧
        fieldStep scalarLib (settingsWith [hiddenMember] secretSpec)
            (parseStructuresFromDSTSpec scalarLib (settingsWith [hiddenMember] secretSpec) 2)
            (rootStruct "Settings" [hiddenMember]) { pkg := 0, structName := "Settings" }
            hiddenMember fields found u
          = .error (.panic "nil pointer dereference: f.Tag"))) :=
  ⟨by decide,
    (collectFields_excludes_nodoc_member scalarLib (settingsWith [hiddenMember] secretSpec)
      (parseStructuresFromDSTSpec scalarLib (settingsWith [hiddenMember] secretSpec) 2)
      (rootStruct "Settings" [hiddenMember]) { pkg := 0, structName := "Settings" }
      hiddenMember (by decide)).2.1⟩

/-! ### Embedded records -/

theorem unresolvedPath_acc (P : Program) (parse : ParseFn) (t : Ident)
    (results : List (Option structType)) (opts : collectStructOptions) (u : Unique) :
    unresolvedPath P parse t results opts u
      = (unresolvedPath P parse t [] opts u).map (fun r => (results ++ r.1, r.2)) := by
  unfold unresolvedPath
  split
  · split
    · simp [Except.map]
    · split
      · simp [Except.map]
      · split
        · simp [Except.map]
        · split <;> simp [Except.map]
  · simp [Except.map]

theorem unresolvedIdent_acc (P : Program) (parse : ParseFn) (t : Ident)
    (results : List (Option structType)) (opts : collectStructOptions) (u : Unique) :
    unresolvedIdent P parse t results opts u
      = (unresolvedIdent P parse t [] opts u).map (fun r => (results ++ r.1, r.2)) := by
  unfold unresolvedIdent
  split
  · exact unresolvedPath_acc P parse t results opts u
  · split
    · split
      · simp [Except.map]
      · split
        · simp [Except.map]
        · next main extra u1 _ =>
          rw [unresolvedPath_acc P parse t (results ++ [main] ++ extra),
            unresolvedPath_acc P parse t ([] ++ [main] ++ extra)]
          cases unresolvedPath P parse t [] opts u1 <;> simp [Except.map]
    · simp [Except.map]

theorem collectUnresolvedExternalStructs_acc (P : Program) (parse : ParseFn) (e : Expr)
    (results : List (Option structType)) (opts : collectStructOptions) (u : Unique) :
    collectUnresolvedExternalStructs P parse e results opts u
      = (collectUnresolvedExternalStructs P parse e [] opts u).map
          (fun r => (results ++ r.1, r.2)) := by
  induction e generalizing results u with
  | ident t => exact unresolvedIdent_acc P parse t results opts u
  | mapType k v ihk ihv =>
    unfold collectUnresolvedExternalStructs
    rw [ihk results u]
    cases hk : collectUnresolvedExternalStructs P parse k [] opts u with
    | error err => simp [Except.map]
    | ok r =>
      obtain ⟨r1, u1⟩ := r
      simp only [Except.map]
      rw [ihv (results ++ r1) u1, ihv r1 u1]
      cases collectUnresolvedExternalStructs P parse v [] opts u1 <;> simp [Except.map]
  | arrayType e ih => exact ih results u
  | starExpr x ih => exact ih results u
  | selectorExpr x sel _ => exact unresolvedIdent_acc P parse sel results opts u
  | structType => simp [collectUnresolvedExternalStructs, Except.map]
  | interfaceType => simp [collectUnresolvedExternalStructs, Except.map]
  | other => simp [collectUnresolvedExternalStructs, Except.map]

theorem spliceEmbedded_acc (fields : List Field) (found : List (Option structType))
    (r : Found) (u : Unique) :
    spliceEmbedded fields found r u
      = (spliceEmbedded [] [] r u).map (FieldStep.prepend fields found) := by
  unfold spliceEmbedded
  split <;> simp [Except.map, FieldStep.prepend]

theorem embeddedStep_acc (P : Program) (parse : ParseFn) (opts : collectStructOptions)
    (f : FieldDecl) (fields : List Field) (found : List (Option structType)) (u : Unique) :
    embeddedStep P parse opts f fields found u
      = (embeddedStep P parse opts f [] [] u).map (FieldStep.prepend fields found) := by
  unfold embeddedStep
  split
  · split
    · split
      · simp [Except.map]
      · split
        · simp [Except.map, FieldStep.prepend]
        · split
          · simp [Except.map]
          · exact spliceEmbedded_acc _ _ _ _
    · split
      · split
        · split
          · simp [Except.map]
          · exact spliceEmbedded_acc _ _ _ _
        · simp [Except.map]
      · exact spliceEmbedded_acc _ _ _ _
  · simp [Except.map, FieldStep.prepend]

theorem namedStep_acc (L : Lib) (P : Program) (parse : ParseFn) (s : structType)
    (opts : collectStructOptions) (f : FieldDecl) (name yamlTag documentation : String)
    (fields : List Field) (found : List (Option structType)) (u : Unique) :
    namedStep L P parse s opts f name yamlTag documentation fields found u
      = (namedStep L P parse s opts f name yamlTag documentation [] [] u).map
          (FieldStep.prepend fields found) := by
  unfold namedStep
  split
  · simp [Except.map]
  · split
    · simp [Except.map, FieldStep.prepend]
    · simp only
      rw [collectUnresolvedExternalStructs_acc P parse f.Typ found]
      cases collectUnresolvedExternalStructs P parse f.Typ [] opts u <;>
        simp [Except.map, FieldStep.prepend]

theorem fieldStep_acc (L : Lib) (P : Program) (parse : ParseFn) (s : structType)
    (opts : collectStructOptions) (f : FieldDecl) (fields : List Field)
    (found : List (Option structType)) (u : Unique) :
    fieldStep L P parse s opts f fields found u
      = (fieldStep L P parse s opts f [] [] u).map (FieldStep.prepend fields found) := by
  unfold fieldStep
  cases hTag : f.Tag with
  | none =>
    cases hNames : f.Names <;> simp [Except.map, FieldStep.prepend]
  | some yamlTags =>
    simp only
    split
    · simp [Except.map, FieldStep.prepend]
    · split
      · cases hNames : f.Names <;> simp [Except.map, FieldStep.prepend]
      · split
        · simp [Except.map, FieldStep.prepend]
        · cases hNames : f.Names with
          | nil => exact embeddedStep_acc P parse opts f fields found u
          | cons name names => exact namedStep_acc L P parse s opts f name _ _ fields found u

theorem fieldsLoop_eq_steps (L : Lib) (P : Program) (parse : ParseFn) (s : structType)
    (opts : collectStructOptions) (members : List FieldDecl) (fields : List Field)
    (found : List (Option structType)) (u : Unique) :
    fieldsLoop L P parse s opts members fields found u
      = (fieldsSteps L P parse s opts members fields found u).map FieldStep.result := by
  induction members generalizing fields found u with
  | nil => rfl
  | cons f rest ih =>
    simp only [fieldsLoop, fieldsSteps]
    split
    · simp [Except.map]
    · simp [Except.map, FieldStep.result]
    · exact ih _ _ _

theorem fieldsSteps_acc (L : Lib) (P : Program) (parse : ParseFn) (s : structType)
    (opts : collectStructOptions) (members : List FieldDecl) (fields : List Field)
    (found : List (Option structType)) (u : Unique) :
    fieldsSteps L P parse s opts members fields found u
      = (fieldsSteps L P parse s opts members [] [] u).map (FieldStep.prepend fields found) := by
  induction members generalizing fields found u with
  | nil => simp [fieldsSteps, Except.map, FieldStep.prepend]
  | cons f rest ih =>
    simp only [fieldsSteps]
    rw [fieldStep_acc L P parse s opts f fields found u]
    cases hs : fieldStep L P parse s opts f [] [] u with
    | error e => simp [Except.map]
    | ok step =>
      cases step with
      | ret f1 u1 => simp [Except.map, FieldStep.prepend]
      | next f1 d1 u1 =>
        simp only [Except.map, FieldStep.prepend]
        rw [ih (fields ++ f1) (found ++ d1) u1, ih f1 d1 u1]
        cases fieldsSteps L P parse s opts rest [] [] u1 with
        | error e => simp [Except.map]
        | ok step1 => cases step1 <;> simp [Except.map, FieldStep.prepend]

theorem fieldsSteps_append (L : Lib) (P : Program) (parse : ParseFn) (s : structType)
    (opts : collectStructOptions) (before rest : List FieldDecl) (fields fB : List Field)
    (found dB : List (Option structType)) (u u1 : Unique)
    (h : fieldsSteps L P parse s opts before fields found u = .ok (.next fB dB u1)) :
    fieldsSteps L P parse s opts (before ++ rest) fields found u
      = fieldsSteps L P parse s opts rest fB dB u1 := by
  induction before generalizing fields found u with
  | nil =>
    simp only [fieldsSteps, Except.ok.injEq, FieldStep.next.injEq] at h
    obtain ⟨h1, h2, h3⟩ := h
    subst h1 h2 h3
    rfl
  | cons f more ih =>
    simp only [List.cons_append, fieldsSteps] at h ⊢
    cases hs : fieldStep L P parse s opts f fields found u with
    | error e => rw [hs] at h; cases h
    | ok step =>
      cases step with
      | ret f1 u2 => rw [hs] at h; cases h
      | next f1 d1 u2 =>
        rw [hs] at h
        exact ih f1 d1 u2 h

/-- The iteration for an embedded member that passes the tag and the
documentation guards and whose type is an identifier of the same module:
the declaration the identifier resolves to is parsed and spliced. -/
theorem fieldStep_embedded_local (L : Lib) (P : Program) (parse : ParseFn) (s : structType)
    (opts : collectStructOptions) (emb : FieldDecl) (yamlTags : String) (ident : Ident)
    (obj : Obj) (E : TypeSpec)
    (hNames : emb.Names = []) (hTag : emb.Tag = some yamlTags) (hkeep : ¬ tagSkipped yamlTags)
    (hdoc : uncommentDecorationNode emb.Decs ≠ "")
    (hmark : strContains (uncommentDecorationNode emb.Decs) "docgen:nodoc" = false)
    (hTyp : emb.Typ = .ident ident) (hPath : ident.Path = "") (hObj : ident.Obj = some obj)
    (hDecl : P.decls[obj.Decl]? = some (.typeSpec E))
    (fields : List Field) (found : List (Option structType)) (u : Unique) :
    fieldStep L P parse s opts emb fields found u
      = match parse E.Decs (.typeSpec E)
            { pkg := opts.pkg, structName := ident.Name,
              packagePrefix := opts.packagePrefix } u with
        | .error e => .error e
        | .ok (r, u1) => spliceEmbedded fields found r u1 := by
  unfold tagSkipped at hkeep
  simp only [fieldStep, hTag, hNames, hkeep, hdoc, hmark, if_false, embeddedStep, hTyp, hPath,
    hObj, hDecl, ne_eq, not_true_eq_false, Bool.false_eq_true]

/-- A record that `parseStructuresFromDSTSpec` returns is the `structOf` of
the declaration with the field list that `collectFields` returned for it,
and the structures found are those `collectFields` found. -/
theorem parseStructuresFromDSTSpec_some (L : Lib) (P : Program) (n : Nat) (decs : List String)
    (E : TypeSpec) (members : List FieldDecl) (o : collectStructOptions) (u u2 : Unique)
    (S : structType) (d : List (Option structType)) (hE : E.Typ = .structType members)
    (h : parseStructuresFromDSTSpec L P (n + 1) decs (.typeSpec E) o u = .ok ((some S, d), u2)) :
    collectFields L P (parseStructuresFromDSTSpec L P n) (structOf L decs E members o) o u
      = .ok ((S.fields, d), u2) ∧
    S = { structOf L decs E members o with fields := S.fields } := by
  unfold parseStructuresFromDSTSpec at h
  simp only [hE] at h
  split at h
  · cases h
  · split at h
    · cases h
    · split at h
      · cases h
      · simp only [structOf]
        split at h
        · cases h
        · next fE dE u3 hc =>
          simp only [Except.ok.injEq, Prod.mk.injEq, Option.some.injEq] at h
          obtain ⟨⟨h1, h2⟩, h3⟩ := h
          subst h1 h2 h3
          exact ⟨hc, rfl⟩

theorem fieldStep_undocumented_embedded (L : Lib) (P : Program) (parse : ParseFn)
    (s : structType) (opts : collectStructOptions) (f : FieldDecl) (yamlTags : String)
    (hTag : f.Tag = some yamlTags) (hkeep : ¬ tagSkipped yamlTags) (hNames : f.Names = [])
    (hdoc : uncommentDecorationNode f.Decs = "") (fields : List Field)
    (found : List (Option structType)) (u : Unique) :
    fieldStep L P parse s opts f fields found u
      = .error (.panic "index out of range: f.Names[0]") := by
  unfold tagSkipped at hkeep
  simp only [fieldStep, hTag, hNames, hkeep, hdoc, if_false, if_true]

/-- C13, as stated, fails: the record `Settings { Name string; Base; Port int }`
embeds the record `Base { ID string; Owner Person }` of its own module, with a
documentation comment. When the embedding is tagged `yaml:"-"`, or carries a
tag without yaml key such as `json:",inline"`, `collectFields` succeeds and
returns the fields `Name` and `Port` only: the tag guard has skipped the
embedding, and the fields `ID` and `Owner` that `collectFields` returns for
`Base` are not in the list. -/
theorem collectFields_skips_embedded_member_tagged_dash :
    collectFields scalarLib (embeddingIn dashEmbedded)
        (parseStructuresFromDSTSpec scalarLib (embeddingIn dashEmbedded) 2)
        (rootStruct "Settings" [nameMember, dashEmbedded, portMember])
        { pkg := 0, structName := "Settings" } []
      = .ok (([plainField "Name" "string" "string" "name" "The name.",
               plainField "Port" "int" "int" "port" "The port."], []), []) ∧
    collectFields scalarLib (embeddingIn jsonOnlyEmbedded)
        (parseStructuresFromDSTSpec scalarLib (embeddingIn jsonOnlyEmbedded) 2)
        (rootStruct "Settings" [nameMember, jsonOnlyEmbedded, portMember])
        { pkg := 0, structName := "Settings" } []
      = .ok (([plainField "Name" "string" "string" "name" "The name.",
               plainField "Port" "int" "int" "port" "The port."], []), []) ∧
    collectFields scalarLib (embeddingIn dashEmbedded)
        (parseStructuresFromDSTSpec scalarLib (embeddingIn dashEmbedded) 1)
        (structOf scalarLib ownedBaseSpec.Decs ownedBaseSpec
          [member "ID" (builtin "string") "id" "The identifier.",
           member "Owner" (localType "Person" 2) "owner" "The owner."]
          { pkg := 0, structName := "Base" })
        { pkg := 0, structName := "Base" } []
      = .ok (([plainField "ID" "string" "string" "id" "The identifier.",
               plainField "Owner" "Person" "Person" "owner" "The owner."],
              [some personRecord]), ["Person"]) ∧
    dashEmbedded.Names = [] ∧
    dashEmbedded.Typ = .ident { Name := "Base", Obj := some { Name := "Base", Decl := 1 } } ∧
    (embeddingIn dashEmbedded).decls[1]? = some (.typeSpec ownedBaseSpec) :=
  ⟨rfl, rfl, rfl, rfl, rfl, rfl⟩

/-- C13, amended: embedded flattening. Let the members of the record `sP` be
`before ++ emb :: after`, where `emb` is an embedded member that is not
excluded: its yaml tag is not one the tag guard skips and its documentation
does not hold the marker `docgen:nodoc`; its type is an identifier of the
same module that resolves to the declaration of the record `E`; and let the
loop over `before` arrive at `emb` with the fields `fB`, the discoveries `dB`
and the dedup set `u1`. Whenever `collectFields` returns `(fields, found)`
for `sP`, then `collectFields` returns some `(fE, dE)` for `E` (from `u1`,
one level of nesting deeper) and the loop over `after`, started from empty
lists behind `E`, gives some fields `fA`, such that
`fields = fB ++ fE ++ fA`: the fields of `E` stand in the order
`collectFields` gave them, at the position of the embedding. The embedding
adds to the discoveries exactly `dE`, the record types found through the
fields of `E`, and not `E` itself: `found = dB ++ dE ++ dA` when the loop over
`after` runs to its end with the discoveries `dA`; when it leaves by the bare
`return` of line 356 the result `structs` is nil. -/
theorem embedded_fields_spliced_in_place (L : Lib) (P : Program) (n : Nat) (sP : structType)
    (opts : collectStructOptions) (before after : List FieldDecl) (emb : FieldDecl)
    (ident : Ident) (obj : Obj) (E : TypeSpec) (members : List FieldDecl)
    (u u1 u' : Unique) (fB fields : List Field) (dB found : List (Option structType))
    (hnode : sP.node = before ++ emb :: after)
    (hNames : emb.Names = [])
    (hkeep : ∀ yamlTags, emb.Tag = some yamlTags → ¬ tagSkipped yamlTags)
    (hmark : strContains (uncommentDecorationNode emb.Decs) "docgen:nodoc" = false)
    (hTyp : emb.Typ = .ident ident) (hPath : ident.Path = "") (hObj : ident.Obj = some obj)
    (hDecl : P.decls[obj.Decl]? = some (.typeSpec E)) (hE : E.Typ = .structType members)
    (hbefore : fieldsSteps L P (parseStructuresFromDSTSpec L P (n + 1)) sP opts before [] [] u
      = .ok (.next fB dB u1))
    (hok : collectFields L P (parseStructuresFromDSTSpec L P (n + 1)) sP opts u
      = .ok ((fields, found), u')) :
    ∃ (fE : List Field) (dE : List (Option structType)) (u2 : Unique) (fA : List Field),
      collectFields L P (parseStructuresFromDSTSpec L P n)
          (structOf L E.Decs E members
            { pkg := opts.pkg, structName := ident.Name, packagePrefix := opts.packagePrefix })
          { pkg := opts.pkg, structName := ident.Name, packagePrefix := opts.packagePrefix } u1
        = .ok ((fE, dE), u2) ∧
      fields = fB ++ fE ++ fA ∧
      ((∃ dA, fieldsSteps L P (parseStructuresFromDSTSpec L P (n + 1)) sP opts after [] [] u2
            = .ok (.next fA dA u') ∧ found = dB ++ dE ++ dA) ∨
       (fieldsSteps L P (parseStructuresFromDSTSpec L P (n + 1)) sP opts after [] [] u2
            = .ok (.ret fA u') ∧ found = [])) := by
  unfold collectFields at hok
  rw [hnode, fieldsLoop_eq_steps, fieldsSteps_append L P _ sP opts before (emb :: after) [] fB []
    dB u u1 hbefore] at hok
  simp only [fieldsSteps] at hok
  -- a member without tag or without documentation stops the loop
  cases hTag : emb.Tag with
  | none =>
    rw [fieldStep_untagged_embedded L P _ sP opts emb hTag hNames] at hok
    cases hok
  | some yamlTags =>
  by_cases hdoc : uncommentDecorationNode emb.Decs = ""
  · rw [fieldStep_undocumented_embedded L P _ sP opts emb yamlTags hTag (hkeep yamlTags hTag)
      hNames hdoc] at hok
    cases hok
  rw [fieldStep_embedded_local L P _ sP opts emb yamlTags ident obj E hNames hTag
    (hkeep yamlTags hTag) hdoc hmark hTyp hPath hObj hDecl] at hok
  cases hp : parseStructuresFromDSTSpec L P (n + 1) E.Decs (.typeSpec E)
      { pkg := opts.pkg, structName := ident.Name, packagePrefix := opts.packagePrefix } u1 with
  | error e => rw [hp] at hok; cases hok
  | ok r =>
    obtain ⟨⟨main, dE⟩, u2⟩ := r
    rw [hp] at hok
    cases main with
    | none => simp only [spliceEmbedded] at hok; cases hok
    | some S =>
      obtain ⟨hcollect, -⟩ := parseStructuresFromDSTSpec_some L P n E.Decs E members _ u1 u2 S dE
        hE hp
      simp only [spliceEmbedded] at hok
      rw [fieldsSteps_acc] at hok
      refine ⟨S.fields, dE, u2, ?_⟩
      cases hA : fieldsSteps L P (parseStructuresFromDSTSpec L P (n + 1)) sP opts after [] [] u2 with
      | error e => rw [hA] at hok; cases hok
      | ok step =>
        rw [hA] at hok
        cases step with
        | next fA dA uA =>
          simp only [Except.map, FieldStep.prepend, FieldStep.result, Except.ok.injEq,
            Prod.mk.injEq] at hok
          obtain ⟨⟨h1, h2⟩, h3⟩ := hok
          subst h1 h2 h3
          exact ⟨fA, hcollect, rfl, Or.inl ⟨dA, rfl, rfl⟩⟩
        | ret fA uA =>
          simp only [Except.map, FieldStep.prepend, FieldStep.result, Except.ok.injEq,
            Prod.mk.injEq] at hok
          obtain ⟨⟨h1, h2⟩, h3⟩ := hok
          subst h1 h2 h3
          exact ⟨fA, hcollect, rfl, Or.inr ⟨rfl, rfl⟩⟩

/-- C13, amended, at the record `Settings { Name string; Base; Port int }`
with the documented embedding `Base` tagged `yaml:",inline"`, where
`Base { ID string; Owner Person }`: the field list is `name`, then `id` and
`owner` of `Base`, then `port`, and the one record discovered is `Person`,
not `Base`. -/
theorem embedded_fields_spliced_in_place_witness :
    collectFields scalarLib flatProgram (parseStructuresFromDSTSpec scalarLib flatProgram 2)
        (rootStruct "Settings" [nameMember, inlineEmbedded, portMember])
        { pkg := 0, structName := "Settings" } []
      = .ok (([plainField "Name" "string" "string" "name" "The name.",
               plainField "ID" "string" "string" "id" "The identifier.",
               plainField "Owner" "Person" "Person" "owner" "The owner.",
               plainField "Port" "int" "int" "port" "The port."],
              [some personRecord]), ["Person"]) ∧
    ∃ (fE : List Field) (dE : List (Option structType)) (u2 : Unique) (fA : List Field),
      collectFields scalarLib flatProgram (parseStructuresFromDSTSpec scalarLib flatProgram 1)
          (structOf scalarLib ownedBaseSpec.Decs ownedBaseSpec
            [member "ID" (builtin "string") "id" "The identifier.",
             member "Owner" (localType "Person" 2) "owner" "The owner."]
            { pkg := 0, structName := "Base", packagePrefix := "" })
          { pkg := 0, structName := "Base", packagePrefix := "" } []
        = .ok ((fE, dE), u2) ∧
      [plainField "Name" "string" "string" "name" "The name.",
       plainField "ID" "string" "string" "id" "The identifier.",
       plainField "Owner" "Person" "Person" "owner" "The owner.",
       plainField "Port" "int" "int" "port" "The port."]
        = [plainField "Name" "string" "string" "name" "The name."] ++ fE ++ fA ∧
      ((∃ dA, fieldsSteps scalarLib flatProgram (parseStructuresFromDSTSpec scalarLib flatProgram 2)
            (rootStruct "Settings" [nameMember, inlineEmbedded, portMember])
            { pkg := 0, structName := "Settings" } [portMember] [] [] u2
            = .ok (.next fA dA ["Person"]) ∧ [some personRecord] = [] ++ dE ++ dA) ∨
       (fieldsSteps scalarLib flatProgram (parseStructuresFromDSTSpec scalarLib flatProgram 2)
            (rootStruct "Settings" [nameMember, inlineEmbedded, portMember])
            { pkg := 0, structName := "Settings" } [portMember] [] [] u2
            = .ok (.ret fA ["Person"]) ∧ [some personRecord] = [])) :=
  ⟨rfl,
    embedded_fields_spliced_in_place scalarLib flatProgram 1
      (rootStruct "Settings" [nameMember, inlineEmbedded, portMember])
      { pkg := 0, structName := "Settings" } [nameMember] [portMember] inlineEmbedded
      { Name := "Base", Obj := some { Name := "Base", Decl := 1 } } { Name := "Base", Decl := 1 }
      ownedBaseSpec
      [member "ID" (builtin "string") "id" "The identifier.",
       member "Owner" (localType "Person" 2) "owner" "The owner."]
      [] [] ["Person"] [plainField "Name" "string" "string" "name" "The name."]
      [plainField "Name" "string" "string" "name" "The name.",
       plainField "ID" "string" "string" "id" "The identifier.",
       plainField "Owner" "Person" "Person" "owner" "The owner.",
       plainField "Port" "int" "int" "port" "The port."]
      [] [some personRecord] rfl rfl
      (fun yamlTags h => by
        cases h
        unfold tagSkipped
        decide)
      (by decide) rfl rfl rfl rfl rfl rfl rfl⟩

/-! ### Reference key and display form -/

theorem formatFieldType_decoration (t : Expr) (p : String) (a : Bool) (id : Ident)
    (h : coreIdent t = some id) :
    formatFieldType t p a = decoration t p ++ getFieldType t p a := by
  induction t generalizing a with
  | ident t => simp [formatFieldType, getFieldType, decoration]
  | mapType k v _ ihv =>
    simp only [formatFieldType, getFieldType, decoration]
    rw [ihv false (by simpa [coreIdent] using h)]
    simp only [String.append_assoc]
  | arrayType e ih =>
    simp only [formatFieldType, getFieldType, decoration]
    rw [ih false (by simpa [coreIdent] using h)]
    simp only [String.append_assoc]
  | starExpr x ih =>
    simp only [formatFieldType, getFieldType, decoration]
    exact ih true (by simpa [coreIdent] using h)
  | selectorExpr x sel _ => simp [formatFieldType, getFieldType, decoration]
  | structType => simp [coreIdent] at h
  | interfaceType => simp [coreIdent] at h
  | other => simp [coreIdent] at h

theorem getFieldType_of_no_core (t : Expr) (p : String) (a : Bool) (h : coreIdent t = none) :
    getFieldType t p a = "" := by
  induction t generalizing a with
  | ident t => simp [coreIdent] at h
  | mapType k v _ ihv => simpa [getFieldType] using ihv false (by simpa [coreIdent] using h)
  | arrayType e ih => simpa [getFieldType] using ih false (by simpa [coreIdent] using h)
  | starExpr x ih => simpa [getFieldType] using ih true (by simpa [coreIdent] using h)
  | selectorExpr x sel _ => simp [coreIdent] at h
  | structType => simp [getFieldType]
  | interfaceType => simp [getFieldType]
  | other => simp [getFieldType]

theorem formatFieldType_ends_with_key (t : Expr) (p : String) (a : Bool) :
    ∃ d : String, formatFieldType t p a = d ++ getFieldType t p a := by
  induction t generalizing a with
  | ident t => exact ⟨"", by simp [formatFieldType, getFieldType]⟩
  | mapType k v _ ihv =>
    obtain ⟨d, hd⟩ := ihv false
    refine ⟨"map[" ++ formatFieldType k p false ++ "]" ++ d, ?_⟩
    simp only [formatFieldType, getFieldType]
    rw [hd]
    simp only [String.append_assoc]
  | arrayType e ih =>
    obtain ⟨d, hd⟩ := ih false
    refine ⟨"[]" ++ d, ?_⟩
    simp only [formatFieldType, getFieldType]
    rw [hd]
    simp only [String.append_assoc]
  | starExpr x ih =>
    obtain ⟨d, hd⟩ := ih true
    exact ⟨d, by simpa only [formatFieldType, getFieldType] using hd⟩
  | selectorExpr x sel _ => exact ⟨"", by simp [formatFieldType, getFieldType]⟩
  | structType => exact ⟨"struct", by simp [formatFieldType, getFieldType]⟩
  | interfaceType => exact ⟨"interface{}", by simp [formatFieldType, getFieldType]⟩
  | other => exact ⟨"", by simp [formatFieldType, getFieldType]⟩

/-- C25: the reference key is a suffix of the display type. For every type
expression `t`, prefix `p` and apply flag, `getFieldType t p apply` is a
suffix of `formatFieldType t p apply`. When `t` reaches an identifier
(directly or through map value, sequence, indirection or selector), the
display form is the container decoration (`[]`, `map[K]`) followed by the
key; otherwise the key is empty. -/
theorem reference_key_is_suffix_of_display (t : Expr) (p : String) (apply : Bool) :
    (getFieldType t p apply).data <:+ (formatFieldType t p apply).data ∧
    (∃ d : String, formatFieldType t p apply = d ++ getFieldType t p apply) ∧
    (∀ id, coreIdent t = some id →
      formatFieldType t p apply = decoration t p ++ getFieldType t p apply) ∧
    (coreIdent t = none → getFieldType t p apply = "") := by
  refine ⟨?_, formatFieldType_ends_with_key t p apply,
    fun id h => formatFieldType_decoration t p apply id h,
    getFieldType_of_no_core t p apply⟩
  obtain ⟨d, hd⟩ := formatFieldType_ends_with_key t p apply
  rw [hd, String.data_append]
  exact List.suffix_append _ _

/-! ### The two generators -/

theorem identFieldType_no_prefix (t : Ident) (h : t.Path = "") (apply : Bool) :
    identFieldType t "" apply = t.Name := by
  simp [identFieldType, h]

/-- C23: on type expressions without import-qualified identifier the
resolver of dst.go, called with the empty prefix, is the resolver of
docgen.go: for either value of the apply flag `getFieldType t "" apply` is
`getFieldType t` of docgen.go and `formatFieldType t "" apply` is
`formatFieldType t` of docgen.go. -/
theorem multi_module_resolver_extends_single (t : Expr) (h : Unqualified t = true)
    (apply : Bool) :
    getFieldType t "" apply = Docgen.getFieldType t ∧
    formatFieldType t "" apply = Docgen.formatFieldType t := by
  induction t generalizing apply with
  | ident t =>
    have ht : t.Path = "" := by simpa [Unqualified] using h
    simp [getFieldType, formatFieldType, Docgen.getFieldType, Docgen.formatFieldType,
      identFieldType_no_prefix t ht]
  | mapType k v ihk ihv =>
    have hkv : Unqualified k = true ∧ Unqualified v = true := by simpa [Unqualified] using h
    simp only [getFieldType, formatFieldType, Docgen.getFieldType, Docgen.formatFieldType]
    rw [(ihv hkv.2 false).1, (ihv hkv.2 false).2, (ihk hkv.1 false).2]
    exact ⟨rfl, rfl⟩
  | arrayType e ih =>
    have he : Unqualified e = true := by simpa [Unqualified] using h
    simp only [getFieldType, formatFieldType, Docgen.getFieldType, Docgen.formatFieldType]
    rw [(ih he false).1, (ih he false).2]
    exact ⟨rfl, rfl⟩
  | starExpr x ih =>
    have hx : Unqualified x = true := by simpa [Unqualified] using h
    simp only [getFieldType, formatFieldType, Docgen.getFieldType, Docgen.formatFieldType]
    exact ih hx true
  | selectorExpr x sel _ =>
    have hs : sel.Path = "" := by
      have := h
      simp only [Unqualified, Bool.and_eq_true, decide_eq_true_eq] at this
      exact this.2
    simp [getFieldType, formatFieldType, Docgen.getFieldType, Docgen.formatFieldType,
      identFieldType_no_prefix sel hs]
  | structType =>
    simp [getFieldType, formatFieldType, Docgen.getFieldType, Docgen.formatFieldType]
  | interfaceType =>
    simp [getFieldType, formatFieldType, Docgen.getFieldType, Docgen.formatFieldType]
  | other =>
    simp [getFieldType, formatFieldType, Docgen.getFieldType, Docgen.formatFieldType]

/-- C23 at the member type `map[string][]*Config`, with the apply flag on. -/
theorem multi_module_resolver_extends_single_witness :
    getFieldType (.mapType (builtin "string") (.arrayType (.starExpr (localType "Config" 0))))
        "" true
      = Docgen.getFieldType
          (.mapType (builtin "string") (.arrayType (.starExpr (localType "Config" 0)))) ∧
    formatFieldType (.mapType (builtin "string") (.arrayType (.starExpr (localType "Config" 0))))
        "" true
      = Docgen.formatFieldType
          (.mapType (builtin "string") (.arrayType (.starExpr (localType "Config" 0)))) ∧
    Docgen.formatFieldType
        (.mapType (builtin "string") (.arrayType (.starExpr (localType "Config" 0))))
      = "map[string][]Config" :=
  ⟨(multi_module_resolver_extends_single
      (.mapType (builtin "string") (.arrayType (.starExpr (localType "Config" 0))))
      (by decide) true).1,
    (multi_module_resolver_extends_single
      (.mapType (builtin "string") (.arrayType (.starExpr (localType "Config" 0))))
      (by decide) true).2,
    by decide⟩

/-! ### Names of the documentation variables -/

theorem String.append_left_inj_of_eq (a b c : String) (h : a ++ b = a ++ c) : b = c := by
  have hd := congrArg String.data h
  simp only [String.data_append] at hd
  exact String.ext (List.append_cancel_left hd)

/-- C26, as stated, fails: the record `Request` of the package `http` and the
record `HTTPRequest` of the root package differ in prefix and name, and
`GetEscapedName` is `HTTPRequest` for both. Both are in the graph that
`process` builds for `Config { Local HTTPRequest; Remote http.Request }`:
the names are `HTTPRequest` and `http.Request`, the escaped names are equal,
so the emitted file declares the variable `HTTPRequestDoc` twice. -/
theorem escaped_names_of_two_modules_collide :
    (("http", "Request") : String × String) ≠ ("", "HTTPRequest") ∧
    Struct.GetEscapedName asciiUpper
        { name := "Request", packagePrefix := "http", Text := {}, Fields := [] }
      = Struct.GetEscapedName asciiUpper
        { name := "HTTPRequest", packagePrefix := "", Text := {}, Fields := [] } ∧
    (process scalarLib gatewayProgram 3 [0] "Config" "./pkg" "main" "out.go").toOption.map
      (fun doc => doc.Structs.map (fun s =>
        (s.packagePrefix, s.name, s.GetName, s.GetEscapedName asciiUpper)))
      = some [("", "Config", "Config", "Config"),
              ("", "HTTPRequest", "HTTPRequest", "HTTPRequest"),
              ("http", "Request", "http.Request", "HTTPRequest")] := by
  refine ⟨by decide, by decide, ?_⟩
  rfl

/-- C26, amended: `GetEscapedName` is the name for a record without package
prefix and the upper-cased prefix directly followed by the name otherwise;
two records with the same package prefix and different names have different
escaped names. -/
theorem escaped_names_differ_within_module (toUpper : String → String) (S1 S2 : Struct)
    (hpfx : S1.packagePrefix = S2.packagePrefix) (hname : S1.name ≠ S2.name) :
    S1.GetEscapedName toUpper ≠ S2.GetEscapedName toUpper ∧
    (S1.packagePrefix = "" → S1.GetEscapedName toUpper = S1.name) ∧
    (S1.packagePrefix ≠ "" →
      S1.GetEscapedName toUpper = toUpper S1.packagePrefix ++ S1.name) := by
  refine ⟨?_, fun h => by simp [Struct.GetEscapedName, h],
    fun h => by simp [Struct.GetEscapedName, h]⟩
  intro h
  unfold Struct.GetEscapedName at h
  rw [← hpfx] at h
  by_cases hp : S1.packagePrefix = ""
  · simp only [hp, if_true] at h
    exact hname h
  · simp only [hp, if_false] at h
    exact hname (String.append_left_inj_of_eq _ _ _ h)

/-- C26, amended, at the records `Request` and `Response` of the package
`http`. -/
theorem escaped_names_differ_within_module_witness :
    Struct.GetEscapedName asciiUpper
        { name := "Request", packagePrefix := "http", Text := {}, Fields := [] }
      ≠ Struct.GetEscapedName asciiUpper
        { name := "Response", packagePrefix := "http", Text := {}, Fields := [] } :=
  (escaped_names_differ_within_module asciiUpper
    { name := "Request", packagePrefix := "http", Text := {}, Fields := [] }
    { name := "Response", packagePrefix := "http", Text := {}, Fields := [] } rfl
    (by decide)).1

/-! ### Named types that are no records -/

/-- C24: the code at failing inputs. The record `Settings` has the documented
member `Level Level` where `type Level int` is declared in the same file:
discovery appends a nil entry for `Level` behind `Settings`, and `process`
panics on it in the finalisation loop. The same happens for the member
`In inner` whose type is the unexported record `inner`. Without such a member
`process` returns the graph with `Settings` alone. -/
theorem discover_appends_nil_for_named_non_record :
    (discover scalarLib (settingsWith [levelMember] levelSpec) 2 [0] "Settings" []).toOption.map
        (fun r => r.1.map (Option.map (fun s => s.name)))
      = some [some "Settings", none] ∧
    process scalarLib (settingsWith [levelMember] levelSpec) 2 [0] "Settings" "./pkg" "main"
        "out.go"
      = .error (.panic "nil pointer dereference: s.name") ∧
    (discover scalarLib (settingsWith [innerMember] innerSpec) 2 [0] "Settings" []).toOption.map
        (fun r => r.1.map (Option.map (fun s => s.name)))
      = some [some "Settings", none] ∧
    process scalarLib (settingsWith [innerMember] innerSpec) 2 [0] "Settings" "./pkg" "main"
        "out.go"
      = .error (.panic "nil pointer dereference: s.name") ∧
    (process scalarLib (settingsWith [member "Port" (builtin "int") "port" "The port."] levelSpec)
        2 [0] "Settings" "./pkg" "main" "out.go").toOption.map
        (fun doc => doc.Structs.map (fun s => s.name))
      = some ["Settings"] := by
  refine ⟨by decide, rfl, by decide, rfl, by decide⟩

/-! ### Members of a module that is not among the imports -/

/-- A named, exported member whose type is an identifier of a module missing
from the imports of the package: the field of the member is appended, nothing
is discovered, and the loop goes on. -/
theorem namedStep_unresolved_import (L : Lib) (P : Program) (parse : ParseFn) (s : structType)
    (opts : collectStructOptions) (f : FieldDecl) (name yamlTag documentation : String)
    (t : Ident) (pkg : Package) (c : Char) (cs : List Char)
    (hTyp : f.Typ = .ident t) (hPath : t.Path ≠ "") (hObj : t.Obj = none)
    (hpkg : P.pkgs[opts.pkg]? = some pkg) (hmiss : pkg.Imports.lookup t.Path = none)
    (hname : name.data = c :: cs) (hupper : isUpperByte (leadByte c) = true)
    (fields : List Field) (found : List (Option structType)) (u : Unique) :
    namedStep L P parse s opts f name yamlTag documentation fields found u
      = .ok (.next
          (fields ++ [{ Name := name, Tag := yamlTag,
                        Typ := formatFieldType f.Typ s.packagePrefix false,
                        TypeRef := getFieldType f.Typ s.packagePrefix false,
                        Text := parseComment L documentation }])
          found (if t.String ∈ u then u else t.String :: u)) := by
  unfold namedStep
  by_cases hmem : t.String ∈ u <;>
    simp only [hname, hupper, Bool.not_true, Bool.false_eq_true, if_false, hTyp,
      collectUnresolvedExternalStructs, unresolvedIdent, hObj, unresolvedPath, hPath, ne_eq,
      not_false_eq_true, if_true, hpkg, hmiss, hmem]

/-- C22: the code at the failing input. The record `Settings { Owner Person;
m; Port int }` lives in a package without imports, and `m` has a type of the
module `example.com/x/meta`. When `m` is the named member `Meta meta.Meta`,
`collectFields` returns the fields of `Owner`, `Meta` and `Port` and the
record `Person`. When `m` is the embedded member `meta.Meta`, `collectFields`
leaves by the bare `return`: it returns the field of `Owner` alone and no
record, the field of `Port` and the record `Person` discovered before are
lost, and `process` documents `Settings` with the one field `owner`. Without
`m` the fields are `owner` and `port` and `Person` is discovered. -/
theorem collectFields_stops_at_unresolved_embedded_member :
    (collectFields scalarLib (unresolvedIn [remoteNamed])
        (parseStructuresFromDSTSpec scalarLib (unresolvedIn [remoteNamed]) 2)
        (rootStruct "Settings" ([ownerMember] ++ [remoteNamed] ++ [portMember]))
        { pkg := 0, structName := "Settings" } []).toOption.map
      (fun r => (r.1.1.map (fun field => field.Tag),
        r.1.2.map (Option.map (fun S => S.name)), r.2))
      = some (["owner", "meta", "port"], [some "Person"],
          ["example.com/x/meta.Meta", "Person"]) ∧
    (collectFields scalarLib (unresolvedIn [remoteEmbedded])
        (parseStructuresFromDSTSpec scalarLib (unresolvedIn [remoteEmbedded]) 2)
        (rootStruct "Settings" ([ownerMember] ++ [remoteEmbedded] ++ [portMember]))
        { pkg := 0, structName := "Settings" } []).toOption.map
      (fun r => (r.1.1.map (fun field => field.Tag),
        r.1.2.map (Option.map (fun S => S.name)), r.2))
      = some (["owner"], [], ["Person"]) ∧
    (collectFields scalarLib (unresolvedIn [])
        (parseStructuresFromDSTSpec scalarLib (unresolvedIn []) 2)
        (rootStruct "Settings" ([ownerMember] ++ [] ++ [portMember]))
        { pkg := 0, structName := "Settings" } []).toOption.map
      (fun r => (r.1.1.map (fun field => field.Tag),
        r.1.2.map (Option.map (fun S => S.name)), r.2))
      = some (["owner", "port"], [some "Person"], ["Person"]) ∧
    (process scalarLib (unresolvedIn [remoteNamed]) 3 [0] "Settings" "./pkg" "main"
        "out.go").toOption.map
      (fun doc => doc.Structs.map (fun S => (S.GetName, S.Fields.map (fun field => field.Tag))))
      = some [("Settings", ["owner", "meta", "port"]), ("Person", ["name"])] ∧
    (process scalarLib (unresolvedIn [remoteEmbedded]) 3 [0] "Settings" "./pkg" "main"
        "out.go").toOption.map
      (fun doc => doc.Structs.map (fun S => (S.GetName, S.Fields.map (fun field => field.Tag))))
      = some [("Settings", ["owner"])] := by
  refine ⟨by decide, by decide, by decide, by decide, by decide⟩

/-! ### Exported members -/

/-- Every field that `collectFields` returns for a record of the program has
a name whose first byte, read as a rune, is an upper-case letter: the test
`unicode.IsUpper(rune(name[0]))`. For a name that starts with an ASCII
character this character is one of `A` to `Z`. -/
theorem collectFields_names_lead_byte_upper (L : Lib) (P : Program) (n : Nat) (s : structType)
    (opts : collectStructOptions) (hm : ∀ f ∈ s.node, MemberOf P f) (u u' : Unique)
    (fields : List Field) (found : List (Option structType))
    (h : collectFields L P (parseStructuresFromDSTSpec L P n) s opts u
      = .ok ((fields, found), u')) :
    ∀ field ∈ fields, ∃ c cs, field.Name.data = c :: cs ∧ isUpperByte (leadByte c) = true ∧
      (c.toNat < 0x80 → 'A' ≤ c ∧ c ≤ 'Z') := by
  intro field hfield
  obtain ⟨f, pfx, _, yamlTags, name, names, c, cs, _, _, _, _, _, hc, hupper, hrec⟩ :=
    (collectFields_good (parseStructuresFromDSTSpec_good L P n) s opts hm u _ u' h).1 field hfield
  refine ⟨c, cs, by rw [hrec]; exact hc, hupper, fun hascii => ?_⟩
  have hlead : leadByte c = c.toNat := by simp [leadByte, hascii]
  rw [hlead] at hupper
  simp only [isUpperByte, Bool.or_eq_true, Bool.and_eq_true, decide_eq_true_eq] at hupper
  have hrange : 0x41 ≤ c.toNat ∧ c.toNat ≤ 0x5A := by omega
  refine ⟨?_, ?_⟩
  · show ('A' : Char).toNat ≤ c.toNat
    exact hrange.1
  · show c.toNat ≤ ('Z' : Char).toNat
    exact hrange.2

/-- C21: the code at the failing input. The member `école Person` (tagged
`ecole`, documented) has an unexported name: its first character `é`, U+00E9,
is a lower-case letter, for which `unicode.IsUpper` is false. The first byte
of the name is 0xC3, which `unicode.IsUpper(rune(name[0]))` reads as the
upper-case letter U+00C3, so `collectFields` returns a Field named `école`
and discovers `Person` through it. The member `owner Person`, whose name
starts with an ASCII lower-case letter, yields no Field and no discovery. -/
theorem collectFields_keeps_unexported_member_with_upper_lead_byte :
    "école".data.head? = some 'é' ∧ 'é'.toNat = 0xE9 ∧ isUpperByte 'é'.toNat = false ∧
    leadByte 'é' = 0xC3 ∧ isUpperByte (leadByte 'é') = true ∧
    (collectFields scalarLib
        (settingsWith [member "école" (localType "Person" 1) "ecole" "The school."] personSpec)
        (parseStructuresFromDSTSpec scalarLib
          (settingsWith [member "école" (localType "Person" 1) "ecole" "The school."]
            personSpec) 2)
        (rootStruct "Settings" [member "école" (localType "Person" 1) "ecole" "The school."])
        { pkg := 0, structName := "Settings" } []).toOption.map
      (fun r => (r.1.1.map (fun field => (field.Name, field.Tag)),
        r.1.2.map (Option.map (fun S => S.name)), r.2))
      = some ([("école", "ecole")], [some "Person"], ["Person"]) ∧
    (collectFields scalarLib
        (settingsWith [member "owner" (localType "Person" 1) "owner" "The owner."] personSpec)
        (parseStructuresFromDSTSpec scalarLib
          (settingsWith [member "owner" (localType "Person" 1) "owner" "The owner."]
            personSpec) 2)
        (rootStruct "Settings" [member "owner" (localType "Person" 1) "owner" "The owner."])
        { pkg := 0, structName := "Settings" } []).toOption.map
      (fun r => (r.1.1.map (fun field => (field.Name, field.Tag)),
        r.1.2.map (Option.map (fun S => S.name)), r.2))
      = some ([], [], []) := by
  refine ⟨by decide, by decide, by decide, by decide, by decide, by decide, by decide⟩

end Dst

end Yamldoc
